import Mathlib

/-!
# sflags: the struct walker of `parser.go`

A shallow embedding of `ParseStruct`, `parseStruct`, `parseVal`, `parseFlagTag` and
`parseEnv`.  Go's reflection is replaced by an explicit description of the configuration
type (`GoType`), the configuration value is a tree (`GoValue`) that the walker reads and
updates through paths, and a run-time panic of package `reflect` is an `Except.error`.
Go strings are Lean strings: the source only splits at `,` and at a blank and tests for a
leading `~`, which reads the same on bytes and on characters. Two pointers of a
configuration never share their target in this model.

The files of the package that are not part of this development (the naming helpers and the
generated value constructors) are taken as a parameter, `Pkg`.
-/

namespace Sflags

/-! ## Go strings -/

/-- The pieces of a list of characters between the occurrences of `sep`. -/
def splitChars (sep : Char) : List Char → List (List Char)
  | [] => [[]]
  | c :: cs =>
    if c = sep then [] :: splitChars sep cs
    else
      match splitChars sep cs with
      | piece :: pieces => (c :: piece) :: pieces
      | [] => [[c]]

/-- Go `strings.Split(s, sep)` for a separator of one character: the result is never empty,
and `strings.Split("", sep)` is the one-element list holding the empty string. -/
def stringsSplit (s : String) (sep : Char) : List String :=
  (splitChars sep s.data).map String.mk

/-- Go `strings.HasPrefix(s, p)`. -/
def hasPrefix (s p : String) : Bool :=
  p.data.isPrefixOf s.data

/-- Go `s[1:]`, used by the source only behind `strings.HasPrefix(s, "~")`. -/
def dropFirst (s : String) : String :=
  String.mk (s.data.drop 1)

/-! ## Reflection: kinds, struct fields, types and values -/

/-- Go `reflect.Kind`. -/
inductive Kind
  | Invalid | Bool | Int | Int8 | Int16 | Int32 | Int64
  | Uint | Uint8 | Uint16 | Uint32 | Uint64 | Uintptr
  | Float32 | Float64 | Complex64 | Complex128
  | Array | Chan | Func | Interface | Map | Ptr | Slice | String | Struct | UnsafePointer
  deriving DecidableEq, Repr

/-- Go `reflect.StructTag`, as the key/value pairs that `Lookup` scans in order. -/
structure StructTag where
  pairs : List (String × String)
  deriving DecidableEq, Repr

/-- Go `StructTag.Get(key)`: the value of the first pair with this key, the empty string when
there is none. -/
def StructTag.Get (tag : StructTag) (key : String) : String :=
  match tag.pairs.find? (fun p => p.1 == key) with
  | some p => p.2
  | none => ""

/-- Go `reflect.StructField` without its type, which `FieldList.cons` carries. `PkgPath` is
empty exactly for an exported field. -/
structure StructField where
  Name : String
  PkgPath : String := ""
  Tag : StructTag := StructTag.mk []
  Anonymous : Bool := false
  deriving DecidableEq, Repr

mutual
/-- A Go type as the walker sees it. `other` stands for a type of any kind except pointer,
map and struct. A self-referential struct type is not a finite tree and has no `GoType`. -/
inductive GoType
  | other (name : String) (kind : Kind)
  | ptr (name : String) (elem : GoType)
  | map (name : String) (key : GoType) (elem : GoType)
  | struct (name : String) (fields : FieldList)
/-- The fields of a struct type in declaration order. -/
inductive FieldList
  | nil
  | cons (field : StructField) (typ : GoType) (rest : FieldList)
end

/-- Go `reflect.Type.Kind()`. -/
def GoType.Kind : GoType → Kind
  | .other _ k => k
  | .ptr _ _ => .Ptr
  | .map _ _ _ => .Map
  | .struct _ _ => .Struct

/-- The content of a piece of storage. `zero` is the zero value of a type that is not a
pointer, map or struct, `data` any other value of such a type, given by a text. -/
inductive GoValue
  | zero
  | data (text : String)
  | nilPtr
  | ptrTo (target : GoValue)
  | nilMap
  | mapOf (entries : List (String × String))
  | struct (fields : List GoValue)

mutual
/-- The zero value of a type (`reflect.New(t)` points to it). -/
def zeroValue : GoType → GoValue
  | .other _ _ => .zero
  | .ptr _ _ => .nilPtr
  | .map _ _ _ => .nilMap
  | .struct _ fields => .struct (zeroFields fields)
/-- The zero values of the fields of a struct type. -/
def zeroFields : FieldList → List GoValue
  | .nil => []
  | .cons _ typ rest => zeroValue typ :: zeroFields rest
end

/-- One step from a piece of storage to a part of it. -/
inductive Step
  | field (i : Nat)
  | deref
  deriving DecidableEq, Repr

/-- Go `reflect.Value.IsNil()` on the content of a pointer or of a map. -/
def GoValue.IsNil : GoValue → Bool
  | .nilPtr => true
  | .nilMap => true
  | _ => false

/-- The content found by following `path` from `v` (`Field(i)` and `Elem()`). -/
def GoValue.get : GoValue → List Step → GoValue
  | v, [] => v
  | .struct fields, .field i :: path => (fields.getD i .zero).get path
  | .ptrTo target, .deref :: path => target.get path
  | _, _ :: _ => .zero

/-- The value `v` with the content at `path` replaced by `x` (`reflect.Value.Set` through
an addressable value). -/
def GoValue.set : GoValue → List Step → GoValue → GoValue
  | _, [], x => x
  | .struct fields, .field i :: path, x =>
    .struct (fields.set i ((fields.getD i .zero).set path x))
  | .ptrTo target, .deref :: path, x => .ptrTo (target.set path x)
  | v, _ :: _, _ => v

/-- What a Go `interface{}` holds: nothing, or a dynamic type and a value. -/
abbrev Interface := Option (GoType × GoValue)

/-! ## Options -/

/-- Go `ValidateFunc`: the text, the field and the configuration handed over; `none` is a
nil error. -/
abbrev ValidateFunc := String → StructField → GoValue → Option String

/-- Go `opts`. The Go field `prefix` is `namePrefix` here. -/
structure opts where
  descTag : String
  flagTag : String
  namePrefix : String
  envPrefix : String
  flagDivider : String
  envDivider : String
  flatten : Bool
  validator : Option ValidateFunc
  inheritHidden : Bool
  hidden : Bool
  inheritDeprecated : Bool
  deprecated : Bool

/-- Go `OptFunc`: a function that updates the options in place. -/
abbrev OptFunc := opts → opts

/-- Go `opts.apply`. -/
def opts.apply (o : opts) (optFuncs : List OptFunc) : opts :=
  optFuncs.foldl (fun acc optFunc => optFunc acc) o

def DescTag (val : String) : OptFunc := fun opt => { opt with descTag := val }

def FlagTag (val : String) : OptFunc := fun opt => { opt with flagTag := val }

def Prefix (val : String) : OptFunc := fun opt => { opt with namePrefix := val }

def InheritHidden : OptFunc := fun opt => { opt with inheritHidden := true }

def hidden (val : Bool) : OptFunc := fun opt => { opt with hidden := val }

def InheritDeprecated : OptFunc := fun opt => { opt with inheritDeprecated := true }

def deprecated (val : Bool) : OptFunc := fun opt => { opt with deprecated := val }

def EnvPrefix (val : String) : OptFunc := fun opt => { opt with envPrefix := val }

def FlagDivider (val : String) : OptFunc := fun opt => { opt with flagDivider := val }

def EnvDivider (val : String) : OptFunc := fun opt => { opt with envDivider := val }

def Validator (val : ValidateFunc) : OptFunc := fun opt => { opt with validator := some val }

def Flatten (val : Bool) : OptFunc := fun opt => { opt with flatten := val }

def copyOpts (val : opts) : OptFunc := fun _ => val

def defaultEnvTag : String := "env"

def hasOption (options : List String) (option : String) : Bool :=
  match options with
  | [] => false
  | opt :: rest => if opt = option then true else hasOption rest option

def defOpts : opts where
  descTag := "desc"
  flagTag := "flag"
  namePrefix := ""
  envPrefix := ""
  flagDivider := "-"
  envDivider := "_"
  flatten := true
  validator := none
  inheritHidden := false
  hidden := false
  inheritDeprecated := false
  deprecated := false

/-! ## Value handles and flag descriptors -/

/-- Which part of the package produced a value handle. -/
inductive ValueSource
  | generated
  | generatedPtrs
  | generatedMap
  | implemented
  deriving DecidableEq, Repr

/-- Go `Value`: a handle bound to the storage at `path` (of type `typ`), or the
`validateValue` wrapper with what its closure captures: the validator, the field and the
struct value being walked (`value.Interface()` is taken when `Set` runs). -/
inductive Value
  | bound (source : ValueSource) (typ : GoType) (path : List Step)
  | validateValue (inner : Value) (validator : ValidateFunc) (field : StructField)
      (structRO : Bool) (structPath : List Step)

/-- Go `Flag`. -/
structure Flag where
  Name : String := ""
  Short : String := ""
  EnvNames : List String := []
  Usage : String := ""
  Value : Option Value := none
  DefValue : String := ""
  Hidden : Bool := false
  Deprecated : Bool := false
  Required : Bool := false

/-- The files of package sflags this development does not hold, as a parameter: the two
naming helpers, the three generated type switches (each told the type of the storage whose
address they are given), whether the address of a storage of a type implements `Value`, the
table of map key kinds, and `String()` of a handle on given content. -/
structure Pkg where
  camelToFlag : String → String → String
  flagToEnv : String → String → String → String
  parseGenerated : GoType → Bool
  parseGeneratedPtrs : GoType → Bool
  parseGeneratedMap : GoType → Bool
  implementsValue : GoType → Bool
  MapAllowedKinds : List Kind
  valueString : ValueSource → GoType → GoValue → String

/-- Go `val.String()` in the state `σ`; the wrapper forwards to the value it embeds. -/
def Value.String (d : Pkg) (σ : GoValue) : Value → String
  | .bound source typ path => d.valueString source typ (σ.get path)
  | .validateValue inner _ _ _ _ => inner.String d σ

/-- A run-time panic of package `reflect`: `Set` on, or `Interface` of, a value obtained
through an unexported field. -/
inductive Panic
  | setUnexported
  | interfaceUnexported
  deriving DecidableEq, Repr

/-! ## The tag grammar: `parseFlagTag` and `parseEnv` -/

/-- The `default` case of the switch in `parseFlagTag`: the short alias is split off at the
first blank, then a leading `~` is dropped and recorded. Returns the name, the short alias
and `ignoreFlagPrefix`. -/
def parseFlagName (fName : String) : String × String × Bool :=
  let (fName, short) :=
    match stringsSplit fName ' ' with
    | first :: second :: _ => (first, second)
    | _ => (fName, "")
  if hasPrefix fName "~" then (dropFirst fName, short, true) else (fName, short, false)

/-- Go `parseFlagTag`; `none` is the nil result that makes the walker skip the field. -/
def parseFlagTag (d : Pkg) (field : StructField) (opt : opts) : Option Flag :=
  let derived := d.camelToFlag field.Name opt.flagDivider
  let parsed : Option (Flag × Bool) :=
    match stringsSplit (field.Tag.Get opt.flagTag) ',' with
    | [] => some ({ Name := derived }, false)
    | fName :: options =>
      if fName = "-" then none
      else
        let (name, short, ignoreFlagPrefix) :=
          if fName = "" then (derived, "", false) else parseFlagName fName
        some ({ Name := name, Short := short,
                Hidden := hasOption options "hidden",
                Deprecated := hasOption options "deprecated",
                Required := hasOption options "required" }, ignoreFlagPrefix)
  match parsed with
  | none => none
  | some (flag, ignoreFlagPrefix) =>
    let flag :=
      if opt.namePrefix ≠ "" ∧ ignoreFlagPrefix = false then
        { flag with Name := opt.namePrefix ++ flag.Name }
      else flag
    let flag := if opt.deprecated then { flag with Deprecated := opt.deprecated } else flag
    let flag := if opt.hidden then { flag with Hidden := opt.hidden } else flag
    some flag

/-- The body of the loop over the explicit names of an env tag: what one name appends. -/
def parseEnvName (d : Pkg) (opt : opts) (envName : String) : List String :=
  if hasPrefix envName "~" then
    let envVar := dropFirst envName
    if envVar ≠ "" then [envVar] else []
  else
    let envVar :=
      if opt.namePrefix ≠ "" then
        d.flagToEnv opt.namePrefix opt.flagDivider opt.envDivider ++ envName
      else envName
    if envVar ≠ "" then [opt.envPrefix ++ envVar] else []

/-- Go `parseEnv`. -/
def parseEnv (d : Pkg) (flagName : String) (field : StructField) (opt : opts) : List String :=
  let flagEnvVar := d.flagToEnv flagName opt.flagDivider opt.envDivider
  match stringsSplit (field.Tag.Get defaultEnvTag) ',' with
  | [] => if flagEnvVar ≠ "" then [opt.envPrefix ++ flagEnvVar] else []
  | envName :: rest =>
    if envName = "-" then []
    else if envName = "" then [opt.envPrefix ++ flagEnvVar]
    else (envName :: rest).foldl (fun envVars name => envVars ++ parseEnvName d opt name) []

/-! ## The walker: `parseVal`, `parseStruct`, `ParseStruct` -/

/-- The first block of `parseVal`: `value.CanAddr()` holds for every value the walker
reaches, `value.Addr().CanInterface()` fails exactly for a value obtained through an
unexported field (`ro`); then the generated constructors and the `Value` interface are
tried on the address. -/
def addrValue (d : Pkg) (typ : GoType) (ro : Bool) (path : List Step) : Option Value :=
  if ro then none
  else if d.parseGenerated typ then some (.bound .generated typ path)
  else if d.implementsValue typ then some (.bound .implemented typ path)
  else none

/-- Go `anyOf`. -/
def anyOf (kinds : List Kind) (needle : Kind) : Bool :=
  match kinds with
  | [] => false
  | kind :: rest => if kind = needle then true else anyOf rest needle

/-- The options handed to `parseVal` for a field: `nestedOpts` of `parseStruct`. -/
def nestedOptFuncs (opt : opts) (field : StructField) (flag : Flag) : List OptFunc :=
  let nestedPrefix :=
    if field.Anonymous && opt.flatten then opt.namePrefix else flag.Name ++ opt.flagDivider
  let nestedOpts := [copyOpts opt, Prefix nestedPrefix]
  let nestedOpts :=
    if opt.inheritHidden then nestedOpts ++ [hidden flag.Hidden] else nestedOpts
  let nestedOpts :=
    if opt.inheritDeprecated then nestedOpts ++ [deprecated flag.Deprecated] else nestedOpts
  nestedOpts

/-- The draft descriptor of a field as `parseStruct` completes it before the dispatch. -/
def draftFlag (d : Pkg) (field : StructField) (opt : opts) (flag : Flag) : Flag :=
  { flag with EnvNames := parseEnv d flag.Name field opt, Usage := field.Tag.Get opt.descTag }

/-- The validator wrapper of `parseStruct`, put around a handle when a validator is set. -/
def wrapValue (opt : opts) (field : StructField) (ro : Bool) (path : List Step)
    (val : Value) : Value :=
  match opt.validator with
  | some validator => .validateValue val validator field ro path
  | none => val

mutual
/-- Go `parseVal` on the value of type `typ` stored at `path` in the state `σ`; `ro` says
that it was obtained through an unexported field. Returns the nested flags, the handle and
the state after the allocations. A nil slice of flags is the empty list. -/
def parseVal (d : Pkg) : GoType → Bool → List Step → GoValue → List OptFunc →
    Except Panic (List Flag × Option Value × GoValue)
  | .ptr name elem, ro, path, σ, optFuncs =>
    match addrValue d (.ptr name elem) ro path with
    | some val => .ok ([], some val, σ)
    | none =>
      if (σ.get path).IsNil && ro then .error .setUnexported
      else if ro then .error .interfaceUnexported
      else
        let σ := if (σ.get path).IsNil then σ.set path (.ptrTo (zeroValue elem)) else σ
        if d.parseGeneratedPtrs (.ptr name elem) then
          .ok ([], some (.bound .generatedPtrs (.ptr name elem) path), σ)
        else parseVal d elem ro (path ++ [.deref]) σ optFuncs
  | .struct name fields, ro, path, σ, optFuncs =>
    match addrValue d (.struct name fields) ro path with
    | some val => .ok ([], some val, σ)
    | none =>
      match parseFields d fields 0 ro path σ (defOpts.apply optFuncs) [] with
      | .error p => .error p
      | .ok (flags, σ) => .ok (flags, none, σ)
  | .map name key elem, ro, path, σ, _ =>
    match addrValue d (.map name key elem) ro path with
    | some val => .ok ([], some val, σ)
    | none =>
      if !anyOf d.MapAllowedKinds key.Kind then .ok ([], none, σ)
      else if (σ.get path).IsNil && ro then .error .setUnexported
      else if ro then .error .interfaceUnexported
      else
        let σ := if (σ.get path).IsNil then σ.set path (.mapOf []) else σ
        if d.parseGeneratedMap (.map name key elem) then
          .ok ([], some (.bound .generatedMap (.map name key elem) path), σ)
        else .ok ([], none, σ)
  | .other name kind, ro, path, σ, _ =>
    match addrValue d (.other name kind) ro path with
    | some val => .ok ([], some val, σ)
    | none => .ok ([], none, σ)
/-- The loop of Go `parseStruct` from field `i` on, over the remaining fields of the struct
stored at `path`; `flags` is what the earlier iterations appended. -/
def parseFields (d : Pkg) : FieldList → Nat → Bool → List Step → GoValue → opts →
    List Flag → Except Panic (List Flag × GoValue)
  | .nil, _, _, _, σ, _, flags => .ok (flags, σ)
  | .cons field typ rest, i, ro, path, σ, opt, flags =>
    if field.PkgPath ≠ "" ∧ field.Anonymous = false then
      parseFields d rest (i + 1) ro path σ opt flags
    else
      match parseFlagTag d field opt with
      | none => parseFields d rest (i + 1) ro path σ opt flags
      | some flag =>
        let flag := draftFlag d field opt flag
        match parseVal d typ (decide (field.PkgPath ≠ "")) (path ++ [.field i]) σ
            (nestedOptFuncs opt field flag) with
        | .error p => .error p
        | .ok (_, some val, σ) =>
          let val := wrapValue opt field ro path val
          parseFields d rest (i + 1) ro path σ opt
            (flags ++ [{ flag with Value := some val, DefValue := val.String d σ }])
        | .ok (nestedFlags, none, σ) =>
          if nestedFlags.length > 0 then
            parseFields d rest (i + 1) ro path σ opt (flags ++ nestedFlags)
          else parseFields d rest (i + 1) ro path σ opt flags
end

/-- Go `parseStruct` on the struct with the given fields stored at `path`. -/
def parseStruct (d : Pkg) (fields : FieldList) (ro : Bool) (path : List Step) (σ : GoValue)
    (optFuncs : List OptFunc) : Except Panic (List Flag × GoValue) :=
  parseFields d fields 0 ro path σ (defOpts.apply optFuncs) []

/-- The two errors of `ParseStruct`. -/
def errNilConfig : String := "object cannot be nil"

def errInvalidConfigType : String := "object must be a pointer to struct or interface"

/-- Go `ParseStruct`. The result is the returned pair (a nil list is `none`, a nil error is
`none`) and what `cfg` holds after the call. -/
def ParseStruct (d : Pkg) (cfg : Interface) (optFuncs : List OptFunc) :
    Except Panic ((Option (List Flag) × Option String) × Interface) :=
  match cfg with
  | none => .ok ((none, some errNilConfig), cfg)
  | some (.ptr name elem, v) =>
    if v.IsNil then .ok ((none, some errNilConfig), cfg)
    else
      match elem with
      | .struct _ fields =>
        match parseStruct d fields false [.deref] v optFuncs with
        | .error p => .error p
        | .ok (flags, σ) => .ok ((some flags, none), some (.ptr name elem, σ))
      | _ => .ok ((none, some errInvalidConfigType), cfg)
  | some (_, _) => .ok ((none, some errInvalidConfigType), cfg)

/-! ## The parts of the package outside this development, modelled for the examples -/

def isUpper (c : Char) : Bool := decide ('A' ≤ c ∧ c ≤ 'Z')

def isLower (c : Char) : Bool := decide ('a' ≤ c ∧ c ≤ 'z')

def isDigit (c : Char) : Bool := decide ('0' ≤ c ∧ c ≤ '9')

def toLower (c : Char) : Char := if isUpper c then Char.ofNat (c.toNat + 32) else c

def toUpper (c : Char) : Char := if isLower c then Char.ofNat (c.toNat - 32) else c

/-- Whether a token ends between `p` and `c`, where `next` is the character after `c`:
lower to upper, digit to letter, and before the last letter of an upper-case run that a
lower-case letter follows. -/
def camelBoundary (p c : Char) (next : Option Char) : Bool :=
  (isLower p && isUpper c) || (isDigit p && (isUpper c || isLower c)) ||
    (isUpper p && isUpper c && (next.map isLower).getD false)

/-- The tokens of an identifier after its first character `p`, the current token being
`cur` (reversed). -/
def camelTokens : Char → List Char → List Char → List (List Char)
  | _, cur, [] => [cur.reverse]
  | p, cur, c :: cs =>
    if camelBoundary p c cs.head? then cur.reverse :: camelTokens c [c] cs
    else camelTokens c (c :: cur) cs

/-- The tokens of an identifier. -/
def camelSplit : List Char → List (List Char)
  | [] => []
  | c :: cs => camelTokens c [c] cs

/-- The characters of `s` without the leading ones that occur in `cutset`. -/
def trimLeft (cutset : List Char) : List Char → List Char
  | [] => []
  | c :: cs => if c ∈ cutset then trimLeft cutset cs else c :: cs

/-- Modelled from the spec: `camelToFlag` (the identifier-to-flag-name conversion of the
naming engine, whose file is not part of this development): the identifier is split at
letter-case boundaries, each token is lower-cased, the tokens are joined with the divider,
and leading and trailing dividers are trimmed; the empty identifier gives the empty name. -/
def camelToFlag (s : String) (flagDivider : String) : String :=
  let joined := flagDivider.data.intercalate ((camelSplit s.data).map (List.map toLower))
  String.mk (trimLeft flagDivider.data (trimLeft flagDivider.data joined).reverse).reverse

/-- Every occurrence of `old` in the characters replaced by `new`, left to right; `fuel`
bounds the number of steps and the length of the input is enough. An empty `old` occurs
nowhere. -/
def replaceAll (old new : List Char) : Nat → List Char → List Char
  | 0, s => s
  | _ + 1, [] => []
  | fuel + 1, c :: cs =>
    if old ≠ [] ∧ old.isPrefixOf (c :: cs) = true then
      new ++ replaceAll old new fuel ((c :: cs).drop old.length)
    else c :: replaceAll old new fuel cs

/-- Modelled from the spec: `flagToEnv` (the flag-name-to-env-name conversion of the naming
engine, whose file is not part of this development): every occurrence of the flag divider
is replaced by the env divider and the result is upper-cased. -/
def flagToEnv (s : String) (flagDivider : String) (envDivider : String) : String :=
  String.mk ((replaceAll flagDivider.data envDivider.data s.data.length s.data).map toUpper)

/-- Modelled from the spec: the value registry (the generated constructors, whose file is
not part of this development), restricted to the kinds that `parser_test.go` exercises: a
constructor for the address of a `string`, `int`, `uint8`, `float64`, `[]string`, `[]bool`
or `net.TCPAddr`, one for the address of a `*regexp.Regexp`, one for the address of a map
from a string or integer kind to a basic kind, `Counter` implementing `Value` itself, and
string and integer kinds as map keys. `String()` shows the text of the content. -/
def testPkg : Pkg where
  camelToFlag := camelToFlag
  flagToEnv := flagToEnv
  parseGenerated := fun t =>
    match t with
    | .other "string" .String => true
    | .other "int" .Int => true
    | .other "uint8" .Uint8 => true
    | .other "float64" .Float64 => true
    | .other "[]string" .Slice => true
    | .other "[]bool" .Slice => true
    | .struct "net.TCPAddr" _ => true
    | _ => false
  parseGeneratedPtrs := fun t =>
    match t with
    | .ptr "" (.struct "regexp.Regexp" _) => true
    | _ => false
  parseGeneratedMap := fun t =>
    match t with
    | .map "" (.other _ _) (.other _ _) => true
    | _ => false
  implementsValue := fun t =>
    match t with
    | .other "sflags.Counter" .Int => true
    | _ => false
  MapAllowedKinds :=
    [.String, .Int, .Int8, .Int16, .Int32, .Int64, .Uint, .Uint8, .Uint16, .Uint32, .Uint64]
  valueString := fun _ _ v =>
    match v with
    | .data text => text
    | _ => ""

/-! ## Definitions used to state the properties of the walker -/

/-- What the iteration of the loop of `parseStruct` for one field appends to `flags`, and
the state after it: nothing for a skipped field, the completed descriptor when `parseVal`
returns a handle, and the nested flags otherwise. -/
def parseField (d : Pkg) (field : StructField) (typ : GoType) (i : Nat) (ro : Bool)
    (path : List Step) (σ : GoValue) (opt : opts) : Except Panic (List Flag × GoValue) :=
  if field.PkgPath ≠ "" ∧ field.Anonymous = false then .ok ([], σ)
  else
    match parseFlagTag d field opt with
    | none => .ok ([], σ)
    | some flag =>
      let flag := draftFlag d field opt flag
      match parseVal d typ (decide (field.PkgPath ≠ "")) (path ++ [.field i]) σ
          (nestedOptFuncs opt field flag) with
      | .error p => .error p
      | .ok (_, some val, σ) =>
        let val := wrapValue opt field ro path val
        .ok ([{ flag with Value := some val, DefValue := val.String d σ }], σ)
      | .ok (nestedFlags, none, σ) => .ok (nestedFlags, σ)

/-- The concatenation, over the fields in declaration order, of what each field
contributes, the state being handed from one field to the next. -/
def concatFields (d : Pkg) : FieldList → Nat → Bool → List Step → GoValue → opts →
    Except Panic (List Flag × GoValue)
  | .nil, _, _, _, σ, _ => .ok ([], σ)
  | .cons field typ rest, i, ro, path, σ, opt =>
    match parseField d field typ i ro path σ opt with
    | .error p => .error p
    | .ok (own, σ) =>
      match concatFields d rest (i + 1) ro path σ opt with
      | .error p => .error p
      | .ok (more, σ) => .ok (own ++ more, σ)

mutual
/-- The fields of a type at every nesting depth, in declaration order, each before the
fields of its own type. -/
def GoType.allFields : GoType → List StructField
  | .other _ _ => []
  | .ptr _ elem => elem.allFields
  | .map _ _ _ => []
  | .struct _ fields => fields.allFields
/-- The fields of a field list at every nesting depth. -/
def FieldList.allFields : FieldList → List StructField
  | .nil => []
  | .cons field typ rest => field :: (typ.allFields ++ rest.allFields)
end

/-- Whether the type is a pointer or a map. -/
def GoType.isPtrOrMap : GoType → Bool
  | .ptr _ _ => true
  | .map _ _ _ => true
  | _ => false

mutual
/-- No field that the walker visits is an anonymous unexported field of pointer or map type:
fields that are unexported and not anonymous are not visited. -/
def GoType.settable : GoType → Bool
  | .other _ _ => true
  | .ptr _ elem => elem.settable
  | .map _ _ _ => true
  | .struct _ fields => fields.settable
/-- The same for the fields of a struct type. -/
def FieldList.settable : FieldList → Bool
  | .nil => true
  | .cons field typ rest =>
    if field.PkgPath ≠ "" ∧ field.Anonymous = false then rest.settable
    else (decide (field.PkgPath = "") || !typ.isPtrOrMap) && typ.settable && rest.settable
end

/-- The options of the walk below a field, as `parseStruct` of the nested struct computes
them from the option functions it is given. -/
def nestedOpts (opt : opts) (field : StructField) (flag : Flag) : opts :=
  defOpts.apply (nestedOptFuncs opt field flag)

/-- The descriptor `g` is the draft of one of the given fields, parsed under options that
satisfy `Q`, completed with a value handle and a default value. -/
def Origin (d : Pkg) (Q : opts → Prop) (fields : List StructField) (g : Flag) : Prop :=
  ∃ field ∈ fields, ∃ opt flag, Q opt ∧ parseFlagTag d field opt = some flag ∧
    g = { draftFlag d field opt flag with Value := g.Value, DefValue := g.DefValue }

/-! ## The configurations of `parser_test.go` used as concrete inputs -/

def stringType : GoType := .other "string" .String

def intType : GoType := .other "int" .Int

def float64Type : GoType := .other "float64" .Float64

/-- The tag of a field, from its key/value pairs. -/
def tagOf (pairs : List (String × String)) : StructTag := StructTag.mk pairs

/-- The type `simple` of the tests: `struct { Name string }`. -/
def simpleType : GoType :=
  .struct "sflags.simple" (.cons { Name := "Name" } stringType .nil)

/-- The fields of `simpleCfg` of the tests. -/
def simpleCfgFields : FieldList :=
  .cons { Name := "Name", Tag := tagOf [("desc", "name description"), ("env", "-")] }
    stringType <|
  .cons { Name := "Name2", Tag := tagOf [("flag", "name_two t,hidden,deprecated")] }
    stringType <|
  .cons { Name := "Name3", Tag := tagOf [("env", "NAME_THREE")] } stringType <|
  .cons { Name := "Name4" } (.ptr "" stringType) <|
  .cons { Name := "Name5", Tag := tagOf [("flag", "-")] } stringType <|
  .cons { Name := "name6", PkgPath := "sflags" } stringType <|
  .cons { Name := "Name7", Tag := tagOf [("flag", ",required")] } intType <|
  .cons { Name := "Name8", Tag := tagOf [("flag", "name_8"), ("env", "NAME_8,~nn_8")] }
    float64Type <|
  .cons { Name := "Addr" } (.ptr "" (.struct "net.TCPAddr" .nil)) <|
  .cons { Name := "Map" } (.map "" stringType intType) <|
  .nil

/-- The value of `simpleCfg` of the tests. -/
def simpleCfgValue : GoValue :=
  .ptrTo (.struct [.data "name_value", .data "name2_value", .zero,
    .ptrTo (.data "name_value4"), .zero, .data "name6_value", .zero, .zero,
    .ptrTo (.struct []), .mapOf [("test", "15")]])

/-- The fields of `nestedCfg.Sub.SUB2` of the tests. -/
def sub2Fields : FieldList :=
  .cons { Name := "Name4" } stringType <|
  .cons { Name := "Name5", Tag := tagOf [("env", "name_five")] } stringType <|
  .nil

/-- The fields of `nestedCfg.Sub` of the tests. -/
def subFields : FieldList :=
  .cons { Name := "Name", Tag := tagOf [("desc", "name description")] } stringType <|
  .cons { Name := "Name2", Tag := tagOf [("env", "NAME_TWO")] } stringType <|
  .cons { Name := "Name3", Tag := tagOf [("flag", "~name3"), ("env", "~NAME_THREE")] }
    stringType <|
  .cons { Name := "SUB2" } (.ptr "" (.struct "" sub2Fields)) <|
  .nil

/-- The fields of `nestedCfg` of the tests. -/
def nestedCfgFields : FieldList :=
  .cons { Name := "Sub" } (.struct "" subFields) .nil

/-- The value of `nestedCfg` of the tests, with `SUB2` left nil. -/
def nestedCfgValue : GoValue :=
  .ptrTo (.struct [.struct [.data "name_value", .data "name2_value", .zero, .nilPtr]])

/-- The field `Sub` of `hiddenNestedCfg` (keyword `hidden`) and of `deprecatedNestedCfg`
(keyword `deprecated`) of the tests. -/
def markedSubField (keyword : String) : StructField :=
  { Name := "Sub", Tag := tagOf [("flag", "," ++ keyword)] }

/-- The type of the field `Sub` of `hiddenNestedCfg` and of `deprecatedNestedCfg`. -/
def markedSubType : GoType :=
  .struct "" (
    .cons { Name := "Name" } stringType <|
    .cons { Name := "Sub2" } (.struct "" (.cons { Name := "Name" } stringType .nil)) <|
    .nil)

/-- The fields of `hiddenNestedCfg` and of `deprecatedNestedCfg` of the tests. -/
def markedCfgFields (keyword : String) : FieldList :=
  .cons (markedSubField keyword) markedSubType <|
  .cons { Name := "Sub3" } (.struct "" (.cons { Name := "Name" } stringType .nil)) <|
  .nil

/-- The fields of `anonymousCfg` of the tests. -/
def anonymousCfgFields : FieldList :=
  .cons { Name := "Name1" } stringType <|
  .cons { Name := "simple", PkgPath := "sflags", Anonymous := true } simpleType <|
  .nil

/-- A struct with one string field tagged `flag:"~-"`. -/
def dashFields : FieldList :=
  .cons { Name := "Z", Tag := tagOf [("flag", "~-")] } stringType .nil

/-- A struct with two string fields, tagged `flag:"~"` and `flag:" s"`. -/
def emptyNameFields : FieldList :=
  .cons { Name := "X", Tag := tagOf [("flag", "~")] } stringType <|
  .cons { Name := "Y", Tag := tagOf [("flag", " s")] } stringType <|
  .nil

/-- The names of the descriptors of a result of `ParseStruct`; empty when it returned an
error or panicked. -/
def namesOf (r : Except Panic ((Option (List Flag) × Option String) × Interface)) :
    List String :=
  match r with
  | .ok ((some flags, _), _) => flags.map (fun g => g.Name)
  | _ => []

/-- The segment of an env tag that declares the name `n.2`, written with a leading `~`
when `n.1` is set. -/
def envSegment (n : Bool × String) : String :=
  if n.1 then "~" ++ n.2 else n.2

/-- The env names of the descriptors of a result of `ParseStruct`. -/
def envNamesOf (r : Except Panic ((Option (List Flag) × Option String) × Interface)) :
    List (List String) :=
  match r with
  | .ok ((some flags, _), _) => flags.map (fun g => g.EnvNames)
  | _ => []

/-- The value of `anonymousCfg` of the tests. -/
def anonymousCfgValue : GoValue :=
  .ptrTo (.struct [.zero, .struct [.data "name_value"]])

/-- The allocation that `parseVal` performs on a pointer: the state with a fresh zero value
of the element type behind the pointer stored at `path` when that pointer is nil. -/
def allocPtr (σ : GoValue) (path : List Step) (elem : GoType) : GoValue :=
  if (σ.get path).IsNil then σ.set path (.ptrTo (zeroValue elem)) else σ

mutual
/-- The fields of a type at every nesting depth, each with its ancestors, the outermost
first. -/
def GoType.chains : GoType → List (List StructField × StructField)
  | .other _ _ => []
  | .ptr _ elem => elem.chains
  | .map _ _ _ => []
  | .struct _ fields => fields.chains
/-- The fields of a field list at every nesting depth, each with its ancestors. -/
def FieldList.chains : FieldList → List (List StructField × StructField)
  | .nil => []
  | .cons field typ rest =>
    ([], field) :: ((typ.chains.map (fun c => (field :: c.1, c.2))) ++ rest.chains)
end

/-- The options of the walk below a chain of ancestors, starting from `opt` above the
outermost one; `none` when one of the ancestors is skipped by `parseFlagTag`. -/
def descend (d : Pkg) : opts → List StructField → Option opts
  | opt, [] => some opt
  | opt, field :: rest =>
    match parseFlagTag d field opt with
    | none => none
    | some flag => descend d (nestedOpts opt field (draftFlag d field opt flag)) rest

/-- The flag tag of the field, read under the key `flagTag`, has the keyword among its
comma segments after the first. -/
def tagHas (flagTag : String) (field : StructField) (keyword : String) : Prop :=
  keyword ∈ (stringsSplit (field.Tag.Get flagTag) ',').tail

/-- The descriptor `g` is the draft of the last field of one of the chains, parsed under
the options that the walk reaches below the ancestors of that field. -/
def EmittedAt (d : Pkg) (opt : opts) (chains : List (List StructField × StructField))
    (g : Flag) : Prop :=
  ∃ c ∈ chains, ∃ opt1 flag, descend d opt c.1 = some opt1 ∧
    parseFlagTag d c.2 opt1 = some flag ∧
    g = { draftFlag d c.2 opt1 flag with Value := g.Value, DefValue := g.DefValue }

/-- The option functions that package sflags exports; `hidden`, `deprecated` and `copyOpts`
are not among them. -/
inductive ExportedOpt : OptFunc → Prop
  | ofDescTag (val : String) : ExportedOpt (DescTag val)
  | ofFlagTag (val : String) : ExportedOpt (FlagTag val)
  | ofPrefix (val : String) : ExportedOpt (Prefix val)
  | ofInheritHidden : ExportedOpt InheritHidden
  | ofInheritDeprecated : ExportedOpt InheritDeprecated
  | ofEnvPrefix (val : String) : ExportedOpt (EnvPrefix val)
  | ofFlagDivider (val : String) : ExportedOpt (FlagDivider val)
  | ofEnvDivider (val : String) : ExportedOpt (EnvDivider val)
  | ofValidator (val : ValidateFunc) : ExportedOpt (Validator val)
  | ofFlatten (val : Bool) : ExportedOpt (Flatten val)

/-- What `Set` of a generated or implemented value makes of a text and of the present
content of its storage: the new content, or an error. A parameter, like `Pkg`. -/
abbrev SetFunc := ValueSource → GoType → String → GoValue → Except String GoValue

/-- A Go string, for the signatures of the methods of `Value`, where `String` names the
method. -/
abbrev Text : Type := String

/-- Modelled from the spec: `Set` of a value handle (the value types and `validateValue`,
whose files are not part of this development). A bound handle writes what its constructor
makes of the text into the storage it is bound to, or returns the error and writes nothing.
The wrapper first calls its `validateFunc`, which is the closure of `parseStruct`: it takes
`value.Interface()` of the struct being walked, a panic when that struct was obtained
through an unexported field, and hands it to the validator with the text and the field; an
error of the validator is returned before the wrapped `Set` is called. The result is the
returned error and the state after the call. -/
def Value.Set (set : SetFunc) : Value → Text → GoValue →
    Except Panic (Option Text × GoValue)
  | .bound source typ path, s, σ =>
    match set source typ s (σ.get path) with
    | .ok x => .ok (none, σ.set path x)
    | .error e => .ok (some e, σ)
  | .validateValue inner validator field structRO structPath, s, σ =>
    if structRO then .error .interfaceUnexported
    else
      match validator s field (σ.get structPath) with
      | some e => .ok (some e, σ)
      | none => inner.Set set s σ

/-- Modelled from the spec: `Set` of the generated values used by the examples stores the
text it is given. -/
def testSet : SetFunc := fun _ _ s _ => .ok (.data s)

/-- What `Set(s)` on the value of the `n`-th descriptor of a result of `ParseStruct`
returns, in the state that `ParseStruct` left. -/
def setErrorOf (set : SetFunc)
    (r : Except Panic ((Option (List Flag) × Option String) × Interface)) (n : Nat)
    (s : String) : Except Panic (Option String) :=
  match r with
  | .ok ((some flags, _), some (_, σ)) =>
    match flags.get? n with
    | some g =>
      match g.Value with
      | some val =>
        match val.Set set s σ with
        | .ok (e, _) => .ok e
        | .error p => .error p
      | none => .ok none
    | none => .ok none
  | _ => .ok none

/-- A validator that accepts only a configuration that is a struct whose single field is a
struct, as the root of `nestedCfg` is. -/
def rootOnly : ValidateFunc := fun _ _ cfg =>
  match cfg with
  | .struct [.struct _] => none
  | _ => some "not the root struct"

/-- The validator of `TestParseStruct_WithValidator`: it always fails. -/
def alwaysFails : ValidateFunc := fun _ _ _ => some "validator test error"

/-- The storage that a value handle is bound to; the wrapper has the storage of the handle
it wraps. -/
def Value.path : Value → List Step
  | .bound _ _ path => path
  | .validateValue inner _ _ _ _ => inner.path

/-- The descriptor has a value handle, bound to storage at or below `base`, and its default
value is what `String()` of that handle gives in the state `σ`. -/
def Flag.RenderedBelow (d : Pkg) (σ : GoValue) (base : List Step) (g : Flag) : Prop :=
  ∃ h, g.Value = some h ∧ base <+: h.path ∧ g.DefValue = h.String d σ

/-- The path leads to a piece of storage inside the value: every field step meets a struct
that has the field and every `Elem()` a pointer that is not nil. -/
def GoValue.resolves : GoValue → List Step → Bool
  | _, [] => true
  | .struct fields, .field i :: path =>
    decide (i < fields.length) && (fields.getD i .zero).resolves path
  | .ptrTo target, .deref :: path => target.resolves path
  | _, _ :: _ => false

mutual
/-- The content is a content of the type, as the Go type system grants for the value behind
a configuration pointer: a struct has one content per field, a pointer is nil or points to a
content of its element type, a map is nil or made. -/
def GoType.holds : GoType → GoValue → Bool
  | .other _ _, v =>
    match v with
    | .zero => true
    | .data _ => true
    | _ => false
  | .ptr _ elem, v =>
    match v with
    | .nilPtr => true
    | .ptrTo target => elem.holds target
    | _ => false
  | .map _ _ _, v =>
    match v with
    | .nilMap => true
    | .mapOf _ => true
    | _ => false
  | .struct _ fields, v =>
    match v with
    | .struct vs => fields.hold vs
    | _ => false
/-- The contents are contents of the fields, one each. -/
def FieldList.hold : FieldList → List GoValue → Bool
  | .nil, vs => vs.isEmpty
  | .cons _ typ rest, vs =>
    match vs with
    | v :: vs => typ.holds v && rest.hold vs
    | [] => false
end

/-- What `Set(s)` of the handle makes of the text and of the present content of its
storage, the wrapper taken off: the new content, or an error. -/
def Value.content (set : SetFunc) (σ : GoValue) (s : Text) : Value → Except Text GoValue
  | .bound source typ path => set source typ s (σ.get path)
  | .validateValue inner _ _ _ _ => inner.content set σ s

/-- What `String()` of the handle shows when its storage holds the content `x`. -/
def Value.render (d : Pkg) (x : GoValue) : Value → Text
  | .bound source typ _ => d.valueString source typ x
  | .validateValue inner _ _ _ _ => inner.render d x

/-- The configuration of `TestParseStruct_NilValue`: `Name1 *string`, `Name2 *string` and
`Regexp *regexp.Regexp`, of which only `Name2` is set. -/
def nilCfgFields : FieldList :=
  .cons { Name := "Name1" } (.ptr "" stringType)
    (.cons { Name := "Name2" } (.ptr "" stringType)
      (.cons { Name := "Regexp" } (.ptr "" (.struct "regexp.Regexp" .nil)) .nil))

def nilCfgValue : GoValue :=
  .ptrTo (.struct [.nilPtr, .ptrTo (.data "name2_value"), .nilPtr])

/-- The default values of the descriptors of a result of `ParseStruct`. -/
def defValuesOf (r : Except Panic ((Option (List Flag) × Option String) × Interface)) :
    List String :=
  match r with
  | .ok ((some flags, _), _) => flags.map (fun g => g.DefValue)
  | _ => []

/-- What `String()` of the `n`-th descriptor of a result of `ParseStruct` shows after a
`Set(s)` on that descriptor that returned no error. -/
def stringAfterSet (d : Pkg) (set : SetFunc)
    (r : Except Panic ((Option (List Flag) × Option String) × Interface)) (n : Nat)
    (s : String) : Option String :=
  match r with
  | .ok ((some flags, _), some (_, σ)) =>
    match flags.get? n with
    | some g =>
      match g.Value with
      | some val =>
        match val.Set set s σ with
        | .ok (none, σ2) => some (val.String d σ2)
        | _ => none
      | none => none
    | none => none
  | _ => none

/-- The value of the configuration of `TestParseStruct_NilValue` after `ParseStruct`. -/
def nilCfgAfter : GoValue :=
  .ptrTo (.struct [.ptrTo .zero, .ptrTo (.data "name2_value"), .ptrTo (.struct [])])

/-- The descriptors of the configuration of `TestParseStruct_NilValue`. -/
def nilCfgFlags : List Flag :=
  [{ Name := "name1", EnvNames := ["NAME1"],
     Value := some (.bound .generated stringType [.deref, .field 0, .deref]) },
   { Name := "name2", EnvNames := ["NAME2"],
     Value := some (.bound .generated stringType [.deref, .field 1, .deref]),
     DefValue := "name2_value" },
   { Name := "regexp", EnvNames := ["REGEXP"],
     Value := some (.bound .generatedPtrs (.ptr "" (.struct "regexp.Regexp" .nil))
       [.deref, .field 2]) }]

/-- Two paths part at a field step: below a common struct they continue into different
fields. -/
def Diverge (p q : List Step) : Prop :=
  ∃ base i k r1 r2, i ≠ k ∧ p = base ++ .field i :: r1 ∧ q = base ++ .field k :: r2

/-- The handles of two descriptors are bound to storage in different fields of a struct. -/
def Flag.Apart (g1 g2 : Flag) : Prop :=
  ∀ h1 h2, g1.Value = some h1 → g2.Value = some h2 → Diverge h1.path h2.path

/-- The state after a `Set(s)` without error on the `n`-th descriptor of a result of
`ParseStruct`. -/
def stateAfterSet (set : SetFunc)
    (r : Except Panic ((Option (List Flag) × Option String) × Interface)) (n : Nat)
    (s : String) : Option GoValue :=
  match r with
  | .ok ((some flags, _), some (_, σ)) =>
    match flags.get? n with
    | some g =>
      match g.Value with
      | some val =>
        match val.Set set s σ with
        | .ok (none, σ2) => some σ2
        | _ => none
      | none => none
    | none => none
  | _ => none

mutual
/-- Every pointer, and every map with an allowed key kind, that the walk of `parseVal`
reaches in a content of the type is not nil. The walk stops where the first block of
`parseVal` or `parseGeneratedPtrs` finds a handle, steps through a pointer, and visits the
fields of a struct as the loop of `parseStruct` does. -/
def GoType.allocated (d : Pkg) : GoType → Bool → List OptFunc → GoValue → Bool
  | .other _ _, _, _, _ => true
  | .ptr name elem, ro, optFuncs, v =>
    (addrValue d (.ptr name elem) ro []).isSome ||
      (!v.IsNil && (d.parseGeneratedPtrs (.ptr name elem) ||
        elem.allocated d ro optFuncs (v.get [.deref])))
  | .map name key elem, ro, _, v =>
    (addrValue d (.map name key elem) ro []).isSome ||
      !anyOf d.MapAllowedKinds key.Kind || !v.IsNil
  | .struct name fields, ro, optFuncs, v =>
    (addrValue d (.struct name fields) ro []).isSome ||
      match v with
      | .struct vs => fields.allocated d (defOpts.apply optFuncs) vs
      | _ => false
/-- The same for the contents of the fields of a struct: the fields that the loop of
`parseStruct` skips (unexported and not embedded, or suppressed by the flag tag) are not
looked at. -/
def FieldList.allocated (d : Pkg) : FieldList → opts → List GoValue → Bool
  | .nil, _, _ => true
  | .cons field typ rest, opt, vs =>
    match vs with
    | [] => false
    | v :: vs =>
      (if field.PkgPath ≠ "" ∧ field.Anonymous = false then true
        else
          match parseFlagTag d field opt with
          | none => true
          | some flag =>
            typ.allocated d (decide (field.PkgPath ≠ ""))
              (nestedOptFuncs opt field (draftFlag d field opt flag)) v) &&
        rest.allocated d opt vs
end

/-- A struct with a pointer suppressed by its flag tag, an unexported pointer and a map
with a `bool` key: `struct{ Skipped *string; hidden *string; M map[bool]string }`, the
first tagged as not a flag. -/
def leftNilFields : FieldList :=
  .cons { Name := "Skipped", Tag := tagOf [("flag", "-")] } (.ptr "" stringType)
    (.cons { Name := "hidden", PkgPath := "sflags" } (.ptr "" stringType)
      (.cons { Name := "M" } (.map "" (.other "bool" .Bool) stringType) .nil))

/-- The configuration of `TestParseStruct_NilValue` nested in a struct, behind a nil
pointer: `struct{ Sub *struct{ Name1 *string; Name2 *string; Regexp *regexp.Regexp } }`. -/
def nilSubFields : FieldList :=
  .cons { Name := "Sub" } (.ptr "" (.struct "" nilCfgFields)) .nil

/-- The content of `Sub` after `ParseStruct` on the nested configuration with a nil `Sub`. -/
def nilSubAfter : GoValue :=
  .ptrTo (.struct [.ptrTo .zero, .ptrTo .zero, .ptrTo (.struct [])])

/-- The handle without the storage it is bound to: what produced it and for which type, and
for the wrapper the validator, the field and whether the struct was read-only. -/
def Value.unbound : Value → Value
  | .bound source typ _ => .bound source typ []
  | .validateValue inner validator field structRO _ =>
    .validateValue inner.unbound validator field structRO []

/-- The descriptor with its handle taken off its storage; all other parts are kept. -/
def Flag.unbound (g : Flag) : Flag :=
  { g with Value := g.Value.map Value.unbound }

/-- What is compared of a result of `parseVal` on the storage at `path`: the descriptors
and the handle off their storage, the content behind the handle, and the content of the
storage after the call. -/
def normVal (path : List Step) :
    Except Panic (List Flag × Option Value × GoValue) →
    Except Panic (List Flag × Option (Value × GoValue) × GoValue)
  | .ok (nested, val, σ) =>
    .ok (nested.map Flag.unbound, val.map (fun h => (h.unbound, σ.get h.path)), σ.get path)
  | .error p => .error p

/-- What is compared of a result of the loop of `parseStruct` on the struct at `path`: the
descriptors off their storage and the contents of the fields from `i` on. -/
def normFields (path : List Step) (i : Nat) :
    Except Panic (List Flag × GoValue) → Except Panic (List Flag × List GoValue)
  | .ok (flags, σ) =>
    .ok (flags.map Flag.unbound,
      match σ.get path with
      | .struct vs => vs.drop i
      | _ => [])
  | .error p => .error p

/-- What is compared of a result of one iteration of the loop: the descriptors off their
storage and the content of the field. -/
def normField (path : List Step) (i : Nat) :
    Except Panic (List Flag × GoValue) → Except Panic (List Flag × GoValue)
  | .ok (flags, σ) => .ok (flags.map Flag.unbound, σ.get (path ++ [.field i]))
  | .error p => .error p

/-- The descriptors of a result of the loop of `parseStruct`, off their storage. -/
def normFlags : Except Panic (List Flag × GoValue) → Except Panic (List Flag)
  | .ok (flags, _) => .ok (flags.map Flag.unbound)
  | .error p => .error p

/-- What `ParseStruct` returns, the handles of the descriptors off their storage. -/
def returned (r : Except Panic ((Option (List Flag) × Option String) × Interface)) :
    Except Panic (Option (List Flag) × Option String) :=
  match r with
  | .ok ((flags, err), _) => .ok (flags.map (fun l => l.map Flag.unbound), err)
  | .error p => .error p

/-- The field list without its `j`-th field. -/
def FieldList.eraseIdx : FieldList → Nat → FieldList
  | .nil, _ => .nil
  | .cons _ _ rest, 0 => rest
  | .cons field typ rest, j + 1 => .cons field typ (rest.eraseIdx j)

/-- The `j`-th field of a field list and its type. -/
def FieldList.get? : FieldList → Nat → Option (StructField × GoType)
  | .nil, _ => none
  | .cons field typ _, 0 => some (field, typ)
  | .cons _ _ rest, j + 1 => rest.get? j

/-- Three fields of `diffTypesCfg` of the tests: `StringValue string`, `FuncValue func()`
and `MapBoolString map[bool]string`. -/
def unsupportedFields : FieldList :=
  .cons { Name := "StringValue" } stringType
    (.cons { Name := "FuncValue" } (.other "func()" .Func)
      (.cons { Name := "MapBoolString" } (.map "" (.other "bool" .Bool) stringType) .nil))

/-- A struct that embeds a pointer to an unexported struct type:
`struct{ *inner }` with `type inner struct{ Name string }`. -/
def embeddedPtrFields : FieldList :=
  .cons { Name := "inner", PkgPath := "sflags", Anonymous := true }
    (.ptr "" (.struct "inner" (.cons { Name := "Name" } stringType .nil))) .nil

/-- A struct that embeds an unexported map type: `struct{ labels }` with
`type labels map[string]string`. -/
def embeddedMapFields : FieldList :=
  .cons { Name := "labels", PkgPath := "sflags", Anonymous := true }
    (.map "labels" stringType stringType) .nil

/-- The type `net.TCPAddr` with its fields `IP`, `Port` and `Zone`. -/
def tcpAddrType : GoType :=
  .struct "net.TCPAddr"
    (.cons { Name := "IP" } (.other "net.IP" .Slice)
      (.cons { Name := "Port" } intType (.cons { Name := "Zone" } stringType .nil)))

/-- The field `Addr *net.TCPAddr` of `simpleCfg` of the tests, alone in a struct. -/
def addrCfgFields : FieldList :=
  .cons { Name := "Addr" } (.ptr "" tcpAddrType) .nil

/-- The fields of `cli.GenericFlag` (urfave/cli v2) that `gcli.GenerateTo` sets; the other
fields keep their zero value. -/
structure GenericFlag where
  Name : String := ""
  EnvVars : List String := []
  Aliases : List String := []
  Hidden : Bool := false
  Usage : String := ""
  Value : Option Value := none
  Required : Bool := false

/-- A `cli.Flag`: a pointer to a `cli.GenericFlag`, or any other flag of the destination,
known by a label. -/
inductive CliFlag
  | generic (flag : GenericFlag)
  | foreign (label : String)

/-- The `cli.GenericFlag` that the loop of `gcli.GenerateTo` builds from a descriptor. -/
def gcli.genericOf (srcFlag : Flag) : GenericFlag :=
  let name := srcFlag.Name
  let aliases : List String := []
  let aliases := if srcFlag.Short ≠ "" then aliases ++ [srcFlag.Short] else aliases
  { Name := name, EnvVars := srcFlag.EnvNames, Aliases := aliases, Hidden := srcFlag.Hidden,
    Usage := srcFlag.Usage, Value := srcFlag.Value, Required := srcFlag.Required }

/-- Go `gcli.GenerateTo`: the content of `*dst` after the call. The descriptors are the
targets of the pointers in `src`, none of them nil. -/
def gcli.GenerateTo (src : List Flag) (dst : List CliFlag) : List CliFlag :=
  src.foldl (fun dst srcFlag => dst ++ [CliFlag.generic (gcli.genericOf srcFlag)]) dst

mutual
/-- The nesting depth of a type: its struct levels plus its pointer indirections along the
deepest chain of fields. -/
def GoType.depth : GoType → Nat
  | .other _ _ => 0
  | .map _ _ _ => 0
  | .ptr _ elem => elem.depth + 1
  | .struct _ fields => fields.depth + 1
/-- The greatest nesting depth among the types of the fields. -/
def FieldList.depth : FieldList → Nat
  | .nil => 0
  | .cons _ typ rest => max typ.depth rest.depth
end

mutual
/-- The greatest number of calls of `parseVal` and `parseStruct` that can be on the stack
at a time while `parseVal` runs on a value of the type, its own call included: one more
behind a pointer (`parseVal` on the target) and two more for a struct (`parseStruct`, and
`parseVal` on a field). -/
def GoType.frames : GoType → Nat
  | .other _ _ => 1
  | .map _ _ _ => 1
  | .ptr _ elem => elem.frames + 1
  | .struct _ fields => fields.frames + 2
/-- The same for the calls that the loop of `parseStruct` makes on the fields. -/
def FieldList.frames : FieldList → Nat
  | .nil => 0
  | .cons _ typ rest => max typ.frames rest.frames
end

mutual
/-- Go `parseVal` with a bound on the depth of the recursion: `n` calls of `parseVal` and
`parseStruct` may be on the stack, the present one included; `none` when a call would
exceed the bound. -/
def parseValN (d : Pkg) : Nat → GoType → Bool → List Step → GoValue → List OptFunc →
    Option (Except Panic (List Flag × Option Value × GoValue))
  | 0, _, _, _, _, _ => none
  | n + 1, .ptr name elem, ro, path, σ, optFuncs =>
    match addrValue d (.ptr name elem) ro path with
    | some val => some (.ok ([], some val, σ))
    | none =>
      if (σ.get path).IsNil && ro then some (.error .setUnexported)
      else if ro then some (.error .interfaceUnexported)
      else
        let σ := if (σ.get path).IsNil then σ.set path (.ptrTo (zeroValue elem)) else σ
        if d.parseGeneratedPtrs (.ptr name elem) then
          some (.ok ([], some (.bound .generatedPtrs (.ptr name elem) path), σ))
        else parseValN d n elem ro (path ++ [.deref]) σ optFuncs
  | n + 1, .struct name fields, ro, path, σ, optFuncs =>
    match addrValue d (.struct name fields) ro path with
    | some val => some (.ok ([], some val, σ))
    | none =>
      match n with
      | 0 => none
      | m + 1 =>
        match parseFieldsN d m fields 0 ro path σ (defOpts.apply optFuncs) [] with
        | none => none
        | some (.error p) => some (.error p)
        | some (.ok (flags, σ)) => some (.ok (flags, none, σ))
  | _ + 1, .map name key elem, ro, path, σ, _ =>
    match addrValue d (.map name key elem) ro path with
    | some val => some (.ok ([], some val, σ))
    | none =>
      if !anyOf d.MapAllowedKinds key.Kind then some (.ok ([], none, σ))
      else if (σ.get path).IsNil && ro then some (.error .setUnexported)
      else if ro then some (.error .interfaceUnexported)
      else
        let σ := if (σ.get path).IsNil then σ.set path (.mapOf []) else σ
        if d.parseGeneratedMap (.map name key elem) then
          some (.ok ([], some (.bound .generatedMap (.map name key elem) path), σ))
        else some (.ok ([], none, σ))
  | _ + 1, .other name kind, ro, path, σ, _ =>
    match addrValue d (.other name kind) ro path with
    | some val => some (.ok ([], some val, σ))
    | none => some (.ok ([], none, σ))
/-- The loop of Go `parseStruct` from field `i` on, where `n` further calls may be on the
stack below the call of `parseStruct`. -/
def parseFieldsN (d : Pkg) : Nat → FieldList → Nat → Bool → List Step → GoValue → opts →
    List Flag → Option (Except Panic (List Flag × GoValue))
  | _, .nil, _, _, _, σ, _, flags => some (.ok (flags, σ))
  | n, .cons field typ rest, i, ro, path, σ, opt, flags =>
    if field.PkgPath ≠ "" ∧ field.Anonymous = false then
      parseFieldsN d n rest (i + 1) ro path σ opt flags
    else
      match parseFlagTag d field opt with
      | none => parseFieldsN d n rest (i + 1) ro path σ opt flags
      | some flag =>
        let flag := draftFlag d field opt flag
        match parseValN d n typ (decide (field.PkgPath ≠ "")) (path ++ [.field i]) σ
            (nestedOptFuncs opt field flag) with
        | none => none
        | some (.error p) => some (.error p)
        | some (.ok (_, some val, σ)) =>
          let val := wrapValue opt field ro path val
          parseFieldsN d n rest (i + 1) ro path σ opt
            (flags ++ [{ flag with Value := some val, DefValue := val.String d σ }])
        | some (.ok (nestedFlags, none, σ)) =>
          if nestedFlags.length > 0 then
            parseFieldsN d n rest (i + 1) ro path σ opt (flags ++ nestedFlags)
          else parseFieldsN d n rest (i + 1) ro path σ opt flags
end

/-! ## Lemmas on strings and on the tag grammar -/

theorem splitChars_ne_nil (sep : Char) (l : List Char) : splitChars sep l ≠ [] := by
  induction l with
  | nil => simp [splitChars]
  | cons c cs ih =>
    unfold splitChars
    split
    · simp
    · split <;> simp

theorem splitChars_of_not_mem (sep : Char) (l : List Char) (h : sep ∉ l) :
    splitChars sep l = [l] := by
  induction l with
  | nil => rfl
  | cons c cs ih =>
    have hc : c ≠ sep := fun e => h (by simp [e])
    have hcs : sep ∉ cs := fun e => h (by simp [e])
    simp [splitChars, hc, ih hcs]

theorem splitChars_append_sep (sep : Char) (a b : List Char) (h : sep ∉ a) :
    splitChars sep (a ++ sep :: b) = a :: splitChars sep b := by
  induction a with
  | nil => simp [splitChars]
  | cons c cs ih =>
    have hc : c ≠ sep := fun e => h (by simp [e])
    have hcs : sep ∉ cs := fun e => h (by simp [e])
    simp [splitChars, hc, ih hcs]

theorem stringsSplit_ne_nil (s : String) (sep : Char) : stringsSplit s sep ≠ [] := by
  simp [stringsSplit, splitChars_ne_nil]

theorem stringsSplit_of_not_mem (s : String) (sep : Char) (h : sep ∉ s.data) :
    stringsSplit s sep = [s] := by
  simp [stringsSplit, splitChars_of_not_mem sep s.data h]

theorem stringsSplit_blank (n s : String) (hn : ' ' ∉ n.data) (hs : ' ' ∉ s.data) :
    stringsSplit (n ++ " " ++ s) ' ' = [n, s] := by
  have e : (n ++ " " ++ s).data = n.data ++ ' ' :: s.data := by
    simp [String.data_append]
  simp [stringsSplit, e, splitChars_append_sep ' ' _ _ hn, splitChars_of_not_mem ' ' _ hs]

theorem hasPrefix_tilde (n : String) : hasPrefix ("~" ++ n) "~" = true := by
  simp [hasPrefix, String.data_append]

theorem dropFirst_tilde (n : String) : dropFirst ("~" ++ n) = n := by
  simp [dropFirst, String.data_append]

theorem parseFlagName_plain (n : String) (hn : ' ' ∉ n.data) :
    parseFlagName n = if hasPrefix n "~" then (dropFirst n, "", true) else (n, "", false) := by
  simp [parseFlagName, stringsSplit_of_not_mem n ' ' hn]

theorem parseFlagName_short (n s : String) (hn : ' ' ∉ n.data) (hs : ' ' ∉ s.data) :
    parseFlagName (n ++ " " ++ s) =
      if hasPrefix n "~" then (dropFirst n, s, true) else (n, s, false) := by
  simp [parseFlagName, stringsSplit_blank n s hn hs]

theorem parseFlagTag_of_split (d : Pkg) (field : StructField) (opt : opts)
    (fName : String) (options : List String)
    (h : stringsSplit (field.Tag.Get opt.flagTag) ',' = fName :: options)
    (hd : fName ≠ "-") :
    parseFlagTag d field opt = some
      { Name :=
          if opt.namePrefix ≠ "" ∧
              (if fName = "" then false else (parseFlagName fName).2.2) = false then
            opt.namePrefix ++
              (if fName = "" then d.camelToFlag field.Name opt.flagDivider
               else (parseFlagName fName).1)
          else
            (if fName = "" then d.camelToFlag field.Name opt.flagDivider
             else (parseFlagName fName).1)
        Short := if fName = "" then "" else (parseFlagName fName).2.1
        Hidden := hasOption options "hidden" || opt.hidden
        Deprecated := hasOption options "deprecated" || opt.deprecated
        Required := hasOption options "required" } := by
  unfold parseFlagTag
  simp only [h, hd, if_false]
  by_cases h0 : fName = "" <;> by_cases hp : opt.namePrefix = "" <;>
    cases hh : opt.hidden <;> cases hdp : opt.deprecated <;>
    cases hi : (parseFlagName fName).2.2 <;> simp [h0, hp, hh, hdp, hi]

theorem parseFlagTag_of_dash (d : Pkg) (field : StructField) (opt : opts)
    (options : List String)
    (h : stringsSplit (field.Tag.Get opt.flagTag) ',' = "-" :: options) :
    parseFlagTag d field opt = none := by
  unfold parseFlagTag
  simp [h]


/-! ## The loop of `parseStruct` -/

theorem parseFields_cons (d : Pkg) (field : StructField) (typ : GoType) (rest : FieldList)
    (i : Nat) (ro : Bool) (path : List Step) (σ : GoValue) (opt : opts) (acc : List Flag) :
    parseFields d (.cons field typ rest) i ro path σ opt acc =
      match parseField d field typ i ro path σ opt with
      | .error p => .error p
      | .ok (own, σ1) => parseFields d rest (i + 1) ro path σ1 opt (acc ++ own) := by
  rw [parseFields]
  unfold parseField
  by_cases h : field.PkgPath ≠ "" ∧ field.Anonymous = false
  · rw [if_pos h, if_pos h]
    simp
  · rw [if_neg h, if_neg h]
    cases hf : parseFlagTag d field opt with
    | none => simp
    | some flag =>
      simp only
      cases hv : parseVal d typ (decide (field.PkgPath ≠ "")) (path ++ [.field i]) σ
          (nestedOptFuncs opt field (draftFlag d field opt flag)) with
      | error p => rfl
      | ok r =>
        obtain ⟨nested, val, σ1⟩ := r
        cases val with
        | some val => rfl
        | none =>
          simp only
          cases nested with
          | nil => simp
          | cons g gs => simp

theorem parseFields_acc (d : Pkg) : ∀ (fields : FieldList) (i : Nat) (ro : Bool)
    (path : List Step) (σ : GoValue) (opt : opts) (acc : List Flag),
    parseFields d fields i ro path σ opt acc =
      match parseFields d fields i ro path σ opt [] with
      | .error p => .error p
      | .ok (flags, σ1) => .ok (acc ++ flags, σ1)
  | .nil, i, ro, path, σ, opt, acc => by simp [parseFields]
  | .cons field typ rest, i, ro, path, σ, opt, acc => by
    rw [parseFields_cons, parseFields_cons d field typ rest i ro path σ opt []]
    cases hp : parseField d field typ i ro path σ opt with
    | error p => rfl
    | ok r =>
      obtain ⟨own, σ1⟩ := r
      simp only [List.nil_append]
      rw [parseFields_acc d rest (i + 1) ro path σ1 opt (acc ++ own),
        parseFields_acc d rest (i + 1) ro path σ1 opt own]
      cases parseFields d rest (i + 1) ro path σ1 opt [] with
      | error p => rfl
      | ok r2 =>
        obtain ⟨more, σ2⟩ := r2
        simp [List.append_assoc]

theorem parseFields_eq_concatFields (d : Pkg) : ∀ (fields : FieldList) (i : Nat) (ro : Bool)
    (path : List Step) (σ : GoValue) (opt : opts),
    parseFields d fields i ro path σ opt [] = concatFields d fields i ro path σ opt
  | .nil, i, ro, path, σ, opt => by simp [parseFields, concatFields]
  | .cons field typ rest, i, ro, path, σ, opt => by
    rw [parseFields_cons, concatFields]
    cases hp : parseField d field typ i ro path σ opt with
    | error p => rfl
    | ok r =>
      obtain ⟨own, σ1⟩ := r
      simp only [List.nil_append]
      rw [parseFields_acc d rest (i + 1) ro path σ1 opt own,
        parseFields_eq_concatFields d rest (i + 1) ro path σ1 opt]


/-! ## Where the descriptors come from -/

theorem parseField_cases (d : Pkg) (field : StructField) (typ : GoType) (i : Nat)
    (ro : Bool) (path : List Step) (σ : GoValue) (opt : opts) (own : List Flag)
    (σ1 : GoValue) (h : parseField d field typ i ro path σ opt = .ok (own, σ1)) :
    (own = [] ∧ σ1 = σ) ∨
    (∃ flag nested val, parseFlagTag d field opt = some flag ∧
      parseVal d typ (decide (field.PkgPath ≠ "")) (path ++ [.field i]) σ
        (nestedOptFuncs opt field (draftFlag d field opt flag)) = .ok (nested, some val, σ1) ∧
      own = [{ draftFlag d field opt flag with
        Value := some (wrapValue opt field ro path val),
        DefValue := (wrapValue opt field ro path val).String d σ1 }]) ∨
    (∃ flag, parseFlagTag d field opt = some flag ∧
      parseVal d typ (decide (field.PkgPath ≠ "")) (path ++ [.field i]) σ
        (nestedOptFuncs opt field (draftFlag d field opt flag)) = .ok (own, none, σ1)) := by
  unfold parseField at h
  by_cases he : field.PkgPath ≠ "" ∧ field.Anonymous = false
  · rw [if_pos he] at h
    injection h with h
    injection h with h1 h2
    exact Or.inl ⟨h1.symm, h2.symm⟩
  · rw [if_neg he] at h
    cases hf : parseFlagTag d field opt with
    | none =>
      rw [hf] at h
      injection h with h
      injection h with h1 h2
      exact Or.inl ⟨h1.symm, h2.symm⟩
    | some flag =>
      rw [hf] at h
      simp only at h
      cases hv : parseVal d typ (decide (field.PkgPath ≠ "")) (path ++ [.field i]) σ
          (nestedOptFuncs opt field (draftFlag d field opt flag)) with
      | error p => rw [hv] at h; cases h
      | ok r =>
        obtain ⟨nested, val, σ2⟩ := r
        rw [hv] at h
        cases val with
        | some val =>
          simp only at h
          injection h with h
          injection h with h1 h2
          subst h2
          exact Or.inr (Or.inl ⟨flag, nested, val, rfl, hv, h1.symm⟩)
        | none =>
          simp only at h
          injection h with h
          injection h with h1 h2
          subst h1 h2
          exact Or.inr (Or.inr ⟨flag, rfl, hv⟩)

theorem parseFields_cons_ok (d : Pkg) (field : StructField) (typ : GoType)
    (rest : FieldList) (i : Nat) (ro : Bool) (path : List Step) (σ : GoValue) (opt : opts)
    (flags : List Flag) (σ2 : GoValue)
    (h : parseFields d (.cons field typ rest) i ro path σ opt [] = .ok (flags, σ2)) :
    ∃ own σ1 more, parseField d field typ i ro path σ opt = .ok (own, σ1) ∧
      parseFields d rest (i + 1) ro path σ1 opt [] = .ok (more, σ2) ∧
      flags = own ++ more := by
  rw [parseFields_cons] at h
  cases hp : parseField d field typ i ro path σ opt with
  | error p => rw [hp] at h; cases h
  | ok r =>
    obtain ⟨own, σ1⟩ := r
    rw [hp] at h
    simp only [List.nil_append] at h
    rw [parseFields_acc] at h
    cases hr : parseFields d rest (i + 1) ro path σ1 opt [] with
    | error p => rw [hr] at h; cases h
    | ok r2 =>
      obtain ⟨more, σ3⟩ := r2
      rw [hr] at h
      simp only at h
      injection h with h
      injection h with h1 h2
      subst h2
      exact ⟨own, σ1, more, rfl, hr, h1.symm⟩

theorem Origin.mono (d : Pkg) (Q : opts → Prop) (l1 l2 : List StructField) (g : Flag)
    (hsub : ∀ f ∈ l1, f ∈ l2) (h : Origin d Q l1 g) : Origin d Q l2 g := by
  obtain ⟨field, hm, rest⟩ := h
  exact ⟨field, hsub field hm, rest⟩

mutual
theorem parseVal_origin (d : Pkg) (Q : opts → Prop)
    (hstep : ∀ field opt flag, Q opt → parseFlagTag d field opt = some flag →
      Q (nestedOpts opt field (draftFlag d field opt flag))) :
    ∀ (typ : GoType) (ro : Bool) (path : List Step) (σ : GoValue) (optFuncs : List OptFunc)
      (nested : List Flag) (val : Option Value) (σ1 : GoValue),
      parseVal d typ ro path σ optFuncs = .ok (nested, val, σ1) →
      Q (defOpts.apply optFuncs) → ∀ g ∈ nested, Origin d Q typ.allFields g
  | .other name kind, ro, path, σ, optFuncs, nested, val, σ1, h, _, g, hg => by
    rw [parseVal] at h
    cases ha : addrValue d (.other name kind) ro path <;> rw [ha] at h <;>
      simp only at h <;> injection h with h <;> injection h with h1 <;>
      subst h1 <;> cases hg
  | .map name key elem, ro, path, σ, optFuncs, nested, val, σ1, h, _, g, hg => by
    rw [parseVal] at h
    have hnil : nested = [] := by
      cases ha : addrValue d (.map name key elem) ro path with
      | some v =>
        rw [ha] at h
        simp only at h
        injection h with h
        injection h with h1
        exact h1.symm
      | none =>
        rw [ha] at h
        simp only at h
        split at h
        · injection h with h
          injection h with h1
          exact h1.symm
        · split at h
          · cases h
          · split at h
            · cases h
            · split at h <;> injection h with h <;> injection h with h1 <;> exact h1.symm
    subst hnil
    cases hg
  | .ptr name elem, ro, path, σ, optFuncs, nested, val, σ1, h, hQ, g, hg => by
    rw [parseVal] at h
    cases ha : addrValue d (.ptr name elem) ro path with
    | some v =>
      rw [ha] at h
      simp only at h
      injection h with h
      injection h with h1
      subst h1
      cases hg
    | none =>
      rw [ha] at h
      simp only at h
      split at h
      · cases h
      · split at h
        · cases h
        · split at h
          · injection h with h
            injection h with h1
            subst h1
            cases hg
          · exact parseVal_origin d Q hstep elem ro _ _ optFuncs nested val σ1 h hQ g hg
  | .struct name fields, ro, path, σ, optFuncs, nested, val, σ1, h, hQ, g, hg => by
    rw [parseVal] at h
    cases ha : addrValue d (.struct name fields) ro path with
    | some v =>
      rw [ha] at h
      simp only at h
      injection h with h
      injection h with h1
      subst h1
      cases hg
    | none =>
      rw [ha] at h
      simp only at h
      cases hp : parseFields d fields 0 ro path σ (defOpts.apply optFuncs) [] with
      | error p => rw [hp] at h; cases h
      | ok r =>
        obtain ⟨flags, σ2⟩ := r
        rw [hp] at h
        simp only at h
        injection h with h
        injection h with h1
        subst h1
        exact parseFields_origin d Q hstep fields 0 ro path σ _ flags σ2 hp hQ g hg
theorem parseFields_origin (d : Pkg) (Q : opts → Prop)
    (hstep : ∀ field opt flag, Q opt → parseFlagTag d field opt = some flag →
      Q (nestedOpts opt field (draftFlag d field opt flag))) :
    ∀ (fields : FieldList) (i : Nat) (ro : Bool) (path : List Step) (σ : GoValue)
      (opt : opts) (flags : List Flag) (σ1 : GoValue),
      parseFields d fields i ro path σ opt [] = .ok (flags, σ1) →
      Q opt → ∀ g ∈ flags, Origin d Q fields.allFields g
  | .nil, i, ro, path, σ, opt, flags, σ1, h, _, g, hg => by
    rw [parseFields] at h
    injection h with h
    injection h with h1
    subst h1
    cases hg
  | .cons field typ rest, i, ro, path, σ, opt, flags, σ1, h, hQ, g, hg => by
    obtain ⟨own, σ2, more, hown, hmore, rfl⟩ := parseFields_cons_ok d _ _ _ _ _ _ _ _ _ _ h
    rw [FieldList.allFields]
    rcases List.mem_append.mp hg with hg | hg
    · rcases parseField_cases d _ _ _ _ _ _ _ _ _ hown with ⟨rfl, _⟩ | ⟨flag, nested, val, hf, _, rfl⟩ | ⟨flag, hf, hv⟩
      · cases hg
      · rw [List.mem_singleton] at hg
        subst hg
        exact ⟨field, by simp, opt, flag, hQ, hf, rfl⟩
      · refine Origin.mono d Q typ.allFields _ g (fun f hf => by simp [hf]) ?_
        exact parseVal_origin d Q hstep typ _ _ _ _ own none σ2 hv
          (hstep field opt flag hQ hf) g hg
    · refine Origin.mono d Q rest.allFields _ g (fun f hf => by simp [hf]) ?_
      exact parseFields_origin d Q hstep rest (i + 1) ro path σ2 opt more σ1 hmore hQ g hg
end


/-! ## No panic without anonymous unexported pointer or map fields -/

theorem parseField_ok_of_parseVal (d : Pkg) (field : StructField) (typ : GoType) (i : Nat)
    (ro : Bool) (path : List Step) (σ : GoValue) (opt : opts)
    (h : ∀ flag, ∃ r, parseVal d typ (decide (field.PkgPath ≠ "")) (path ++ [.field i]) σ
      (nestedOptFuncs opt field (draftFlag d field opt flag)) = .ok r) :
    ∃ r, parseField d field typ i ro path σ opt = .ok r := by
  unfold parseField
  split
  · exact ⟨_, rfl⟩
  · cases hf : parseFlagTag d field opt with
    | none => exact ⟨_, rfl⟩
    | some flag =>
      obtain ⟨⟨nested, val, σ1⟩, hr⟩ := h flag
      simp only [hr]
      cases val with
      | some val => exact ⟨_, rfl⟩
      | none => exact ⟨_, rfl⟩

mutual
theorem parseVal_ok (d : Pkg) :
    ∀ (typ : GoType) (ro : Bool) (path : List Step) (σ : GoValue) (optFuncs : List OptFunc),
      typ.settable = true → (ro = true → typ.isPtrOrMap = false) →
      ∃ r, parseVal d typ ro path σ optFuncs = .ok r
  | .other name kind, ro, path, σ, optFuncs, _, _ => by
    rw [parseVal]
    cases addrValue d (.other name kind) ro path <;> exact ⟨_, rfl⟩
  | .map name key elem, ro, path, σ, optFuncs, _, hro => by
    have hro : ro = false := by
      cases ro
      · rfl
      · exact absurd (hro rfl) (by simp [GoType.isPtrOrMap])
    subst hro
    rw [parseVal]
    cases addrValue d (.map name key elem) false path with
    | some v => exact ⟨_, rfl⟩
    | none =>
      simp only [Bool.and_false, Bool.false_eq_true, if_false]
      split
      · exact ⟨_, rfl⟩
      · split <;> exact ⟨_, rfl⟩
  | .ptr name elem, ro, path, σ, optFuncs, hs, hro => by
    have hro : ro = false := by
      cases ro
      · rfl
      · exact absurd (hro rfl) (by simp [GoType.isPtrOrMap])
    subst hro
    rw [parseVal]
    cases addrValue d (.ptr name elem) false path with
    | some v => exact ⟨_, rfl⟩
    | none =>
      simp only [Bool.and_false, Bool.false_eq_true, if_false]
      split
      · exact ⟨_, rfl⟩
      · rw [GoType.settable] at hs
        exact parseVal_ok d elem false _ _ optFuncs hs (by simp)
  | .struct name fields, ro, path, σ, optFuncs, hs, _ => by
    rw [parseVal]
    cases addrValue d (.struct name fields) ro path with
    | some v => exact ⟨_, rfl⟩
    | none =>
      rw [GoType.settable] at hs
      obtain ⟨⟨flags, σ1⟩, hr⟩ :=
        parseFields_ok d fields 0 ro path σ (defOpts.apply optFuncs) [] hs
      simp only [hr]
      exact ⟨_, rfl⟩
theorem parseFields_ok (d : Pkg) :
    ∀ (fields : FieldList) (i : Nat) (ro : Bool) (path : List Step) (σ : GoValue)
      (opt : opts) (acc : List Flag),
      fields.settable = true → ∃ r, parseFields d fields i ro path σ opt acc = .ok r
  | .nil, i, ro, path, σ, opt, acc, _ => by
    rw [parseFields]
    exact ⟨_, rfl⟩
  | .cons field typ rest, i, ro, path, σ, opt, acc, hs => by
    rw [parseFields_cons]
    rw [FieldList.settable] at hs
    by_cases he : field.PkgPath ≠ "" ∧ field.Anonymous = false
    · rw [if_pos he] at hs
      have hp : parseField d field typ i ro path σ opt = .ok ([], σ) := by
        unfold parseField
        rw [if_pos he]
      rw [hp]
      exact parseFields_ok d rest (i + 1) ro path σ opt _ hs
    · rw [if_neg he] at hs
      simp only [Bool.and_eq_true, Bool.or_eq_true, decide_eq_true_eq,
        Bool.not_eq_true'] at hs
      obtain ⟨⟨hro, ht⟩, hrest⟩ := hs
      obtain ⟨⟨own, σ1⟩, hp⟩ := parseField_ok_of_parseVal d field typ i ro path σ opt
        (fun flag => parseVal_ok d typ _ _ σ _ ht (by
          intro h
          rcases hro with h0 | h0
          · simp [h0] at h
          · exact h0))
      rw [hp]
      exact parseFields_ok d rest (i + 1) ro path σ1 opt _ hrest
end


/-! ## Markers and nested options -/

theorem hasOption_iff (options : List String) (option : String) :
    hasOption options option = true ↔ option ∈ options := by
  induction options with
  | nil => simp [hasOption]
  | cons o rest ih =>
    unfold hasOption
    by_cases h : o = option
    · simp [h]
    · have h2 : ¬ option = o := fun e => h e.symm
      simp [h, h2, ih]

theorem parseFlagTag_some (d : Pkg) (field : StructField) (opt : opts) (flag : Flag)
    (h : parseFlagTag d field opt = some flag) :
    ∃ fName options, stringsSplit (field.Tag.Get opt.flagTag) ',' = fName :: options ∧
      fName ≠ "-" ∧
      flag.Hidden = (hasOption options "hidden" || opt.hidden) ∧
      flag.Deprecated = (hasOption options "deprecated" || opt.deprecated) ∧
      flag.Required = hasOption options "required" := by
  cases hs : stringsSplit (field.Tag.Get opt.flagTag) ',' with
  | nil => exact absurd hs (stringsSplit_ne_nil _ _)
  | cons fName options =>
    by_cases hd : fName = "-"
    · subst hd
      rw [parseFlagTag_of_dash d field opt options hs] at h
      cases h
    · rw [parseFlagTag_of_split d field opt fName options hs hd] at h
      injection h with h
      subst h
      exact ⟨fName, options, rfl, hd, rfl, rfl, rfl⟩

theorem nestedOpts_eq (opt : opts) (field : StructField) (flag : Flag) :
    nestedOpts opt field flag =
      { opt with
        namePrefix :=
          if field.Anonymous && opt.flatten then opt.namePrefix
          else flag.Name ++ opt.flagDivider
        hidden := if opt.inheritHidden then flag.Hidden else opt.hidden
        deprecated := if opt.inheritDeprecated then flag.Deprecated else opt.deprecated } := by
  unfold nestedOpts nestedOptFuncs
  cases h1 : opt.inheritHidden <;> cases h2 : opt.inheritDeprecated <;>
    simp [opts.apply, copyOpts, Prefix, hidden, deprecated, h1, h2]

/-! ## The claims -/

theorem ParseStruct_of_struct (d : Pkg) (name sname : String) (fields : FieldList)
    (v : GoValue) (optFuncs : List OptFunc) (hv : v.IsNil = false) :
    ParseStruct d (some (.ptr name (.struct sname fields), v)) optFuncs =
      match concatFields d fields 0 false [.deref] v (defOpts.apply optFuncs) with
      | .error p => .error p
      | .ok (flags, σ) => .ok ((some flags, none), some (.ptr name (.struct sname fields), σ)) := by
  simp only [ParseStruct, hv, Bool.false_eq_true, if_false, parseStruct,
    parseFields_eq_concatFields]

/-- C1: `ParseStruct` returns the error "object cannot be nil" with a nil list for a nil
interface and for a typed nil pointer, the error "object must be a pointer to struct or
interface" with a nil list for a value that is not a pointer and for a pointer to a
non-struct; it returns an error exactly in these cases; for a non-nil pointer to a struct
every return carries a nil error and a non-nil list, and the call does return when no
visited field is an anonymous unexported field of pointer or map type. -/
theorem ParseStruct_error_cases (d : Pkg) (cfg : Interface) (optFuncs : List OptFunc) :
    (cfg = none →
      ParseStruct d cfg optFuncs = .ok ((none, some "object cannot be nil"), cfg)) ∧
    (∀ name elem v, cfg = some (.ptr name elem, v) → v.IsNil = true →
      ParseStruct d cfg optFuncs = .ok ((none, some "object cannot be nil"), cfg)) ∧
    (∀ typ v, cfg = some (typ, v) → (∀ name elem, typ ≠ .ptr name elem) →
      ParseStruct d cfg optFuncs =
        .ok ((none, some "object must be a pointer to struct or interface"), cfg)) ∧
    (∀ name elem v, cfg = some (.ptr name elem, v) → v.IsNil = false →
      (∀ sname fields, elem ≠ .struct sname fields) →
      ParseStruct d cfg optFuncs =
        .ok ((none, some "object must be a pointer to struct or interface"), cfg)) ∧
    (∀ name sname fields v, cfg = some (.ptr name (.struct sname fields), v) →
      v.IsNil = false →
      (∀ flags err cfg1, ParseStruct d cfg optFuncs = .ok ((flags, err), cfg1) →
        err = none ∧ flags ≠ none) ∧
      (fields.settable = true →
        ∃ flags cfg1, ParseStruct d cfg optFuncs = .ok ((some flags, none), cfg1))) ∧
    ((∃ flags err cfg1, ParseStruct d cfg optFuncs = .ok ((flags, some err), cfg1)) ↔
      ¬ ∃ name sname fields v, cfg = some (.ptr name (.struct sname fields), v) ∧
        v.IsNil = false) := by
  have hvalid : ∀ name sname fields v, cfg = some (.ptr name (.struct sname fields), v) →
      v.IsNil = false →
      (∀ flags err cfg1, ParseStruct d cfg optFuncs = .ok ((flags, err), cfg1) →
        err = none ∧ flags ≠ none) ∧
      (fields.settable = true →
        ∃ flags cfg1, ParseStruct d cfg optFuncs = .ok ((some flags, none), cfg1)) := by
    intro name sname fields v hc hv
    subst hc
    rw [ParseStruct_of_struct d name sname fields v optFuncs hv]
    constructor
    · intro flags err cfg1 h
      cases hr : concatFields d fields 0 false [.deref] v (defOpts.apply optFuncs) with
      | error p => rw [hr] at h; cases h
      | ok r =>
        obtain ⟨fl, σ⟩ := r
        rw [hr] at h
        simp only at h
        injection h with h
        injection h with h1 h2
        injection h1 with h3 h4
        subst h3 h4
        exact ⟨rfl, by simp⟩
    · intro hs
      obtain ⟨⟨fl, σ⟩, hr⟩ :=
        parseFields_ok d fields 0 false [.deref] v (defOpts.apply optFuncs) [] hs
      rw [parseFields_eq_concatFields] at hr
      rw [hr]
      exact ⟨fl, _, rfl⟩
  refine ⟨?_, ?_, ?_, ?_, hvalid, ?_⟩
  · intro hc
    subst hc
    rfl
  · intro name elem v hc hv
    subst hc
    simp [ParseStruct, hv, errNilConfig]
  · intro typ v hc hnp
    subst hc
    cases typ with
    | ptr name elem => exact absurd rfl (hnp name elem)
    | other name kind => rfl
    | map name key elem => rfl
    | struct name fields => rfl
  · intro name elem v hc hv hns
    subst hc
    cases elem with
    | struct sname fields => exact absurd rfl (hns sname fields)
    | other n kind => simp [ParseStruct, hv, errInvalidConfigType]
    | map n key e => simp [ParseStruct, hv, errInvalidConfigType]
    | ptr n e => simp [ParseStruct, hv, errInvalidConfigType]
  · constructor
    · rintro ⟨flags, err, cfg1, h⟩ ⟨name, sname, fields, v, hc, hv⟩
      have := ((hvalid name sname fields v hc hv).1 flags (some err) cfg1 h).1
      cases this
    · intro hnot
      cases cfg with
      | none => exact ⟨none, _, _, rfl⟩
      | some tv =>
        obtain ⟨typ, v⟩ := tv
        cases typ with
        | other name kind => exact ⟨none, _, _, rfl⟩
        | map name key elem => exact ⟨none, _, _, rfl⟩
        | struct name fields => exact ⟨none, _, _, rfl⟩
        | ptr name elem =>
          cases hv : v.IsNil with
          | true => exact ⟨none, errNilConfig, some (.ptr name elem, v), by simp [ParseStruct, hv]⟩
          | false =>
            cases elem with
            | struct sname fields => exact absurd ⟨name, sname, fields, v, rfl, hv⟩ hnot
            | other n kind =>
              exact ⟨none, errInvalidConfigType, some (.ptr name (.other n kind), v),
                by simp [ParseStruct, hv]⟩
            | map n key e =>
              exact ⟨none, errInvalidConfigType, some (.ptr name (.map n key e), v),
                by simp [ParseStruct, hv]⟩
            | ptr n e =>
              exact ⟨none, errInvalidConfigType, some (.ptr name (.ptr n e), v),
                by simp [ParseStruct, hv]⟩

/-- C1 on the four failing configurations of the tests and on `simpleCfg`. -/
theorem ParseStruct_error_cases_witness :
    ParseStruct testPkg none [] = .ok ((none, some "object cannot be nil"), none) ∧
    ParseStruct testPkg (some (.ptr "" simpleType, .nilPtr)) [] =
      .ok ((none, some "object cannot be nil"), some (.ptr "" simpleType, .nilPtr)) ∧
    ParseStruct testPkg (some (.struct "" .nil, .struct [])) [] =
      .ok ((none, some "object must be a pointer to struct or interface"),
        some (.struct "" .nil, .struct [])) ∧
    ParseStruct testPkg (some (.ptr "" stringType, .ptrTo (.data "something"))) [] =
      .ok ((none, some "object must be a pointer to struct or interface"),
        some (.ptr "" stringType, .ptrTo (.data "something"))) ∧
    (∃ flags cfg1, ParseStruct testPkg
      (some (.ptr "" (.struct "" simpleCfgFields), simpleCfgValue)) [] =
        .ok ((some flags, none), cfg1)) :=
  ⟨(ParseStruct_error_cases testPkg none []).1 rfl,
    (ParseStruct_error_cases testPkg _ []).2.1 _ _ _ rfl rfl,
    (ParseStruct_error_cases testPkg _ []).2.2.1 _ _ rfl (by intro _ _ h; cases h),
    (ParseStruct_error_cases testPkg _ []).2.2.2.1 _ _ _ rfl rfl (by intro _ _ h; cases h),
    ((ParseStruct_error_cases testPkg
      (some (.ptr "" (.struct "" simpleCfgFields), simpleCfgValue)) []).2.2.2.2.1
        "" "" simpleCfgFields simpleCfgValue rfl rfl).2 (by decide)⟩

/-- C2: for a non-nil pointer to a struct, `ParseStruct` returns the concatenation, over
the fields in declaration order, of what each field contributes (`concatFields`), where a
field that is unexported and not anonymous contributes nothing, a field for which
`parseVal` finds a value handle (a terminal field) contributes exactly one descriptor, the
draft of that field bound to the handle, and a struct or pointer-to-struct field that is
walked (a composite field) contributes the list that `parseStruct` returns for the nested
struct under the nested options; the walk returns when no visited field is an anonymous
unexported field of pointer or map type. -/
theorem ParseStruct_concat (d : Pkg) :
    (∀ name sname fields v optFuncs, v.IsNil = false →
      ParseStruct d (some (.ptr name (.struct sname fields), v)) optFuncs =
        match concatFields d fields 0 false [.deref] v (defOpts.apply optFuncs) with
        | .error p => .error p
        | .ok (flags, σ) =>
          .ok ((some flags, none), some (.ptr name (.struct sname fields), σ))) ∧
    (∀ fields i ro path σ opt,
      parseFields d fields i ro path σ opt [] = concatFields d fields i ro path σ opt) ∧
    (∀ fields i ro path σ opt, fields.settable = true →
      ∃ flags σ1, concatFields d fields i ro path σ opt = .ok (flags, σ1)) ∧
    (∀ field typ i ro path σ opt, field.PkgPath ≠ "" → field.Anonymous = false →
      parseField d field typ i ro path σ opt = .ok ([], σ)) ∧
    (∀ field typ i ro path σ opt flag nested val σ1,
      ¬ (field.PkgPath ≠ "" ∧ field.Anonymous = false) →
      parseFlagTag d field opt = some flag →
      parseVal d typ (decide (field.PkgPath ≠ "")) (path ++ [.field i]) σ
        (nestedOptFuncs opt field (draftFlag d field opt flag)) =
          .ok (nested, some val, σ1) →
      parseField d field typ i ro path σ opt =
        .ok ([{ draftFlag d field opt flag with
                Value := some (wrapValue opt field ro path val)
                DefValue := (wrapValue opt field ro path val).String d σ1 }], σ1)) ∧
    (∀ field sname fields i ro path σ opt flag,
      ¬ (field.PkgPath ≠ "" ∧ field.Anonymous = false) →
      parseFlagTag d field opt = some flag →
      addrValue d (.struct sname fields) (decide (field.PkgPath ≠ ""))
        (path ++ [.field i]) = none →
      parseField d field (.struct sname fields) i ro path σ opt =
        parseStruct d fields (decide (field.PkgPath ≠ "")) (path ++ [.field i]) σ
          (nestedOptFuncs opt field (draftFlag d field opt flag))) ∧
    (∀ field name sname fields i ro path σ opt flag,
      field.PkgPath = "" →
      parseFlagTag d field opt = some flag →
      addrValue d (.ptr name (.struct sname fields)) false (path ++ [.field i]) = none →
      d.parseGeneratedPtrs (.ptr name (.struct sname fields)) = false →
      addrValue d (.struct sname fields) false (path ++ [.field i] ++ [.deref]) = none →
      parseField d field (.ptr name (.struct sname fields)) i ro path σ opt =
        parseStruct d fields false (path ++ [.field i] ++ [.deref])
          (if (σ.get (path ++ [.field i])).IsNil then
            σ.set (path ++ [.field i]) (.ptrTo (zeroValue (.struct sname fields)))
           else σ)
          (nestedOptFuncs opt field (draftFlag d field opt flag))) := by
  refine ⟨ParseStruct_of_struct d, parseFields_eq_concatFields d, ?_, ?_, ?_, ?_, ?_⟩
  · intro fields i ro path σ opt hs
    obtain ⟨⟨flags, σ1⟩, hr⟩ := parseFields_ok d fields i ro path σ opt [] hs
    rw [parseFields_eq_concatFields] at hr
    exact ⟨flags, σ1, hr⟩
  · intro field typ i ro path σ opt h1 h2
    unfold parseField
    rw [if_pos ⟨h1, h2⟩]
  · intro field typ i ro path σ opt flag nested val σ1 he hf hv
    unfold parseField
    rw [if_neg he, hf]
    simp only [hv]
  · intro field sname fields i ro path σ opt flag he hf ha
    unfold parseField
    rw [if_neg he, hf]
    simp only
    rw [parseVal, ha]
    simp only [parseStruct]
    cases parseFields d fields 0 (decide (field.PkgPath ≠ "")) (path ++ [.field i]) σ
        (defOpts.apply (nestedOptFuncs opt field (draftFlag d field opt flag))) [] with
    | error p => rfl
    | ok r => rfl
  · intro field name sname fields i ro path σ opt flag he hf ha hg hs
    have hne : ¬ (field.PkgPath ≠ "" ∧ field.Anonymous = false) := fun h => h.1 he
    unfold parseField
    rw [if_neg hne, hf]
    simp only [he, ne_eq, not_true_eq_false, decide_False]
    rw [parseVal, ha]
    simp only [Bool.and_false, Bool.false_eq_true, if_false, hg]
    rw [parseVal, hs]
    simp only [parseStruct]
    cases parseFields d fields 0 false (path ++ [.field i] ++ [.deref])
        (if (σ.get (path ++ [.field i])).IsNil = true then
          σ.set (path ++ [.field i]) (.ptrTo (zeroValue (.struct sname fields)))
         else σ)
        (defOpts.apply (nestedOptFuncs opt field (draftFlag d field opt flag))) [] with
    | error p => rfl
    | ok r => rfl

/-- C2 on `nestedCfg` and `simpleCfg` of the tests: the names in walk order, a skipped
field, and the two composite fields `Sub` and `SUB2`. -/
theorem ParseStruct_concat_witness :
    namesOf (ParseStruct testPkg
      (some (.ptr "" (.struct "" nestedCfgFields), nestedCfgValue)) []) =
      ["sub-name", "sub-name2", "name3", "sub-sub2-name4", "sub-sub2-name5"] ∧
    (∃ flags σ1, concatFields testPkg simpleCfgFields 0 false [.deref] simpleCfgValue
      defOpts = .ok (flags, σ1)) ∧
    parseField testPkg { Name := "name6", PkgPath := "sflags" } stringType 5 false
      [.deref] simpleCfgValue defOpts = .ok ([], simpleCfgValue) ∧
    parseField testPkg { Name := "Sub" } (.struct "" subFields) 0 false [.deref]
      nestedCfgValue defOpts =
      parseStruct testPkg subFields false [.deref, .field 0] nestedCfgValue
        [copyOpts defOpts, Prefix "sub-"] ∧
    parseField testPkg { Name := "SUB2" } (.ptr "" (.struct "" sub2Fields)) 3 false
      [.deref, .field 0] nestedCfgValue (Prefix "sub-" defOpts) =
      parseStruct testPkg sub2Fields false [.deref, .field 0, .field 3, .deref]
        (nestedCfgValue.set [.deref, .field 0, .field 3]
          (.ptrTo (zeroValue (.struct "" sub2Fields))))
        [copyOpts (Prefix "sub-" defOpts), Prefix "sub-sub2-"] := by
  refine ⟨?_, ?_, ?_, ?_, ?_⟩
  · rw [(ParseStruct_concat testPkg).1 "" "" nestedCfgFields nestedCfgValue [] rfl]
    rfl
  · exact (ParseStruct_concat testPkg).2.2.1 _ _ _ _ _ _ (by decide)
  · exact (ParseStruct_concat testPkg).2.2.2.1 _ _ _ _ _ _ _ (by decide) rfl
  · exact (ParseStruct_concat testPkg).2.2.2.2.2.1 { Name := "Sub" } "" subFields 0 false
      [.deref] nestedCfgValue defOpts { Name := "sub" } (by decide) rfl rfl
  · exact (ParseStruct_concat testPkg).2.2.2.2.2.2 { Name := "SUB2" } "" "" sub2Fields 3
      false [.deref, .field 0] nestedCfgValue (Prefix "sub-" defOpts)
      { Name := "sub-sub2" } rfl rfl rfl rfl rfl

theorem ne_of_mem_data (a b : String) (c : Char) (ha : c ∈ a.data) (hb : c ∉ b.data) :
    a ≠ b := by
  intro e
  exact hb (e ▸ ha)

theorem blank_mem_short (n s : String) : ' ' ∈ (n ++ " " ++ s).data := by
  simp [String.data_append]

theorem tilde_mem (n : String) : '~' ∈ ("~" ++ n).data := by
  simp [String.data_append]

theorem StructTag.Get_absent (tag : StructTag) (key : String)
    (h : ∀ p ∈ tag.pairs, p.1 ≠ key) : tag.Get key = "" := by
  unfold StructTag.Get
  have : tag.pairs.find? (fun p => p.1 == key) = none := by
    simp only [List.find?_eq_none]
    intro p hp
    simpa using h p hp
  simp [this]

theorem stringsSplit_empty (sep : Char) : stringsSplit "" sep = [""] := rfl

/-- C3: `parseFlagTag` resolves the name as prefix + camelToFlag(field name, divider) when
the first comma segment of the flag tag is empty or the tag is absent, as prefix + n when
the segment is a name n without a leading `~`, and as n alone when the segment is `~n`;
for a segment `n s` the name is resolved from n in the same way and `Short` is s. -/
theorem parseFlagTag_resolves_name (d : Pkg) (field : StructField) (opt : opts) :
    (∀ options, stringsSplit (field.Tag.Get opt.flagTag) ',' = "" :: options →
      ∃ flag, parseFlagTag d field opt = some flag ∧
        flag.Name = opt.namePrefix ++ d.camelToFlag field.Name opt.flagDivider) ∧
    ((∀ p ∈ field.Tag.pairs, p.1 ≠ opt.flagTag) →
      ∃ flag, parseFlagTag d field opt = some flag ∧
        flag.Name = opt.namePrefix ++ d.camelToFlag field.Name opt.flagDivider) ∧
    (∀ n options, stringsSplit (field.Tag.Get opt.flagTag) ',' = n :: options →
      n ≠ "" → n ≠ "-" → ' ' ∉ n.data → hasPrefix n "~" = false →
      ∃ flag, parseFlagTag d field opt = some flag ∧ flag.Name = opt.namePrefix ++ n) ∧
    (∀ n options, stringsSplit (field.Tag.Get opt.flagTag) ',' = ("~" ++ n) :: options →
      ' ' ∉ n.data →
      ∃ flag, parseFlagTag d field opt = some flag ∧ flag.Name = n) ∧
    (∀ n s options,
      stringsSplit (field.Tag.Get opt.flagTag) ',' = (n ++ " " ++ s) :: options →
      ' ' ∉ n.data → ' ' ∉ s.data → hasPrefix n "~" = false →
      ∃ flag, parseFlagTag d field opt = some flag ∧
        flag.Name = opt.namePrefix ++ n ∧ flag.Short = s) ∧
    (∀ n s options,
      stringsSplit (field.Tag.Get opt.flagTag) ',' = ("~" ++ n ++ " " ++ s) :: options →
      ' ' ∉ n.data → ' ' ∉ s.data →
      ∃ flag, parseFlagTag d field opt = some flag ∧ flag.Name = n ∧ flag.Short = s) := by
  have key : ∀ options, stringsSplit (field.Tag.Get opt.flagTag) ',' = "" :: options →
      ∃ flag, parseFlagTag d field opt = some flag ∧
        flag.Name = opt.namePrefix ++ d.camelToFlag field.Name opt.flagDivider := by
    intro options h
    refine ⟨_, parseFlagTag_of_split d field opt "" options h (by decide), ?_⟩
    by_cases hp : opt.namePrefix = "" <;> simp [hp]
  refine ⟨key, ?_, ?_, ?_, ?_, ?_⟩
  · intro habs
    apply key []
    rw [StructTag.Get_absent _ _ habs]
    rfl
  · intro n options h h0 hd hn ht
    refine ⟨_, parseFlagTag_of_split d field opt n options h hd, ?_⟩
    by_cases hp : opt.namePrefix = "" <;> simp [hp, h0, parseFlagName_plain n hn, ht]
  · intro n options h hn
    have hd : "~" ++ n ≠ "-" := ne_of_mem_data _ _ '~' (tilde_mem n) (by decide)
    have h0 : "~" ++ n ≠ "" := ne_of_mem_data _ _ '~' (tilde_mem n) (by decide)
    have hsp : ' ' ∉ ("~" ++ n).data := by
      simp [String.data_append, hn]
    refine ⟨_, parseFlagTag_of_split d field opt _ options h hd, ?_⟩
    simp [h0, parseFlagName_plain _ hsp, hasPrefix_tilde, dropFirst_tilde]
  · intro n s options h hn hs ht
    have hd : n ++ " " ++ s ≠ "-" :=
      ne_of_mem_data _ _ ' ' (blank_mem_short n s) (by decide)
    have h0 : n ++ " " ++ s ≠ "" :=
      ne_of_mem_data _ _ ' ' (blank_mem_short n s) (by decide)
    refine ⟨_, parseFlagTag_of_split d field opt _ options h hd, ?_, ?_⟩
    · by_cases hp : opt.namePrefix = "" <;>
        simp [hp, h0, parseFlagName_short n s hn hs, ht]
    · simp [h0, parseFlagName_short n s hn hs, ht]
  · intro n s options h hn hs
    have hd : "~" ++ n ++ " " ++ s ≠ "-" :=
      ne_of_mem_data _ _ ' ' (blank_mem_short _ s) (by decide)
    have h0 : "~" ++ n ++ " " ++ s ≠ "" :=
      ne_of_mem_data _ _ ' ' (blank_mem_short _ s) (by decide)
    have hsp : ' ' ∉ ("~" ++ n).data := by
      simp [String.data_append, hn]
    refine ⟨_, parseFlagTag_of_split d field opt _ options h hd, ?_, ?_⟩
    · simp [h0, parseFlagName_short _ s hsp hs, hasPrefix_tilde, dropFirst_tilde]
    · simp [h0, parseFlagName_short _ s hsp hs, hasPrefix_tilde]

/-- C3 on an untagged field, on the tags `name_8`, `~name3` and `name_two t` of the tests
and on `~two t`, each under a non-empty prefix. -/
theorem parseFlagTag_resolves_name_witness :
    (∃ flag, parseFlagTag testPkg { Name := "Name4" } (Prefix "sub-sub2-" defOpts) =
      some flag ∧ flag.Name = "sub-sub2-" ++ camelToFlag "Name4" "-") ∧
    (∃ flag, parseFlagTag testPkg { Name := "Name8", Tag := tagOf [("flag", "name_8")] }
      (Prefix "p-" defOpts) = some flag ∧ flag.Name = "p-" ++ "name_8") ∧
    (∃ flag, parseFlagTag testPkg { Name := "Name3", Tag := tagOf [("flag", "~name3")] }
      (Prefix "sub-" defOpts) = some flag ∧ flag.Name = "name3") ∧
    (∃ flag, parseFlagTag testPkg
      { Name := "Name2", Tag := tagOf [("flag", "name_two t,hidden,deprecated")] }
      (Prefix "p-" defOpts) = some flag ∧
      flag.Name = "p-" ++ "name_two" ∧ flag.Short = "t") ∧
    (∃ flag, parseFlagTag testPkg { Name := "Name2", Tag := tagOf [("flag", "~two t")] }
      (Prefix "p-" defOpts) = some flag ∧ flag.Name = "two" ∧ flag.Short = "t") :=
  ⟨(parseFlagTag_resolves_name testPkg { Name := "Name4" }
      (Prefix "sub-sub2-" defOpts)).2.1 (by intro p hp; cases hp),
    (parseFlagTag_resolves_name testPkg { Name := "Name8", Tag := tagOf [("flag", "name_8")] }
      (Prefix "p-" defOpts)).2.2.1 "name_8" [] rfl (by decide) (by decide) (by decide) rfl,
    (parseFlagTag_resolves_name testPkg { Name := "Name3", Tag := tagOf [("flag", "~name3")] }
      (Prefix "sub-" defOpts)).2.2.2.1 "name3" [] rfl (by decide),
    (parseFlagTag_resolves_name testPkg
      { Name := "Name2", Tag := tagOf [("flag", "name_two t,hidden,deprecated")] }
      (Prefix "p-" defOpts)).2.2.2.2.1 "name_two" "t" ["hidden", "deprecated"] rfl
        (by decide) (by decide) rfl,
    (parseFlagTag_resolves_name testPkg { Name := "Name2", Tag := tagOf [("flag", "~two t")] }
      (Prefix "p-" defOpts)).2.2.2.2.2 "two" "t" [] rfl (by decide) (by decide)⟩

theorem parseEnv_of_empty (d : Pkg) (flagName : String) (field : StructField) (opt : opts)
    (h : field.Tag.Get defaultEnvTag = "") :
    parseEnv d flagName field opt =
      [opt.envPrefix ++ d.flagToEnv flagName opt.flagDivider opt.envDivider] := by
  unfold parseEnv
  rw [h, stringsSplit_empty]
  simp

/-- C4: when the env tag is absent or empty, the descriptor that `parseStruct` drafts for
a field has exactly one env name, envPrefix + flagToEnv(name, flagDivider, envDivider),
where name is the final (prefixed) name of that descriptor; when the first comma segment
of the env tag is `-`, it has no env name. -/
theorem parseEnv_derived (d : Pkg) (field : StructField) (opt : opts) (flag : Flag) :
    (field.Tag.Get defaultEnvTag = "" →
      (draftFlag d field opt flag).EnvNames =
        [opt.envPrefix ++
          d.flagToEnv (draftFlag d field opt flag).Name opt.flagDivider opt.envDivider]) ∧
    ((∀ p ∈ field.Tag.pairs, p.1 ≠ defaultEnvTag) →
      (draftFlag d field opt flag).EnvNames =
        [opt.envPrefix ++
          d.flagToEnv (draftFlag d field opt flag).Name opt.flagDivider opt.envDivider]) ∧
    (∀ rest, stringsSplit (field.Tag.Get defaultEnvTag) ',' = "-" :: rest →
      (draftFlag d field opt flag).EnvNames = []) := by
  refine ⟨?_, ?_, ?_⟩
  · intro h
    exact parseEnv_of_empty d flag.Name field opt h
  · intro h
    exact parseEnv_of_empty d flag.Name field opt (StructTag.Get_absent _ _ h)
  · intro rest h
    show parseEnv d flag.Name field opt = []
    unfold parseEnv
    rw [h]
    simp

/-- C4 on a field without env tag, with an empty env tag and with the env tag `-`. -/
theorem parseEnv_derived_witness :
    (draftFlag testPkg { Name := "Name4" } (EnvPrefix "PP|" (Prefix "sub-sub2-" defOpts))
      { Name := "sub-sub2-name4" }).EnvNames = ["PP|" ++ flagToEnv "sub-sub2-name4" "-" "_"] ∧
    (draftFlag testPkg { Name := "Name", Tag := tagOf [("env", "")] } defOpts
      { Name := "name" }).EnvNames = ["" ++ flagToEnv "name" "-" "_"] ∧
    (draftFlag testPkg
      { Name := "Name", Tag := tagOf [("desc", "name description"), ("env", "-")] } defOpts
      { Name := "name" }).EnvNames = [] :=
  ⟨(parseEnv_derived testPkg { Name := "Name4" } (EnvPrefix "PP|" (Prefix "sub-sub2-" defOpts))
      { Name := "sub-sub2-name4" }).2.1 (by intro p hp; cases hp),
    (parseEnv_derived testPkg { Name := "Name", Tag := tagOf [("env", "")] } defOpts
      { Name := "name" }).1 rfl,
    (parseEnv_derived testPkg
      { Name := "Name", Tag := tagOf [("desc", "name description"), ("env", "-")] } defOpts
      { Name := "name" }).2.2 [] rfl⟩

theorem foldl_append_singletons {α β : Type} (f : α → List β) (g : α → β) :
    ∀ (l : List α) (init : List β), (∀ x ∈ l, f x = [g x]) →
      l.foldl (fun acc x => acc ++ f x) init = init ++ l.map g
  | [], init, _ => by simp
  | x :: xs, init, h => by
    rw [List.foldl_cons, h x (by simp),
      foldl_append_singletons f g xs (init ++ [g x]) (fun y hy => h y (by simp [hy]))]
    simp

theorem append_ne_empty_right (a b : String) (h : b ≠ "") : a ++ b ≠ "" := by
  intro e
  apply h
  have h2 : (a ++ b).data = [] := by rw [e]
  rw [String.data_append] at h2
  have h3 : b.data = [] := (List.append_eq_nil.mp h2).2
  exact String.ext h3

theorem parseEnvName_tilde (d : Pkg) (opt : opts) (x : String) (hx : x ≠ "") :
    parseEnvName d opt ("~" ++ x) = [x] := by
  simp [parseEnvName, hasPrefix_tilde, dropFirst_tilde, hx]

theorem parseEnvName_plain (d : Pkg) (opt : opts) (x : String) (hx : x ≠ "")
    (ht : hasPrefix x "~" = false)
    (hempty : opt.namePrefix = "" → d.flagToEnv "" opt.flagDivider opt.envDivider = "") :
    parseEnvName d opt x =
      [opt.envPrefix ++ d.flagToEnv opt.namePrefix opt.flagDivider opt.envDivider ++ x] := by
  unfold parseEnvName
  rw [ht]
  by_cases hp : opt.namePrefix = ""
  · have he := hempty hp
    simp [hp, hx, he]
  · have hne : d.flagToEnv opt.namePrefix opt.flagDivider opt.envDivider ++ x ≠ "" :=
      append_ne_empty_right _ _ hx
    simp [hp, hne, String.append_assoc]

/-- C5: for an env tag made of non-empty explicit names, the first one not `-`, `parseEnv`
returns one entry per name in declaration order: X for a name written `~X`, and
envPrefix + flagToEnv(namePrefix, flagDivider, envDivider) + X, with X verbatim, for a name
X without `~` (flagToEnv of the empty prefix being empty). -/
theorem parseEnv_explicit (d : Pkg) (flagName : String) (field : StructField) (opt : opts)
    (names : List (Bool × String))
    (hsplit : stringsSplit (field.Tag.Get defaultEnvTag) ',' = names.map envSegment)
    (hnames : ∀ n ∈ names, n.2 ≠ "" ∧ (n.1 = false → hasPrefix n.2 "~" = false))
    (hfirst : names.head? ≠ some (false, "-"))
    (hempty : opt.namePrefix = "" → d.flagToEnv "" opt.flagDivider opt.envDivider = "") :
    parseEnv d flagName field opt =
      names.map (fun n =>
        if n.1 then n.2
        else opt.envPrefix ++ d.flagToEnv opt.namePrefix opt.flagDivider opt.envDivider
          ++ n.2) := by
  cases names with
  | nil => exact absurd hsplit (stringsSplit_ne_nil _ _)
  | cons n rest =>
    have hn := hnames n (by simp)
    have hd : envSegment n ≠ "-" := by
      obtain ⟨t, x⟩ := n
      cases t with
      | true => exact ne_of_mem_data _ _ '~' (tilde_mem x) (by decide)
      | false =>
        intro e
        apply hfirst
        simp only [envSegment, Bool.false_eq_true, if_false] at e
        simp [e]
    have h0 : envSegment n ≠ "" := by
      obtain ⟨t, x⟩ := n
      cases t with
      | true => exact ne_of_mem_data _ _ '~' (tilde_mem x) (by decide)
      | false => simpa [envSegment] using hn.1
    unfold parseEnv
    rw [hsplit, List.map_cons]
    simp only [hd, h0, if_false]
    rw [← List.map_cons,
      foldl_append_singletons (parseEnvName d opt)
        (fun s => if hasPrefix s "~" then dropFirst s
          else opt.envPrefix ++ d.flagToEnv opt.namePrefix opt.flagDivider opt.envDivider ++ s)]
    · simp only [List.nil_append, List.map_map]
      apply List.map_congr_left
      intro m hm
      obtain ⟨t, x⟩ := m
      have hmx := hnames (t, x) hm
      cases t with
      | true => simp [envSegment, hasPrefix_tilde, dropFirst_tilde]
      | false => simp [envSegment, hmx.2 rfl]
    · intro s hs
      obtain ⟨m, hm, rfl⟩ := List.mem_map.mp hs
      obtain ⟨t, x⟩ := m
      have hmx := hnames (t, x) hm
      cases t with
      | true =>
        simp only [envSegment, if_true, hasPrefix_tilde, dropFirst_tilde]
        exact parseEnvName_tilde d opt x hmx.1
      | false =>
        simp only [envSegment, Bool.false_eq_true, if_false, hmx.2 rfl]
        exact parseEnvName_plain d opt x hmx.1 (hmx.2 rfl) hempty

/-- C5 on the two examples of the tests: `NAME_8,~nn_8` under the env prefix `PP|` and
`name_five` under the name prefix `sub-sub2-`. -/
theorem parseEnv_explicit_witness :
    parseEnv testPkg "name_8"
      { Name := "Name8", Tag := tagOf [("flag", "name_8"), ("env", "NAME_8,~nn_8")] }
      (EnvDivider "|" (EnvPrefix "PP|" defOpts)) = ["PP|NAME_8", "nn_8"] ∧
    parseEnv testPkg "sub-sub2-name5"
      { Name := "Name5", Tag := tagOf [("env", "name_five")] }
      (Prefix "sub-sub2-" defOpts) = ["SUB_SUB2_name_five"] :=
  ⟨parseEnv_explicit testPkg "name_8"
      { Name := "Name8", Tag := tagOf [("flag", "name_8"), ("env", "NAME_8,~nn_8")] }
      (EnvDivider "|" (EnvPrefix "PP|" defOpts)) [(false, "NAME_8"), (true, "nn_8")]
      rfl (by decide) (by decide) (fun _ => rfl),
    parseEnv_explicit testPkg "sub-sub2-name5"
      { Name := "Name5", Tag := tagOf [("env", "name_five")] }
      (Prefix "sub-sub2-" defOpts) [(false, "name_five")]
      rfl (by decide) (by decide) (fun _ => rfl)⟩

/-- C6: a field whose flag tag has `-` as first comma segment contributes no descriptor,
whatever its type, its other tag segments, its env tag and the options are: the iteration
for it appends nothing, leaves the state as it is and never looks at the type of the
field, so that nothing below the field is walked. -/
theorem parseField_suppressed (d : Pkg) (field : StructField) (typ : GoType) (i : Nat)
    (ro : Bool) (path : List Step) (σ : GoValue) (opt : opts) (options : List String)
    (h : stringsSplit (field.Tag.Get opt.flagTag) ',' = "-" :: options) :
    parseField d field typ i ro path σ opt = .ok ([], σ) ∧
    ∀ rest acc, parseFields d (.cons field typ rest) i ro path σ opt acc =
      parseFields d rest (i + 1) ro path σ opt acc := by
  have hp : parseField d field typ i ro path σ opt = .ok ([], σ) := by
    unfold parseField
    rw [parseFlagTag_of_dash d field opt options h]
    split <;> rfl
  refine ⟨hp, ?_⟩
  intro rest acc
  rw [parseFields_cons, hp]
  simp

/-- C6 on a struct-typed field tagged `-,hidden` with an env tag, and on `simpleCfg`,
whose field `Name5` is tagged `-`. -/
theorem parseField_suppressed_witness :
    parseField testPkg
      { Name := "Sub", Tag := tagOf [("flag", "-,hidden"), ("env", "SUB")] }
      (.struct "" subFields) 0 false [.deref] nestedCfgValue (Prefix "p-" defOpts) =
      .ok ([], nestedCfgValue) ∧
    namesOf (ParseStruct testPkg
      (some (.ptr "" (.struct "" simpleCfgFields), simpleCfgValue)) []) =
      ["name", "name_two", "name3", "name4", "name7", "name_8", "addr", "map"] :=
  ⟨(parseField_suppressed testPkg
      { Name := "Sub", Tag := tagOf [("flag", "-,hidden"), ("env", "SUB")] }
      (.struct "" subFields) 0 false [.deref] nestedCfgValue (Prefix "p-" defOpts)
      ["hidden"] rfl).1, rfl⟩

theorem hasOption_congr (l1 l2 : List String) (k : String) (h : k ∈ l1 ↔ k ∈ l2) :
    hasOption l1 k = hasOption l2 k := by
  have h1 := hasOption_iff l1 k
  have h2 := hasOption_iff l2 k
  cases e1 : hasOption l1 k <;> cases e2 : hasOption l2 k <;> simp_all

/-- C9: when `parseFlagTag` returns a descriptor (the first comma segment of the flag tag is
not `-`), `Required` is set iff a segment after the first is `required`, `Hidden` iff a
segment after the first is `hidden` or the options carry an inherited hidden, `Deprecated`
iff a segment after the first is `deprecated` or the options carry an inherited deprecated;
the descriptor depends on the segments after the first only through the presence of these
three keywords, so any other segment changes nothing. -/
theorem parseFlagTag_markers (d : Pkg) (field : StructField) (opt : opts) (fName : String)
    (options : List String)
    (hsplit : stringsSplit (field.Tag.Get opt.flagTag) ',' = fName :: options)
    (hd : fName ≠ "-") :
    ∃ flag, parseFlagTag d field opt = some flag ∧
      (flag.Required = true ↔ "required" ∈ options) ∧
      (flag.Hidden = true ↔ "hidden" ∈ options ∨ opt.hidden = true) ∧
      (flag.Deprecated = true ↔ "deprecated" ∈ options ∨ opt.deprecated = true) ∧
      ∀ (other : StructField) (options2 : List String), other.Name = field.Name →
        stringsSplit (other.Tag.Get opt.flagTag) ',' = fName :: options2 →
        (∀ k ∈ ["hidden", "deprecated", "required"], k ∈ options2 ↔ k ∈ options) →
        parseFlagTag d other opt = some flag := by
  refine ⟨_, parseFlagTag_of_split d field opt fName options hsplit hd, ?_, ?_, ?_, ?_⟩
  · exact hasOption_iff options "required"
  · simp [hasOption_iff]
  · simp [hasOption_iff]
  · intro other options2 hname hsplit2 hk
    rw [parseFlagTag_of_split d other opt fName options2 hsplit2 hd, hname,
      hasOption_congr options2 options "hidden" (hk _ (by simp)),
      hasOption_congr options2 options "deprecated" (hk _ (by simp)),
      hasOption_congr options2 options "required" (hk _ (by simp))]

/-- C9 on the tag `name_two t,hidden,deprecated` of the tests. -/
theorem parseFlagTag_markers_witness :
    ∃ flag, parseFlagTag testPkg
        { Name := "Name2", Tag := tagOf [("flag", "name_two t,hidden,deprecated")] }
        (hidden false defOpts) = some flag ∧
      (flag.Required = true ↔ "required" ∈ ["hidden", "deprecated"]) ∧
      (flag.Hidden = true ↔
        "hidden" ∈ ["hidden", "deprecated"] ∨ (hidden false defOpts).hidden = true) ∧
      (flag.Deprecated = true ↔
        "deprecated" ∈ ["hidden", "deprecated"] ∨ (hidden false defOpts).deprecated = true) ∧
      ∀ (other : StructField) (options2 : List String), other.Name = "Name2" →
        stringsSplit (other.Tag.Get (hidden false defOpts).flagTag) ',' =
          "name_two t" :: options2 →
        (∀ k ∈ ["hidden", "deprecated", "required"],
          k ∈ options2 ↔ k ∈ ["hidden", "deprecated"]) →
        parseFlagTag testPkg other (hidden false defOpts) = some flag :=
  parseFlagTag_markers testPkg
    { Name := "Name2", Tag := tagOf [("flag", "name_two t,hidden,deprecated")] }
    (hidden false defOpts) "name_two t" ["hidden", "deprecated"] rfl (by decide)

theorem hidden_step (d : Pkg) (field : StructField) (opt : opts) (flag : Flag)
    (hQ : opt.inheritHidden = true ∧ opt.hidden = true)
    (hf : parseFlagTag d field opt = some flag) :
    (nestedOpts opt field (draftFlag d field opt flag)).inheritHidden = true ∧
    (nestedOpts opt field (draftFlag d field opt flag)).hidden = true := by
  obtain ⟨fName, options, _, _, hh, _, _⟩ := parseFlagTag_some d field opt flag hf
  rw [nestedOpts_eq]
  simp [hQ.1, draftFlag, hh, hQ.2]

theorem deprecated_step (d : Pkg) (field : StructField) (opt : opts) (flag : Flag)
    (hQ : opt.inheritDeprecated = true ∧ opt.deprecated = true)
    (hf : parseFlagTag d field opt = some flag) :
    (nestedOpts opt field (draftFlag d field opt flag)).inheritDeprecated = true ∧
    (nestedOpts opt field (draftFlag d field opt flag)).deprecated = true := by
  obtain ⟨fName, options, _, _, _, hh, _⟩ := parseFlagTag_some d field opt flag hf
  rw [nestedOpts_eq]
  simp [hQ.1, draftFlag, hh, hQ.2]

theorem hidden_of_origin (d : Pkg) (fields : List StructField) (g : Flag)
    (h : Origin d (fun o => o.inheritHidden = true ∧ o.hidden = true) fields g) :
    g.Hidden = true := by
  obtain ⟨field, _, opt, flag, hQ, hf, hg⟩ := h
  obtain ⟨fName, options, _, _, hh, _, _⟩ := parseFlagTag_some d field opt flag hf
  rw [hg]
  simp [draftFlag, hh, hQ.2]

theorem deprecated_of_origin (d : Pkg) (fields : List StructField) (g : Flag)
    (h : Origin d (fun o => o.inheritDeprecated = true ∧ o.deprecated = true) fields g) :
    g.Deprecated = true := by
  obtain ⟨field, _, opt, flag, hQ, hf, hg⟩ := h
  obtain ⟨fName, options, _, _, _, hh, _⟩ := parseFlagTag_some d field opt flag hf
  rw [hg]
  simp [draftFlag, hh, hQ.2]

/-- C10: with InheritHidden enabled, every descriptor that the walker emits for a field
whose flag tag has the keyword `hidden`, that is the descriptors of all descendants of a
struct-typed field at every nesting depth, has `Hidden` set; likewise with
InheritDeprecated and the keyword `deprecated`, every such descriptor has `Deprecated`
set. -/
theorem inherited_markers (d : Pkg) (field : StructField) (typ : GoType) (i : Nat)
    (ro : Bool) (path : List Step) (σ : GoValue) (opt : opts) (fName : String)
    (options : List String) (own : List Flag) (σ1 : GoValue)
    (hsplit : stringsSplit (field.Tag.Get opt.flagTag) ',' = fName :: options)
    (h : parseField d field typ i ro path σ opt = .ok (own, σ1)) :
    (opt.inheritHidden = true → "hidden" ∈ options → ∀ g ∈ own, g.Hidden = true) ∧
    (opt.inheritDeprecated = true → "deprecated" ∈ options →
      ∀ g ∈ own, g.Deprecated = true) := by
  have hflag : ∀ flag, parseFlagTag d field opt = some flag →
      flag.Hidden = (hasOption options "hidden" || opt.hidden) ∧
      flag.Deprecated = (hasOption options "deprecated" || opt.deprecated) := by
    intro flag hf
    obtain ⟨fName2, options2, hs2, _, hh, hdp, _⟩ := parseFlagTag_some d field opt flag hf
    rw [hsplit] at hs2
    injection hs2 with _ ho
    subst ho
    exact ⟨hh, hdp⟩
  constructor
  · intro hinh hkw g hg
    have hopt : hasOption options "hidden" = true := (hasOption_iff _ _).mpr hkw
    rcases parseField_cases d _ _ _ _ _ _ _ _ _ h with
      ⟨rfl, _⟩ | ⟨flag, nested, val, hf, _, rfl⟩ | ⟨flag, hf, hv⟩
    · cases hg
    · rw [List.mem_singleton] at hg
      subst hg
      simp [draftFlag, (hflag flag hf).1, hopt]
    · apply hidden_of_origin d typ.allFields
      refine parseVal_origin d _ (fun f o fl hQ hfl => hidden_step d f o fl hQ hfl)
        typ _ _ _ _ own none σ1 hv ?_ g hg
      have := nestedOpts_eq opt field (draftFlag d field opt flag)
      unfold nestedOpts at this
      rw [this]
      simp [hinh, draftFlag, (hflag flag hf).1, hopt]
  · intro hinh hkw g hg
    have hopt : hasOption options "deprecated" = true := (hasOption_iff _ _).mpr hkw
    rcases parseField_cases d _ _ _ _ _ _ _ _ _ h with
      ⟨rfl, _⟩ | ⟨flag, nested, val, hf, _, rfl⟩ | ⟨flag, hf, hv⟩
    · cases hg
    · rw [List.mem_singleton] at hg
      subst hg
      simp [draftFlag, (hflag flag hf).2, hopt]
    · apply deprecated_of_origin d typ.allFields
      refine parseVal_origin d _ (fun f o fl hQ hfl => deprecated_step d f o fl hQ hfl)
        typ _ _ _ _ own none σ1 hv ?_ g hg
      have := nestedOpts_eq opt field (draftFlag d field opt flag)
      unfold nestedOpts at this
      rw [this]
      simp [hinh, draftFlag, (hflag flag hf).2, hopt]

/-- C10 on the field `Sub` of `hiddenNestedCfg` and of `deprecatedNestedCfg`. -/
theorem inherited_markers_witness :
    (∃ own σ1,
      parseField testPkg (markedSubField "hidden") markedSubType 0 false [.deref]
        (.ptrTo (zeroValue (.struct "" (markedCfgFields "hidden"))))
        (InheritHidden defOpts) = .ok (own, σ1) ∧
      own.map (fun g => g.Name) = ["sub-name", "sub-sub2-name"] ∧
      own.all (fun g => g.Hidden) = true) ∧
    (∃ own σ1,
      parseField testPkg (markedSubField "deprecated") markedSubType 0 false [.deref]
        (.ptrTo (zeroValue (.struct "" (markedCfgFields "deprecated"))))
        (InheritDeprecated defOpts) = .ok (own, σ1) ∧
      own.map (fun g => g.Name) = ["sub-name", "sub-sub2-name"] ∧
      own.all (fun g => g.Deprecated) = true) := by
  constructor
  · refine ⟨_, _, rfl, rfl, ?_⟩
    rw [List.all_eq_true]
    intro g hg
    exact (inherited_markers testPkg (markedSubField "hidden") markedSubType 0 false [.deref]
      (.ptrTo (zeroValue (.struct "" (markedCfgFields "hidden")))) (InheritHidden defOpts)
      "" ["hidden"] _ _ rfl rfl).1 rfl (by decide) g hg
  · refine ⟨_, _, rfl, rfl, ?_⟩
    rw [List.all_eq_true]
    intro g hg
    exact (inherited_markers testPkg (markedSubField "deprecated") markedSubType 0 false
      [.deref] (.ptrTo (zeroValue (.struct "" (markedCfgFields "deprecated"))))
      (InheritDeprecated defOpts) "" ["deprecated"] _ _ rfl rfl).2 rfl (by decide) g hg

/-- C7, counterexample: the field `Z string` tagged `flag:"~-"` yields a descriptor whose
name is "-". -/
theorem dash_name_emitted :
    namesOf (ParseStruct testPkg
      (some (.ptr "" (.struct "" dashFields), .ptrTo (.struct [.zero]))) []) = ["-"] := by
  rfl

/-- C7, amended: every descriptor returned by `ParseStruct` is the descriptor of a field of
the configuration type, at some nesting depth, whose flag tag's first comma segment is not
the literal `-`, and it carries the name that `parseFlagTag` resolves for that field: a
field suppressed with `-` is never emitted. -/
theorem suppressed_never_emitted (d : Pkg) (name sname : String) (fields : FieldList)
    (v : GoValue) (optFuncs : List OptFunc) (flags : List Flag) (err : Option String)
    (cfg1 : Interface)
    (h : ParseStruct d (some (.ptr name (.struct sname fields), v)) optFuncs =
      .ok ((some flags, err), cfg1)) :
    ∀ g ∈ flags, ∃ field ∈ fields.allFields, ∃ opt flag fName options,
      opt.flagTag = (defOpts.apply optFuncs).flagTag ∧
      parseFlagTag d field opt = some flag ∧ g.Name = flag.Name ∧
      stringsSplit (field.Tag.Get opt.flagTag) ',' = fName :: options ∧ fName ≠ "-" := by
  intro g hg
  have hp : ∃ σ, parseFields d fields 0 false [.deref] v (defOpts.apply optFuncs) [] =
      .ok (flags, σ) := by
    cases hv : v.IsNil with
    | true =>
      simp [ParseStruct, hv] at h
    | false =>
      rw [ParseStruct_of_struct d name sname fields v optFuncs hv,
        ← parseFields_eq_concatFields] at h
      cases hr : parseFields d fields 0 false [.deref] v (defOpts.apply optFuncs) [] with
      | error p => rw [hr] at h; cases h
      | ok r =>
        obtain ⟨fl, σ⟩ := r
        rw [hr] at h
        simp only at h
        injection h with h
        injection h with h1 _
        injection h1 with h2 _
        injection h2 with h3
        subst h3
        exact ⟨σ, rfl⟩
  obtain ⟨σ, hp⟩ := hp
  have ho := parseFields_origin d
    (fun o => o.flagTag = (defOpts.apply optFuncs).flagTag)
    (fun f o fl hQ _ => by rw [nestedOpts_eq]; exact hQ)
    fields 0 false [.deref] v _ flags σ hp rfl g hg
  obtain ⟨field, hmem, opt, flag, hQ, hf, hgeq⟩ := ho
  obtain ⟨fName, options, hs, hd, _⟩ := parseFlagTag_some d field opt flag hf
  refine ⟨field, hmem, opt, flag, fName, options, hQ, hf, ?_, hs, hd⟩
  rw [hgeq]
  rfl

/-- C7 as amended, on the second descriptor of `simpleCfg`. -/
theorem suppressed_never_emitted_witness :
    ∃ field ∈ simpleCfgFields.allFields, ∃ opt flag fName options,
      opt.flagTag = (defOpts.apply []).flagTag ∧
      parseFlagTag testPkg field opt = some flag ∧ "name_two" = flag.Name ∧
      stringsSplit (field.Tag.Get opt.flagTag) ',' = fName :: options ∧ fName ≠ "-" := by
  have h := suppressed_never_emitted testPkg "" "" simpleCfgFields simpleCfgValue []
    _ _ _ rfl
  exact h _ (List.mem_cons_of_mem _ (List.mem_cons_self _ _))

/-- C8: the struct with a string field tagged `flag:"~"` and a string field tagged
`flag:" s"` (a short alias only) yields two descriptors, both with the empty name. -/
theorem empty_name_emitted :
    namesOf (ParseStruct testPkg
      (some (.ptr "" (.struct "" emptyNameFields), .ptrTo (.struct [.zero, .zero]))) []) =
      ["", ""] := by
  rfl

theorem parseFlagTag_name_congr (d : Pkg) (field : StructField) (opt1 opt2 : opts)
    (h1 : opt1.flagTag = opt2.flagTag) (h2 : opt1.flagDivider = opt2.flagDivider)
    (h3 : opt1.namePrefix = opt2.namePrefix) :
    (parseFlagTag d field opt1).map (fun g => g.Name) =
      (parseFlagTag d field opt2).map (fun g => g.Name) := by
  cases hs : stringsSplit (field.Tag.Get opt1.flagTag) ',' with
  | nil => exact absurd hs (stringsSplit_ne_nil _ _)
  | cons fName options =>
    have hs2 : stringsSplit (field.Tag.Get opt2.flagTag) ',' = fName :: options := by
      rw [← h1]; exact hs
    by_cases hd : fName = "-"
    · subst hd
      rw [parseFlagTag_of_dash d field opt1 options hs,
        parseFlagTag_of_dash d field opt2 options hs2]
    · rw [parseFlagTag_of_split d field opt1 fName options hs hd,
        parseFlagTag_of_split d field opt2 fName options hs2 hd]
      simp [h2, h3]

theorem parseEnv_congr (d : Pkg) (name : String) (field : StructField) (opt1 opt2 : opts)
    (h1 : opt1.envPrefix = opt2.envPrefix) (h2 : opt1.flagDivider = opt2.flagDivider)
    (h3 : opt1.envDivider = opt2.envDivider) (h4 : opt1.namePrefix = opt2.namePrefix) :
    parseEnv d name field opt1 = parseEnv d name field opt2 := by
  unfold parseEnv parseEnvName
  simp only [h1, h2, h3, h4]

theorem parseField_struct (d : Pkg) (field : StructField) (sname : String)
    (fields : FieldList) (i : Nat) (ro : Bool) (path : List Step) (σ : GoValue) (opt : opts)
    (flag : Flag) (he : ¬ (field.PkgPath ≠ "" ∧ field.Anonymous = false))
    (hf : parseFlagTag d field opt = some flag)
    (ha : addrValue d (.struct sname fields) (decide (field.PkgPath ≠ ""))
      (path ++ [.field i]) = none) :
    parseField d field (.struct sname fields) i ro path σ opt =
      parseFields d fields 0 (decide (field.PkgPath ≠ "")) (path ++ [.field i]) σ
        (nestedOpts opt field (draftFlag d field opt flag)) [] := by
  unfold parseField
  rw [if_neg he, hf]
  simp only
  rw [parseVal, ha]
  simp only [nestedOpts]
  cases parseFields d fields 0 (decide (field.PkgPath ≠ "")) (path ++ [.field i]) σ
      (defOpts.apply (nestedOptFuncs opt field (draftFlag d field opt flag))) [] with
  | error p => rfl
  | ok r => rfl

/-- C12: for an anonymous field, with flatten enabled the nested walk runs under the prefix
of the enclosing level, so that every field below gets the name and the env names it would
get in the enclosing struct; with flatten disabled the nested prefix is the resolved name of
the field followed by the flag divider. The nested walk of a struct-typed field is the loop
of `parseStruct` under these nested options. -/
theorem flattened_naming (d : Pkg) (field : StructField) (opt : opts) (flag : Flag)
    (hanon : field.Anonymous = true) (hf : parseFlagTag d field opt = some flag) :
    (opt.flatten = true →
      (nestedOpts opt field (draftFlag d field opt flag)).namePrefix = opt.namePrefix ∧
      (∀ child, (parseFlagTag d child (nestedOpts opt field (draftFlag d field opt flag))).map
          (fun g => g.Name) = (parseFlagTag d child opt).map (fun g => g.Name)) ∧
      (∀ child name, parseEnv d name child
          (nestedOpts opt field (draftFlag d field opt flag)) = parseEnv d name child opt)) ∧
    (opt.flatten = false →
      (nestedOpts opt field (draftFlag d field opt flag)).namePrefix =
        flag.Name ++ opt.flagDivider) ∧
    (∀ sname fields i ro path σ,
      addrValue d (.struct sname fields) (decide (field.PkgPath ≠ ""))
        (path ++ [.field i]) = none →
      parseField d field (.struct sname fields) i ro path σ opt =
        parseFields d fields 0 (decide (field.PkgPath ≠ "")) (path ++ [.field i]) σ
          (nestedOpts opt field (draftFlag d field opt flag)) []) := by
  refine ⟨?_, ?_, ?_⟩
  · intro hfl
    have hp : (nestedOpts opt field (draftFlag d field opt flag)).namePrefix =
        opt.namePrefix := by
      rw [nestedOpts_eq]; simp [hanon, hfl]
    refine ⟨hp, ?_, ?_⟩
    · intro child
      apply parseFlagTag_name_congr _ _ _ _ _ _ hp <;> rw [nestedOpts_eq]
    · intro child name
      apply parseEnv_congr _ _ _ _ _ _ _ _ hp <;> rw [nestedOpts_eq]
  · intro hfl
    rw [nestedOpts_eq]
    simp [hanon, hfl, draftFlag]
  · intro sname fields i ro path σ ha
    exact parseField_struct d field sname fields i ro path σ opt flag
      (by simp [hanon]) hf ha

/-- C12 on `anonymousCfg` of the tests: the embedded `simple.Name` is `name` / `NAME` by
default and `simple-name` / `SIMPLE_NAME` with `Flatten(false)`. -/
theorem flattened_naming_witness :
    (nestedOpts defOpts { Name := "simple", PkgPath := "sflags", Anonymous := true }
      (draftFlag testPkg { Name := "simple", PkgPath := "sflags", Anonymous := true }
        defOpts { Name := "simple" })).namePrefix = "" ∧
    (nestedOpts (Flatten false defOpts)
      { Name := "simple", PkgPath := "sflags", Anonymous := true }
      (draftFlag testPkg { Name := "simple", PkgPath := "sflags", Anonymous := true }
        (Flatten false defOpts) { Name := "simple" })).namePrefix = "simple" ++ "-" ∧
    namesOf (ParseStruct testPkg
      (some (.ptr "" (.struct "" anonymousCfgFields), anonymousCfgValue)) []) =
      ["name1", "name"] ∧
    envNamesOf (ParseStruct testPkg
      (some (.ptr "" (.struct "" anonymousCfgFields), anonymousCfgValue)) []) =
      [["NAME1"], ["NAME"]] ∧
    namesOf (ParseStruct testPkg
      (some (.ptr "" (.struct "" anonymousCfgFields), anonymousCfgValue)) [Flatten false]) =
      ["name1", "simple-name"] ∧
    envNamesOf (ParseStruct testPkg
      (some (.ptr "" (.struct "" anonymousCfgFields), anonymousCfgValue)) [Flatten false]) =
      [["NAME1"], ["SIMPLE_NAME"]] :=
  ⟨((flattened_naming testPkg { Name := "simple", PkgPath := "sflags", Anonymous := true }
      defOpts { Name := "simple" } rfl rfl).1 rfl).1,
    (flattened_naming testPkg { Name := "simple", PkgPath := "sflags", Anonymous := true }
      (Flatten false defOpts) { Name := "simple" } rfl rfl).2.1 rfl,
    rfl, rfl, rfl, rfl⟩

theorem parseField_ptr_struct (d : Pkg) (field : StructField) (name sname : String)
    (fields : FieldList) (i : Nat) (ro : Bool) (path : List Step) (σ : GoValue) (opt : opts)
    (flag : Flag) (he : field.PkgPath = "")
    (hf : parseFlagTag d field opt = some flag)
    (ha : addrValue d (.ptr name (.struct sname fields)) false (path ++ [.field i]) = none)
    (hg : d.parseGeneratedPtrs (.ptr name (.struct sname fields)) = false)
    (hs : addrValue d (.struct sname fields) false (path ++ [.field i] ++ [.deref]) = none) :
    parseField d field (.ptr name (.struct sname fields)) i ro path σ opt =
      parseFields d fields 0 false (path ++ [.field i] ++ [.deref])
        (allocPtr σ (path ++ [.field i]) (.struct sname fields))
        (nestedOpts opt field (draftFlag d field opt flag)) [] := by
  have hne : ¬ (field.PkgPath ≠ "" ∧ field.Anonymous = false) := fun h => h.1 he
  unfold parseField
  rw [if_neg hne, hf]
  simp only [he, ne_eq, not_true_eq_false, decide_False]
  rw [parseVal, ha]
  simp only [Bool.and_false, Bool.false_eq_true, if_false, hg]
  rw [parseVal, hs]
  simp only [nestedOpts, allocPtr]
  cases parseFields d fields 0 false (path ++ [.field i] ++ [.deref])
      (if (σ.get (path ++ [.field i])).IsNil = true then
        σ.set (path ++ [.field i]) (.ptrTo (zeroValue (.struct sname fields)))
       else σ)
      (defOpts.apply (nestedOptFuncs opt field (draftFlag d field opt flag))) [] with
  | error p => rfl
  | ok r => rfl

theorem parseFlagTag_resolves_name_aux (d : Pkg) (field : StructField) (opt : opts)
    (habs : ∀ p ∈ field.Tag.pairs, p.1 ≠ opt.flagTag) :
    ∃ flag, parseFlagTag d field opt = some flag ∧
      flag.Name = opt.namePrefix ++ d.camelToFlag field.Name opt.flagDivider := by
  have hs : stringsSplit (field.Tag.Get opt.flagTag) ',' = [""] := by
    rw [StructTag.Get_absent _ _ habs]
    rfl
  refine ⟨_, parseFlagTag_of_split d field opt "" [] hs (by decide), ?_⟩
  by_cases hp : opt.namePrefix = "" <;> simp [hp]

/-- C13: below a field that is not anonymous and whose resolved name is N, the walk runs
with the name prefix N + flagDivider and with the tag keys, the env prefix, the dividers,
flatten, the validator and the two inheritance switches of the enclosing level. An untagged
field below is named N + flagDivider + camelToFlag(its name); when the tag of the field
itself is `~n`, N is n without the enclosing prefix. The nested walk of a struct or
pointer-to-struct field that is visited (exported) is the loop of `parseStruct` under
these nested options. -/
theorem nested_naming (d : Pkg) (field : StructField) (opt : opts) (flag : Flag)
    (hanon : field.Anonymous = false) (hf : parseFlagTag d field opt = some flag) :
    (nestedOpts opt field (draftFlag d field opt flag)).namePrefix =
      flag.Name ++ opt.flagDivider ∧
    ((nestedOpts opt field (draftFlag d field opt flag)).descTag = opt.descTag ∧
      (nestedOpts opt field (draftFlag d field opt flag)).flagTag = opt.flagTag ∧
      (nestedOpts opt field (draftFlag d field opt flag)).envPrefix = opt.envPrefix ∧
      (nestedOpts opt field (draftFlag d field opt flag)).flagDivider = opt.flagDivider ∧
      (nestedOpts opt field (draftFlag d field opt flag)).envDivider = opt.envDivider ∧
      (nestedOpts opt field (draftFlag d field opt flag)).flatten = opt.flatten ∧
      (nestedOpts opt field (draftFlag d field opt flag)).validator = opt.validator ∧
      (nestedOpts opt field (draftFlag d field opt flag)).inheritHidden =
        opt.inheritHidden ∧
      (nestedOpts opt field (draftFlag d field opt flag)).inheritDeprecated =
        opt.inheritDeprecated) ∧
    (∀ child : StructField, (∀ p ∈ child.Tag.pairs, p.1 ≠ opt.flagTag) →
      ∃ cf, parseFlagTag d child (nestedOpts opt field (draftFlag d field opt flag)) =
          some cf ∧
        cf.Name = flag.Name ++ opt.flagDivider ++ d.camelToFlag child.Name opt.flagDivider) ∧
    (∀ n options, stringsSplit (field.Tag.Get opt.flagTag) ',' = ("~" ++ n) :: options →
      ' ' ∉ n.data → flag.Name = n) ∧
    (∀ sname fields i ro path σ, field.PkgPath = "" →
      addrValue d (.struct sname fields) (decide (field.PkgPath ≠ ""))
        (path ++ [.field i]) = none →
      parseField d field (.struct sname fields) i ro path σ opt =
        parseFields d fields 0 (decide (field.PkgPath ≠ "")) (path ++ [.field i]) σ
          (nestedOpts opt field (draftFlag d field opt flag)) []) ∧
    (∀ name sname fields i ro path σ, field.PkgPath = "" →
      addrValue d (.ptr name (.struct sname fields)) false (path ++ [.field i]) = none →
      d.parseGeneratedPtrs (.ptr name (.struct sname fields)) = false →
      addrValue d (.struct sname fields) false (path ++ [.field i] ++ [.deref]) = none →
      parseField d field (.ptr name (.struct sname fields)) i ro path σ opt =
        parseFields d fields 0 false (path ++ [.field i] ++ [.deref])
          (allocPtr σ (path ++ [.field i]) (.struct sname fields))
          (nestedOpts opt field (draftFlag d field opt flag)) []) := by
  have hn : (nestedOpts opt field (draftFlag d field opt flag)) =
      { opt with
        namePrefix := flag.Name ++ opt.flagDivider
        hidden := if opt.inheritHidden then flag.Hidden else opt.hidden
        deprecated := if opt.inheritDeprecated then flag.Deprecated else opt.deprecated } := by
    rw [nestedOpts_eq]
    simp [hanon, draftFlag]
  refine ⟨by rw [hn], ⟨by rw [hn], by rw [hn], by rw [hn], by rw [hn], by rw [hn],
    by rw [hn], by rw [hn], by rw [hn], by rw [hn]⟩, ?_, ?_, ?_, ?_⟩
  · intro child habs
    obtain ⟨cf, hcf, hname⟩ := (parseFlagTag_resolves_name_aux d child
      (nestedOpts opt field (draftFlag d field opt flag))) (by rw [hn]; exact habs)
    refine ⟨cf, hcf, ?_⟩
    rw [hname, hn]
  · intro n options hs hsp
    have hd : "~" ++ n ≠ "-" := ne_of_mem_data _ _ '~' (tilde_mem n) (by decide)
    have h0 : "~" ++ n ≠ "" := ne_of_mem_data _ _ '~' (tilde_mem n) (by decide)
    have hsp2 : ' ' ∉ ("~" ++ n).data := by
      simp [String.data_append, hsp]
    rw [parseFlagTag_of_split d field opt _ options hs hd] at hf
    injection hf with hf
    rw [← hf]
    simp [h0, parseFlagName_plain _ hsp2, hasPrefix_tilde, dropFirst_tilde]
  · intro sname fields i ro path σ hex ha
    exact parseField_struct d field sname fields i ro path σ opt flag
      (fun h => h.1 hex) hf ha
  · intro name sname fields i ro path σ hex ha hg hs
    exact parseField_ptr_struct d field name sname fields i ro path σ opt flag hex hf ha hg hs

/-- C13 on `nestedCfg` of the tests: `Sub.SUB2.Name4` is `sub-sub2-name4` with the env name
`SUB_SUB2_NAME4`, and `Name3`, tagged `~name3`, drops the prefix. -/
theorem nested_naming_witness :
    (nestedOpts (Prefix "sub-" defOpts) { Name := "SUB2" }
      (draftFlag testPkg { Name := "SUB2" } (Prefix "sub-" defOpts)
        { Name := "sub-sub2" })).namePrefix = "sub-sub2" ++ "-" ∧
    (∃ cf, parseFlagTag testPkg { Name := "Name4" }
        (nestedOpts (Prefix "sub-" defOpts) { Name := "SUB2" }
          (draftFlag testPkg { Name := "SUB2" } (Prefix "sub-" defOpts)
            { Name := "sub-sub2" })) = some cf ∧
      cf.Name = "sub-sub2" ++ "-" ++ camelToFlag "Name4" "-") ∧
    namesOf (ParseStruct testPkg
      (some (.ptr "" (.struct "" nestedCfgFields), nestedCfgValue)) []) =
      ["sub-name", "sub-name2", "name3", "sub-sub2-name4", "sub-sub2-name5"] ∧
    envNamesOf (ParseStruct testPkg
      (some (.ptr "" (.struct "" nestedCfgFields), nestedCfgValue)) []) =
      [["SUB_NAME"], ["SUB_NAME_TWO"], ["NAME_THREE"], ["SUB_SUB2_NAME4"],
        ["SUB_SUB2_name_five"]] :=
  ⟨(nested_naming testPkg { Name := "SUB2" } (Prefix "sub-" defOpts) { Name := "sub-sub2" }
      rfl rfl).1,
    (nested_naming testPkg { Name := "SUB2" } (Prefix "sub-" defOpts) { Name := "sub-sub2" }
      rfl rfl).2.2.1 { Name := "Name4" } (by intro p hp; cases hp),
    rfl, rfl⟩

theorem EmittedAt.of_subset (d : Pkg) (opt : opts)
    (l1 l2 : List (List StructField × StructField)) (g : Flag)
    (hsub : ∀ c ∈ l1, c ∈ l2) (h : EmittedAt d opt l1 g) : EmittedAt d opt l2 g := by
  obtain ⟨c, hm, rest⟩ := h
  exact ⟨c, hsub c hm, rest⟩

theorem EmittedAt.below (d : Pkg) (opt : opts) (field : StructField) (flag : Flag)
    (l : List (List StructField × StructField)) (g : Flag)
    (hf : parseFlagTag d field opt = some flag)
    (h : EmittedAt d (nestedOpts opt field (draftFlag d field opt flag)) l g) :
    EmittedAt d opt (l.map (fun c => (field :: c.1, c.2))) g := by
  obtain ⟨c, hm, opt1, fl, hd, hp, hg⟩ := h
  refine ⟨(field :: c.1, c.2), List.mem_map.mpr ⟨c, hm, rfl⟩, opt1, fl, ?_, hp, hg⟩
  simp only [descend, hf]
  exact hd

mutual
theorem parseVal_chain (d : Pkg) :
    ∀ (typ : GoType) (ro : Bool) (path : List Step) (σ : GoValue) (optFuncs : List OptFunc)
      (nested : List Flag) (val : Option Value) (σ1 : GoValue),
      parseVal d typ ro path σ optFuncs = .ok (nested, val, σ1) →
      ∀ g ∈ nested, EmittedAt d (defOpts.apply optFuncs) typ.chains g
  | .other name kind, ro, path, σ, optFuncs, nested, val, σ1, h, g, hg => by
    rw [parseVal] at h
    cases ha : addrValue d (.other name kind) ro path <;> rw [ha] at h <;>
      simp only at h <;> injection h with h <;> injection h with h1 <;>
      subst h1 <;> cases hg
  | .map name key elem, ro, path, σ, optFuncs, nested, val, σ1, h, g, hg => by
    rw [parseVal] at h
    have hnil : nested = [] := by
      cases ha : addrValue d (.map name key elem) ro path with
      | some v =>
        rw [ha] at h
        simp only at h
        injection h with h
        injection h with h1
        exact h1.symm
      | none =>
        rw [ha] at h
        simp only at h
        split at h
        · injection h with h
          injection h with h1
          exact h1.symm
        · split at h
          · cases h
          · split at h
            · cases h
            · split at h <;> injection h with h <;> injection h with h1 <;> exact h1.symm
    subst hnil
    cases hg
  | .ptr name elem, ro, path, σ, optFuncs, nested, val, σ1, h, g, hg => by
    rw [parseVal] at h
    cases ha : addrValue d (.ptr name elem) ro path with
    | some v =>
      rw [ha] at h
      simp only at h
      injection h with h
      injection h with h1
      subst h1
      cases hg
    | none =>
      rw [ha] at h
      simp only at h
      split at h
      · cases h
      · split at h
        · cases h
        · split at h
          · injection h with h
            injection h with h1
            subst h1
            cases hg
          · exact parseVal_chain d elem ro _ _ optFuncs nested val σ1 h g hg
  | .struct name fields, ro, path, σ, optFuncs, nested, val, σ1, h, g, hg => by
    rw [parseVal] at h
    cases ha : addrValue d (.struct name fields) ro path with
    | some v =>
      rw [ha] at h
      simp only at h
      injection h with h
      injection h with h1
      subst h1
      cases hg
    | none =>
      rw [ha] at h
      simp only at h
      cases hp : parseFields d fields 0 ro path σ (defOpts.apply optFuncs) [] with
      | error p => rw [hp] at h; cases h
      | ok r =>
        obtain ⟨flags, σ2⟩ := r
        rw [hp] at h
        simp only at h
        injection h with h
        injection h with h1
        subst h1
        exact parseFields_chain d fields 0 ro path σ _ flags σ2 hp g hg
theorem parseFields_chain (d : Pkg) :
    ∀ (fields : FieldList) (i : Nat) (ro : Bool) (path : List Step) (σ : GoValue)
      (opt : opts) (flags : List Flag) (σ1 : GoValue),
      parseFields d fields i ro path σ opt [] = .ok (flags, σ1) →
      ∀ g ∈ flags, EmittedAt d opt fields.chains g
  | .nil, i, ro, path, σ, opt, flags, σ1, h, g, hg => by
    rw [parseFields] at h
    injection h with h
    injection h with h1
    subst h1
    cases hg
  | .cons field typ rest, i, ro, path, σ, opt, flags, σ1, h, g, hg => by
    obtain ⟨own, σ2, more, hown, hmore, rfl⟩ := parseFields_cons_ok d _ _ _ _ _ _ _ _ _ _ h
    rw [FieldList.chains]
    rcases List.mem_append.mp hg with hg | hg
    · rcases parseField_cases d _ _ _ _ _ _ _ _ _ hown with
        ⟨rfl, _⟩ | ⟨flag, nested, val, hf, _, rfl⟩ | ⟨flag, hf, hv⟩
      · cases hg
      · rw [List.mem_singleton] at hg
        subst hg
        exact ⟨([], field), by simp, opt, flag, rfl, hf, rfl⟩
      · refine EmittedAt.of_subset d opt (typ.chains.map (fun c => (field :: c.1, c.2))) _ g
          (fun c hc => List.mem_cons_of_mem _ (List.mem_append_left _ hc)) ?_
        exact EmittedAt.below d opt field flag typ.chains g hf
          (parseVal_chain d typ _ _ _ _ own none σ2 hv g hg)
    · refine EmittedAt.of_subset d opt rest.chains _ g
        (fun c hc => List.mem_cons_of_mem _ (List.mem_append_right _ hc)) ?_
      exact parseFields_chain d rest (i + 1) ro path σ2 opt more σ1 hmore g hg
end

theorem apply_exported (optFuncs : List OptFunc) (h : ∀ f ∈ optFuncs, ExportedOpt f) :
    ∀ o : opts, (o.apply optFuncs).hidden = o.hidden ∧
      (o.apply optFuncs).deprecated = o.deprecated := by
  induction optFuncs with
  | nil => intro o; exact ⟨rfl, rfl⟩
  | cons f rest ih =>
    intro o
    have hf := h f (by simp)
    have hr := ih (fun g hg => h g (by simp [hg])) (f o)
    have hfo : (f o).hidden = o.hidden ∧ (f o).deprecated = o.deprecated := by
      cases hf <;> exact ⟨rfl, rfl⟩
    simp only [opts.apply, List.foldl_cons] at hr ⊢
    exact ⟨hr.1.trans hfo.1, hr.2.trans hfo.2⟩

theorem tagHas_of_split (flagTag : String) (field : StructField) (keyword fName : String)
    (options : List String)
    (h : stringsSplit (field.Tag.Get flagTag) ',' = fName :: options) :
    tagHas flagTag field keyword ↔ hasOption options keyword = true := by
  unfold tagHas
  rw [h, hasOption_iff]
  rfl

theorem descend_markers (d : Pkg) : ∀ (anc : List StructField) (opt opt1 : opts),
    descend d opt anc = some opt1 →
    opt1.flagTag = opt.flagTag ∧ opt1.inheritHidden = opt.inheritHidden ∧
    opt1.inheritDeprecated = opt.inheritDeprecated ∧
    (opt1.hidden = true ↔ opt.hidden = true ∨
      (opt.inheritHidden = true ∧ ∃ a ∈ anc, tagHas opt.flagTag a "hidden")) ∧
    (opt1.deprecated = true ↔ opt.deprecated = true ∨
      (opt.inheritDeprecated = true ∧ ∃ a ∈ anc, tagHas opt.flagTag a "deprecated"))
  | [], opt, opt1, h => by
    simp only [descend] at h
    injection h with h
    subst h
    simp
  | a :: rest, opt, opt1, h => by
    simp only [descend] at h
    cases hf : parseFlagTag d a opt with
    | none => rw [hf] at h; cases h
    | some flag =>
      rw [hf] at h
      simp only at h
      obtain ⟨fName, options, hs, _, hh, hdp, _⟩ := parseFlagTag_some d a opt flag hf
      have ih := descend_markers d rest _ opt1 h
      rw [nestedOpts_eq] at ih
      simp only at ih
      obtain ⟨i1, i2, i3, i4, i5⟩ := ih
      have t1 := tagHas_of_split opt.flagTag a "hidden" fName options hs
      have t2 := tagHas_of_split opt.flagTag a "deprecated" fName options hs
      refine ⟨i1, i2, i3, ?_, ?_⟩
      · rw [i4]
        simp only [draftFlag, hh, List.mem_cons, exists_eq_or_imp, t1]
        cases opt.inheritHidden <;> cases opt.hidden <;>
          cases hasOption options "hidden" <;> simp
      · rw [i5]
        simp only [draftFlag, hdp, List.mem_cons, exists_eq_or_imp, t2]
        cases opt.inheritDeprecated <;> cases opt.deprecated <;>
          cases hasOption options "deprecated" <;> simp

theorem parseFields_of_ParseStruct (d : Pkg) (name sname : String) (fields : FieldList)
    (v : GoValue) (optFuncs : List OptFunc) (flags : List Flag) (err : Option String)
    (cfg1 : Interface)
    (h : ParseStruct d (some (.ptr name (.struct sname fields), v)) optFuncs =
      .ok ((some flags, err), cfg1)) :
    ∃ σ, parseFields d fields 0 false [.deref] v (defOpts.apply optFuncs) [] =
        .ok (flags, σ) ∧ err = none ∧ cfg1 = some (.ptr name (.struct sname fields), σ) ∧
      v.IsNil = false := by
  cases hv : v.IsNil with
  | true =>
    simp [ParseStruct, hv] at h
  | false =>
    rw [ParseStruct_of_struct d name sname fields v optFuncs hv,
      ← parseFields_eq_concatFields] at h
    cases hr : parseFields d fields 0 false [.deref] v (defOpts.apply optFuncs) [] with
    | error p => rw [hr] at h; cases h
    | ok r =>
      obtain ⟨fl, σ⟩ := r
      rw [hr] at h
      simp only at h
      injection h with h
      injection h with h1 h4
      injection h1 with h2 h5
      injection h2 with h3
      subst h3
      exact ⟨σ, rfl, h5.symm, h4.symm, rfl⟩

/-- C11: for options built from the exported option functions, every descriptor returned
by `ParseStruct` is the descriptor of a field of the configuration type, and its `Hidden`
is set exactly when the flag tag of that field has the keyword `hidden`, or InheritHidden
is enabled and the flag tag of one of the ancestors of that field has it; the same holds
for `Deprecated`, InheritDeprecated and `deprecated`. Hence without the inheritance switch
the marker is the one of the own tag, and the tags of fields that are not ancestors
(siblings and their descendants) never matter. -/
theorem markers_from_tags (d : Pkg) (name sname : String) (fields : FieldList)
    (v : GoValue) (optFuncs : List OptFunc) (flags : List Flag) (err : Option String)
    (cfg1 : Interface) (hexp : ∀ f ∈ optFuncs, ExportedOpt f)
    (h : ParseStruct d (some (.ptr name (.struct sname fields), v)) optFuncs =
      .ok ((some flags, err), cfg1)) :
    ∀ g ∈ flags, ∃ c ∈ fields.chains,
      (∃ opt1 flag, descend d (defOpts.apply optFuncs) c.1 = some opt1 ∧
        parseFlagTag d c.2 opt1 = some flag ∧ g.Name = flag.Name) ∧
      (g.Hidden = true ↔ tagHas (defOpts.apply optFuncs).flagTag c.2 "hidden" ∨
        ((defOpts.apply optFuncs).inheritHidden = true ∧
          ∃ a ∈ c.1, tagHas (defOpts.apply optFuncs).flagTag a "hidden")) ∧
      (g.Deprecated = true ↔ tagHas (defOpts.apply optFuncs).flagTag c.2 "deprecated" ∨
        ((defOpts.apply optFuncs).inheritDeprecated = true ∧
          ∃ a ∈ c.1, tagHas (defOpts.apply optFuncs).flagTag a "deprecated")) ∧
      ((defOpts.apply optFuncs).inheritHidden = false →
        (g.Hidden = true ↔ tagHas (defOpts.apply optFuncs).flagTag c.2 "hidden")) ∧
      ((defOpts.apply optFuncs).inheritDeprecated = false →
        (g.Deprecated = true ↔
          tagHas (defOpts.apply optFuncs).flagTag c.2 "deprecated")) := by
  intro g hg
  obtain ⟨σ, hp, _, _, _⟩ := parseFields_of_ParseStruct d name sname fields v optFuncs
    flags err cfg1 h
  obtain ⟨c, hc, opt1, flag, hd, hf, hgeq⟩ :=
    parseFields_chain d fields 0 false [.deref] v _ flags σ hp g hg
  obtain ⟨hroot1, hroot2⟩ := apply_exported optFuncs hexp defOpts
  have hroot1 : (defOpts.apply optFuncs).hidden = false := hroot1
  have hroot2 : (defOpts.apply optFuncs).deprecated = false := hroot2
  obtain ⟨m1, _, _, m4, m5⟩ := descend_markers d c.1 _ opt1 hd
  obtain ⟨fName, options, hs, _, hh, hdp, _⟩ := parseFlagTag_some d c.2 opt1 flag hf
  rw [m1] at hs
  have t1 := tagHas_of_split _ c.2 "hidden" fName options hs
  have t2 := tagHas_of_split _ c.2 "deprecated" fName options hs
  have gh : g.Hidden = (hasOption options "hidden" || opt1.hidden) := by
    rw [hgeq]; exact hh
  have gd : g.Deprecated = (hasOption options "deprecated" || opt1.deprecated) := by
    rw [hgeq]; exact hdp
  have e1 : g.Hidden = true ↔ tagHas (defOpts.apply optFuncs).flagTag c.2 "hidden" ∨
      ((defOpts.apply optFuncs).inheritHidden = true ∧
        ∃ a ∈ c.1, tagHas (defOpts.apply optFuncs).flagTag a "hidden") := by
    rw [gh, Bool.or_eq_true, m4, t1, hroot1]
    simp
  have e2 : g.Deprecated = true ↔
      tagHas (defOpts.apply optFuncs).flagTag c.2 "deprecated" ∨
      ((defOpts.apply optFuncs).inheritDeprecated = true ∧
        ∃ a ∈ c.1, tagHas (defOpts.apply optFuncs).flagTag a "deprecated") := by
    rw [gd, Bool.or_eq_true, m5, t2, hroot2]
    simp
  refine ⟨c, hc, ⟨opt1, flag, hd, hf, by rw [hgeq]; rfl⟩, e1, e2, ?_, ?_⟩
  · intro hoff
    rw [e1, hoff]
    simp
  · intro hoff
    rw [e2, hoff]
    simp

/-- C11 on `hiddenNestedCfg` of the tests with InheritHidden: the third descriptor,
`sub3-name`, whose field and ancestor `Sub3` are not tagged, is not hidden although the
sibling `Sub` is. -/
theorem markers_from_tags_witness :
    ∃ g : Flag, g.Name = "sub3-name" ∧ g.Hidden = false ∧
      ∃ c ∈ (markedCfgFields "hidden").chains,
        (∃ opt1 flag, descend testPkg (defOpts.apply [InheritHidden]) c.1 = some opt1 ∧
          parseFlagTag testPkg c.2 opt1 = some flag ∧ g.Name = flag.Name) ∧
        (g.Hidden = true ↔ tagHas (defOpts.apply [InheritHidden]).flagTag c.2 "hidden" ∨
          ((defOpts.apply [InheritHidden]).inheritHidden = true ∧
            ∃ a ∈ c.1, tagHas (defOpts.apply [InheritHidden]).flagTag a "hidden")) ∧
        (g.Deprecated = true ↔
          tagHas (defOpts.apply [InheritHidden]).flagTag c.2 "deprecated" ∨
          ((defOpts.apply [InheritHidden]).inheritDeprecated = true ∧
            ∃ a ∈ c.1, tagHas (defOpts.apply [InheritHidden]).flagTag a "deprecated")) ∧
        ((defOpts.apply [InheritHidden]).inheritHidden = false →
          (g.Hidden = true ↔ tagHas (defOpts.apply [InheritHidden]).flagTag c.2 "hidden")) ∧
        ((defOpts.apply [InheritHidden]).inheritDeprecated = false →
          (g.Deprecated = true ↔
            tagHas (defOpts.apply [InheritHidden]).flagTag c.2 "deprecated")) := by
  have h := markers_from_tags testPkg "" "" (markedCfgFields "hidden")
    (.ptrTo (zeroValue (.struct "" (markedCfgFields "hidden")))) [InheritHidden] _ _ _
    (by
      intro f hf
      rw [List.mem_singleton] at hf
      subst hf
      exact ExportedOpt.ofInheritHidden)
    rfl
  have h3 := h _ (List.mem_cons_of_mem _ (List.mem_cons_of_mem _ (List.mem_cons_self _ _)))
  exact ⟨_, rfl, rfl, h3⟩

/-- C15, counterexample: with a validator that accepts the root struct of `nestedCfg` only,
`Set` on the first descriptor, `sub-name`, returns the error of the validator: the
validator was handed the nested struct `Sub`, not the root configuration. -/
theorem validator_gets_nested_struct :
    setErrorOf testSet (ParseStruct testPkg
      (some (.ptr "" (.struct "" nestedCfgFields), nestedCfgValue)) [Validator rootOnly])
      0 "x" = .ok (some "not the root struct") := by
  rfl

/-- C15, amended: when a validator is configured, the descriptor of a terminal field, at
every nesting depth, carries the wrapper built from the handle, the validator, the field
itself and the struct being walked at that level; when that struct was not obtained through
an unexported field, `Set(s)` on the wrapper hands the validator the text s, the field and
the present value of that struct, the one that directly contains the field, returns the
error of the validator if there is one and calls the wrapped `Set` otherwise. -/
theorem validator_arguments (d : Pkg) (field : StructField) (typ : GoType) (i : Nat)
    (ro : Bool) (path : List Step) (σ : GoValue) (opt : opts) (flag : Flag)
    (nested : List Flag) (val : Value) (σ1 : GoValue) (vf : ValidateFunc)
    (he : ¬ (field.PkgPath ≠ "" ∧ field.Anonymous = false))
    (hf : parseFlagTag d field opt = some flag)
    (hv : parseVal d typ (decide (field.PkgPath ≠ "")) (path ++ [.field i]) σ
      (nestedOptFuncs opt field (draftFlag d field opt flag)) = .ok (nested, some val, σ1))
    (hvf : opt.validator = some vf) :
    ∃ g, parseField d field typ i ro path σ opt = .ok ([g], σ1) ∧ g.Name = flag.Name ∧
      g.Value = some (.validateValue val vf field ro path) ∧
      (ro = false → ∀ (set : SetFunc) (s : String) (τ : GoValue),
        (Value.validateValue val vf field ro path).Set set s τ =
          match vf s field (τ.get path) with
          | some e => .ok (some e, τ)
          | none => val.Set set s τ) := by
  refine ⟨{ draftFlag d field opt flag with
      Value := some (wrapValue opt field ro path val)
      DefValue := (wrapValue opt field ro path val).String d σ1 }, ?_, ?_, ?_, ?_⟩
  · unfold parseField
    rw [if_neg he, hf]
    simp only [hv]
  · rfl
  · simp [wrapValue, hvf]
  · intro hro set s τ
    subst hro
    simp [Value.Set]

/-- C15 as amended, on the field `Name` of `simple` with the always failing validator of
the tests: the validator is handed the struct behind the configuration pointer. -/
theorem validator_arguments_witness :
    ∃ g, parseField testPkg { Name := "Name" } stringType 0 false [.deref]
        (.ptrTo (.struct [.zero])) (Validator alwaysFails defOpts) =
        .ok ([g], .ptrTo (.struct [.zero])) ∧ g.Name = "name" ∧
      g.Value = some (.validateValue (.bound .generated stringType [.deref, .field 0])
        alwaysFails { Name := "Name" } false [.deref]) ∧
      (false = false → ∀ (set : SetFunc) (s : String) (τ : GoValue),
        (Value.validateValue (.bound .generated stringType [.deref, .field 0])
          alwaysFails { Name := "Name" } false [.deref]).Set set s τ =
          match alwaysFails s { Name := "Name" } (τ.get [.deref]) with
          | some e => .ok (some e, τ)
          | none => (Value.bound .generated stringType [.deref, .field 0]).Set set s τ) :=
  validator_arguments testPkg { Name := "Name" } stringType 0 false [.deref]
    (.ptrTo (.struct [.zero])) (Validator alwaysFails defOpts) { Name := "name" } []
    (.bound .generated stringType [.deref, .field 0]) (.ptrTo (.struct [.zero])) alwaysFails
    (by decide) rfl rfl rfl

/-- C16: on `anonymousCfg` of the tests with the always failing validator, `Set` on the
first descriptor, `name1`, returns the error of the validator, and `Set` on the second,
`name`, whose field lies in the embedded unexported struct `simple`, panics. -/
theorem validator_panics_in_embedded_struct :
    setErrorOf testSet (ParseStruct testPkg
      (some (.ptr "" (.struct "" anonymousCfgFields), anonymousCfgValue))
      [Validator alwaysFails]) 0 "x" = .ok (some "validator test error") ∧
    setErrorOf testSet (ParseStruct testPkg
      (some (.ptr "" (.struct "" anonymousCfgFields), anonymousCfgValue))
      [Validator alwaysFails]) 1 "x" = .error .interfaceUnexported := by
  exact ⟨rfl, rfl⟩

/-! ## Reading and writing the configuration through paths -/

theorem GoValue.zero_get (p : List Step) : GoValue.zero.get p = .zero := by
  cases p <;> simp [GoValue.get]

theorem GoValue.get_append : ∀ (p q : List Step) (σ : GoValue),
    σ.get (p ++ q) = (σ.get p).get q
  | [], q, σ => by simp [GoValue.get]
  | s :: p, q, σ => by
    cases σ <;> cases s <;>
      simp [GoValue.get, GoValue.zero_get, GoValue.get_append p q]

theorem set_getD_self (l : List GoValue) (i : Nat) :
    l.set i (l[i]?.getD .zero) = l := by
  by_cases h : i < l.length
  · apply List.ext_getElem?
    intro j
    by_cases hj : i = j
    · subst hj
      simp [h]
    · simp [List.getElem?_set_ne hj]
  · exact List.set_eq_of_length_le (Nat.le_of_not_lt h)

theorem GoValue.set_get_self : ∀ (p : List Step) (σ : GoValue), σ.set p (σ.get p) = σ
  | [], σ => by simp [GoValue.get, GoValue.set]
  | s :: p, σ => by
    cases σ <;> cases s <;>
      simp [GoValue.get, GoValue.set, GoValue.set_get_self p, set_getD_self]

theorem GoValue.set_set : ∀ (p : List Step) (σ x y : GoValue),
    (σ.set p x).set p y = σ.set p y
  | [], σ, x, y => by simp [GoValue.set]
  | s :: p, σ, x, y => by
    cases σ with
    | struct fs =>
      cases s with
      | field i =>
        simp only [GoValue.set]
        by_cases h : i < fs.length
        · simp [List.getD_eq_getElem?_getD, h, List.set_set, GoValue.set_set p]
        · simp [List.set_eq_of_length_le (Nat.le_of_not_lt h)]
      | deref => simp [GoValue.set]
    | ptrTo t => cases s <;> simp [GoValue.set, GoValue.set_set p]
    | zero => cases s <;> simp [GoValue.set]
    | data t => cases s <;> simp [GoValue.set]
    | nilPtr => cases s <;> simp [GoValue.set]
    | nilMap => cases s <;> simp [GoValue.set]
    | mapOf e => cases s <;> simp [GoValue.set]

theorem GoValue.set_append : ∀ (p q : List Step) (σ x : GoValue),
    σ.set (p ++ q) x = σ.set p ((σ.get p).set q x)
  | [], q, σ, x => by simp [GoValue.get, GoValue.set]
  | s :: p, q, σ, x => by
    cases σ <;> cases s <;>
      simp [GoValue.get, GoValue.set, GoValue.set_append p q]

theorem GoValue.get_set_same : ∀ (p : List Step) (σ x : GoValue),
    σ.get p ≠ .zero → (σ.set p x).get p = x
  | [], σ, x, _ => by simp [GoValue.get, GoValue.set]
  | s :: p, σ, x, h => by
    cases σ with
    | struct fs =>
      cases s with
      | field i =>
        simp only [GoValue.get] at h
        by_cases hi : i < fs.length
        · simp only [GoValue.set, GoValue.get]
          simp only [List.getD_eq_getElem?_getD, List.getElem?_set_self hi, Option.getD_some]
          rw [← List.getD_eq_getElem?_getD]
          exact GoValue.get_set_same p _ x h
        · exfalso
          apply h
          simp [List.getD_eq_getElem?_getD, List.getElem?_eq_none (Nat.le_of_not_lt hi),
            GoValue.zero_get]
      | deref => simp [GoValue.get] at h
    | ptrTo t =>
      cases s with
      | field i => simp [GoValue.get] at h
      | deref =>
        simp only [GoValue.get] at h
        simp only [GoValue.set, GoValue.get]
        exact GoValue.get_set_same p t x h
    | zero => cases s <;> simp [GoValue.get] at h
    | data t => cases s <;> simp [GoValue.get] at h
    | nilPtr => cases s <;> simp [GoValue.get] at h
    | nilMap => cases s <;> simp [GoValue.get] at h
    | mapOf e => cases s <;> simp [GoValue.get] at h

theorem GoValue.get_set_of_isNil (p : List Step) (σ x : GoValue)
    (h : (σ.get p).IsNil = true) : (σ.set p x).get p = x := by
  apply GoValue.get_set_same
  intro e
  rw [e] at h
  cases h

theorem GoValue.get_set_field_ne : ∀ (p : List Step) (σ v : GoValue) (i k : Nat)
    (r1 r : List Step), i ≠ k →
    (σ.set (p ++ .field k :: r1) v).get (p ++ .field i :: r) = σ.get (p ++ .field i :: r)
  | [], σ, v, i, k, r1, r, h => by
    cases σ with
    | struct fs =>
      simp only [List.nil_append, GoValue.set, GoValue.get]
      simp [List.getD_eq_getElem?_getD, List.getElem?_set_ne (Ne.symm h)]
    | ptrTo t => simp [GoValue.get, GoValue.set]
    | zero => simp [GoValue.get, GoValue.set]
    | data t => simp [GoValue.get, GoValue.set]
    | nilPtr => simp [GoValue.get, GoValue.set]
    | nilMap => simp [GoValue.get, GoValue.set]
    | mapOf e => simp [GoValue.get, GoValue.set]
  | s :: p, σ, v, i, k, r1, r, h => by
    cases σ with
    | struct fs =>
      cases s with
      | field j =>
        simp only [List.cons_append, GoValue.set, GoValue.get]
        by_cases hj : j < fs.length
        · simp only [List.getD_eq_getElem?_getD, List.getElem?_set_self hj, Option.getD_some]
          rw [← List.getD_eq_getElem?_getD]
          exact GoValue.get_set_field_ne p _ v i k r1 r h
        · rw [List.set_eq_of_length_le (Nat.le_of_not_lt hj)]
      | deref => simp [GoValue.get, GoValue.set]
    | ptrTo t =>
      cases s with
      | field j => simp [GoValue.get, GoValue.set]
      | deref =>
        simp only [List.cons_append, GoValue.set, GoValue.get]
        exact GoValue.get_set_field_ne p t v i k r1 r h
    | zero => cases s <;> simp [GoValue.get, GoValue.set]
    | data t => cases s <;> simp [GoValue.get, GoValue.set]
    | nilPtr => cases s <;> simp [GoValue.get, GoValue.set]
    | nilMap => cases s <;> simp [GoValue.get, GoValue.set]
    | mapOf e => cases s <;> simp [GoValue.get, GoValue.set]

theorem GoValue.isNil_set_below (σ v : GoValue) (s : Step) (r : List Step) :
    (σ.set (s :: r) v).IsNil = σ.IsNil := by
  cases σ <;> cases s <;> simp [GoValue.set, GoValue.IsNil]

theorem GoValue.isNil_get_set_below (p : List Step) (σ v : GoValue) (s : Step)
    (r : List Step) : ((σ.set (p ++ s :: r) v).get p).IsNil = (σ.get p).IsNil := by
  rw [GoValue.set_append]
  by_cases h : σ.get p = .zero
  · have hz : (σ.get p).set (s :: r) v = σ.get p := by
      rw [h]; cases s <;> simp [GoValue.set]
    rw [hz, GoValue.set_get_self]
  · rw [GoValue.get_set_same p σ _ h, GoValue.isNil_set_below]

/-! ## What a walk changes, and where its handles are bound -/

theorem Value.String_congr (d : Pkg) (σ τ : GoValue) : ∀ (h : Value),
    σ.get h.path = τ.get h.path → h.String d σ = h.String d τ
  | .bound source typ path, e => by
    simp only [Value.path] at e
    simp [Value.String, e]
  | .validateValue inner _ _ _ _, e => by
    simp only [Value.path] at e
    simp only [Value.String]
    exact Value.String_congr d σ τ inner e

theorem wrapValue_path (opt : opts) (field : StructField) (ro : Bool) (path : List Step)
    (val : Value) : (wrapValue opt field ro path val).path = val.path := by
  unfold wrapValue
  cases opt.validator <;> rfl

theorem Flag.RenderedBelow.weaken (d : Pkg) (σ : GoValue) (b1 b2 : List Step) (g : Flag)
    (hb : b1 <+: b2) (h : g.RenderedBelow d σ b2) : g.RenderedBelow d σ b1 := by
  obtain ⟨v, hv, hp, hd⟩ := h
  exact ⟨v, hv, hb.trans hp, hd⟩

theorem Flag.RenderedBelow.stable (d : Pkg) (σ τ : GoValue) (base : List Step) (g : Flag)
    (hframe : ∀ r, τ.get (base ++ r) = σ.get (base ++ r))
    (h : g.RenderedBelow d σ base) : g.RenderedBelow d τ base := by
  obtain ⟨v, hv, hp, hd⟩ := h
  refine ⟨v, hv, hp, ?_⟩
  rw [hd]
  apply Value.String_congr
  obtain ⟨r, hr⟩ := hp
  rw [← hr]
  exact (hframe r).symm

theorem addrValue_path (d : Pkg) (typ : GoType) (ro : Bool) (path : List Step) (v : Value)
    (h : addrValue d typ ro path = some v) : v.path = path := by
  unfold addrValue at h
  split at h
  · cases h
  · split at h
    · injection h with h
      subst h
      rfl
    · split at h
      · injection h with h
        subst h
        rfl
      · cases h

mutual
theorem parseVal_facts (d : Pkg) :
    ∀ (typ : GoType) (ro : Bool) (path : List Step) (σ : GoValue) (optFuncs : List OptFunc)
      (nested : List Flag) (val : Option Value) (σ1 : GoValue),
      parseVal d typ ro path σ optFuncs = .ok (nested, val, σ1) →
      (∃ v, σ1 = σ.set path v) ∧ (∀ h, val = some h → path <+: h.path) ∧
      (∀ g ∈ nested, g.RenderedBelow d σ1 path)
  | .other name kind, ro, path, σ, optFuncs, nested, val, σ1, h => by
    rw [parseVal] at h
    cases ha : addrValue d (.other name kind) ro path with
    | some v =>
      rw [ha] at h
      simp only at h
      injection h with h
      injection h with h1 h2
      injection h2 with h3 h4
      subst h1 h3 h4
      refine ⟨⟨σ.get path, (GoValue.set_get_self path σ).symm⟩, ?_, ?_⟩
      · intro hh e
        injection e with e
        subst e
        rw [addrValue_path d _ _ _ _ ha]
      · intro g hg
        cases hg
    | none =>
      rw [ha] at h
      simp only at h
      injection h with h
      injection h with h1 h2
      injection h2 with h3 h4
      subst h1 h3 h4
      refine ⟨⟨σ.get path, (GoValue.set_get_self path σ).symm⟩, ?_, ?_⟩
      · intro hh e
        cases e
      · intro g hg
        cases hg
  | .map name key elem, ro, path, σ, optFuncs, nested, val, σ1, h => by
    rw [parseVal] at h
    cases ha : addrValue d (.map name key elem) ro path with
    | some v =>
      rw [ha] at h
      simp only at h
      injection h with h
      injection h with h1 h2
      injection h2 with h3 h4
      subst h1 h3 h4
      refine ⟨⟨σ.get path, (GoValue.set_get_self path σ).symm⟩, ?_, ?_⟩
      · intro hh e
        injection e with e
        subst e
        rw [addrValue_path d _ _ _ _ ha]
      · intro g hg
        cases hg
    | none =>
      rw [ha] at h
      simp only at h
      have hloc : ∃ v, (if (σ.get path).IsNil = true then σ.set path (.mapOf []) else σ) =
          σ.set path v := by
        split
        · exact ⟨_, rfl⟩
        · exact ⟨σ.get path, (GoValue.set_get_self path σ).symm⟩
      split at h
      · injection h with h
        injection h with h1 h2
        injection h2 with h3 h4
        subst h1 h3 h4
        refine ⟨⟨σ.get path, (GoValue.set_get_self path σ).symm⟩, ?_, ?_⟩
        · intro hh e
          cases e
        · intro g hg
          cases hg
      · split at h
        · cases h
        · split at h
          · cases h
          · split at h
            · injection h with h
              injection h with h1 h2
              injection h2 with h3 h4
              subst h1 h3 h4
              refine ⟨hloc, ?_, ?_⟩
              · intro hh e
                injection e with e
                subst e
                exact List.prefix_refl _
              · intro g hg
                cases hg
            · injection h with h
              injection h with h1 h2
              injection h2 with h3 h4
              subst h1 h3 h4
              refine ⟨hloc, ?_, ?_⟩
              · intro hh e
                cases e
              · intro g hg
                cases hg
  | .ptr name elem, ro, path, σ, optFuncs, nested, val, σ1, h => by
    rw [parseVal] at h
    cases ha : addrValue d (.ptr name elem) ro path with
    | some v =>
      rw [ha] at h
      simp only at h
      injection h with h
      injection h with h1 h2
      injection h2 with h3 h4
      subst h1 h3 h4
      refine ⟨⟨σ.get path, (GoValue.set_get_self path σ).symm⟩, ?_, ?_⟩
      · intro hh e
        injection e with e
        subst e
        rw [addrValue_path d _ _ _ _ ha]
      · intro g hg
        cases hg
    | none =>
      rw [ha] at h
      simp only at h
      have hloc : ∃ v, (if (σ.get path).IsNil = true then
          σ.set path (.ptrTo (zeroValue elem)) else σ) = σ.set path v := by
        split
        · exact ⟨_, rfl⟩
        · exact ⟨σ.get path, (GoValue.set_get_self path σ).symm⟩
      split at h
      · cases h
      · split at h
        · cases h
        · split at h
          · injection h with h
            injection h with h1 h2
            injection h2 with h3 h4
            subst h1 h3 h4
            refine ⟨hloc, ?_, ?_⟩
            · intro hh e
              injection e with e
              subst e
              exact List.prefix_refl _
            · intro g hg
              cases hg
          · obtain ⟨⟨w, hw⟩, hval, hfl⟩ :=
              parseVal_facts d elem ro _ _ optFuncs nested val σ1 h
            obtain ⟨a, ha2⟩ := hloc
            refine ⟨?_, ?_, ?_⟩
            · rw [hw, ha2, GoValue.set_append, GoValue.set_set]
              exact ⟨_, rfl⟩
            · intro hh e
              exact (List.prefix_append path [.deref]).trans (hval hh e)
            · intro g hg
              exact (hfl g hg).weaken d σ1 _ _ g (List.prefix_append path [.deref])
  | .struct name fields, ro, path, σ, optFuncs, nested, val, σ1, h => by
    rw [parseVal] at h
    cases ha : addrValue d (.struct name fields) ro path with
    | some v =>
      rw [ha] at h
      simp only at h
      injection h with h
      injection h with h1 h2
      injection h2 with h3 h4
      subst h1 h3 h4
      refine ⟨⟨σ.get path, (GoValue.set_get_self path σ).symm⟩, ?_, ?_⟩
      · intro hh e
        injection e with e
        subst e
        rw [addrValue_path d _ _ _ _ ha]
      · intro g hg
        cases hg
    | none =>
      rw [ha] at h
      simp only at h
      cases hp : parseFields d fields 0 ro path σ (defOpts.apply optFuncs) [] with
      | error p => rw [hp] at h; cases h
      | ok r =>
        obtain ⟨flags, σ2⟩ := r
        rw [hp] at h
        simp only at h
        injection h with h
        injection h with h1 h2
        injection h2 with h3 h4
        subst h1 h3 h4
        obtain ⟨hloc, _, hfl⟩ := parseFields_facts d fields 0 ro path σ _ flags σ2 hp
        refine ⟨hloc, ?_, ?_⟩
        · intro hh e
          cases e
        · intro g hg
          obtain ⟨k, _, hk⟩ := hfl g hg
          exact hk.weaken d σ2 _ _ g (List.prefix_append path [.field k])
theorem parseFields_facts (d : Pkg) :
    ∀ (fields : FieldList) (i : Nat) (ro : Bool) (path : List Step) (σ : GoValue)
      (opt : opts) (flags : List Flag) (σ1 : GoValue),
      parseFields d fields i ro path σ opt [] = .ok (flags, σ1) →
      (∃ v, σ1 = σ.set path v) ∧
      (∀ k, k < i → ∀ r, σ1.get (path ++ .field k :: r) = σ.get (path ++ .field k :: r)) ∧
      (∀ g ∈ flags, ∃ k, i ≤ k ∧ g.RenderedBelow d σ1 (path ++ [.field k]))
  | .nil, i, ro, path, σ, opt, flags, σ1, h => by
    rw [parseFields] at h
    injection h with h
    injection h with h1 h2
    subst h1 h2
    refine ⟨⟨σ.get path, (GoValue.set_get_self path σ).symm⟩, fun _ _ _ => rfl, ?_⟩
    intro g hg
    cases hg
  | .cons field typ rest, i, ro, path, σ, opt, flags, σ1, h => by
    obtain ⟨own, σ2, more, hown, hmore, rfl⟩ := parseFields_cons_ok d _ _ _ _ _ _ _ _ _ _ h
    obtain ⟨⟨w, hw⟩, hframe, hfl⟩ :=
      parseFields_facts d rest (i + 1) ro path σ2 opt more σ1 hmore
    have hstep : (∃ v, σ2 = σ.set (path ++ [.field i]) v) ∧
        ∀ g ∈ own, g.RenderedBelow d σ2 (path ++ [.field i]) := by
      rcases parseField_cases d _ _ _ _ _ _ _ _ _ hown with
        ⟨ho, hs⟩ | ⟨flag, nested, val, hf, hv, rfl⟩ | ⟨flag, hf, hv⟩
      · rw [ho, hs]
        exact ⟨⟨_, (GoValue.set_get_self _ σ).symm⟩, fun g hg => by cases hg⟩
      · obtain ⟨hl, hval, _⟩ := parseVal_facts d typ _ _ _ _ nested (some val) σ2 hv
        refine ⟨hl, ?_⟩
        intro g hg
        rw [List.mem_singleton] at hg
        subst hg
        refine ⟨_, rfl, ?_, rfl⟩
        rw [wrapValue_path]
        exact hval val rfl
      · obtain ⟨hl, _, hn⟩ := parseVal_facts d typ _ _ _ _ own none σ2 hv
        exact ⟨hl, hn⟩
    obtain ⟨⟨v2, hv2⟩, hownr⟩ := hstep
    have hfi : ∀ r, σ1.get (path ++ [.field i] ++ r) = σ2.get (path ++ [.field i] ++ r) := by
      intro r
      have := hframe i (Nat.lt_succ_self i) r
      simpa using this
    refine ⟨?_, ?_, ?_⟩
    · rw [hw, hv2, GoValue.set_append, GoValue.set_set]
      exact ⟨_, rfl⟩
    · intro k hk r
      rw [hframe k (Nat.lt_succ_of_lt hk) r, hv2]
      have := GoValue.get_set_field_ne path σ v2 k i [] r (Nat.ne_of_lt hk)
      exact this
    · intro g hg
      rcases List.mem_append.mp hg with hg | hg
      · exact ⟨i, Nat.le_refl i, (hownr g hg).stable d σ2 σ1 _ g hfi⟩
      · obtain ⟨k, hk, hr⟩ := hfl g hg
        exact ⟨k, Nat.le_of_succ_le hk, hr⟩
end

/-! ## Typed configurations -/

theorem set_at_length (pre : List GoValue) (v x : GoValue) (suf : List GoValue) :
    (pre ++ v :: suf).set pre.length x = pre ++ x :: suf := by
  induction pre with
  | nil => rfl
  | cons a pre ih => simp [ih]

theorem getD_at_length (pre : List GoValue) (v : GoValue) (suf : List GoValue) :
    (pre ++ v :: suf).getD pre.length .zero = v := by
  induction pre with
  | nil => rfl
  | cons a pre ih => simpa using ih

theorem GoValue.resolves_append : ∀ (p q : List Step) (σ : GoValue),
    σ.resolves (p ++ q) = (σ.resolves p && (σ.get p).resolves q)
  | [], q, σ => by simp [GoValue.resolves, GoValue.get]
  | s :: p, q, σ => by
    cases σ <;> cases s <;>
      simp [GoValue.resolves, GoValue.get, GoValue.resolves_append p q, Bool.and_assoc]

theorem GoValue.get_set_resolves : ∀ (p : List Step) (σ x : GoValue),
    σ.resolves p = true → (σ.set p x).get p = x
  | [], σ, x, _ => by simp [GoValue.get, GoValue.set]
  | s :: p, σ, x, h => by
    cases σ <;> cases s <;> simp [GoValue.resolves] at h
    · simp only [GoValue.get, GoValue.set]
      exact GoValue.get_set_resolves p _ x h
    · rename_i fields i
      simp only [GoValue.get, GoValue.set]
      rw [List.getD_eq_getElem?_getD, List.getElem?_set_self (by simpa using h.1)]
      simp only [Option.getD_some]
      exact GoValue.get_set_resolves p _ x (by rw [List.getD_eq_getElem?_getD]; exact h.2)

theorem GoValue.resolves_set : ∀ (p q : List Step) (σ x : GoValue),
    σ.resolves p = true → (σ.set p x).resolves (p ++ q) = x.resolves q
  | [], q, σ, x, _ => by simp [GoValue.set]
  | s :: p, q, σ, x, h => by
    cases σ <;> cases s <;> simp [GoValue.resolves] at h
    · simp only [GoValue.set, List.cons_append, GoValue.resolves]
      exact GoValue.resolves_set p q _ x h
    · rename_i fields i
      simp only [GoValue.set, List.cons_append, GoValue.resolves]
      rw [List.getD_eq_getElem?_getD (fields.set _ _), List.getElem?_set_self (by simpa using h.1)]
      simp only [Option.getD_some, List.length_set]
      have h2 : (fields.getD i .zero).resolves p = true := by
        rw [List.getD_eq_getElem?_getD]; exact h.2
      have h3 := GoValue.resolves_set p q (fields.getD i .zero) x h2
      show (decide (i < fields.length) &&
        ((fields.getD i .zero).set p x).resolves (p ++ q)) = x.resolves q
      rw [h3]
      simp [h.1]

theorem GoValue.resolves_set_self (p : List Step) (σ x : GoValue)
    (h : σ.resolves p = true) : (σ.set p x).resolves p = true := by
  have := GoValue.resolves_set p [] σ x h
  simpa [GoValue.resolves] using this

mutual
theorem zeroValue_holds : ∀ (typ : GoType), typ.holds (zeroValue typ) = true
  | .other _ _ => by simp [zeroValue, GoType.holds]
  | .ptr _ _ => by simp [zeroValue, GoType.holds]
  | .map _ _ _ => by simp [zeroValue, GoType.holds]
  | .struct _ fields => by
    simp only [zeroValue, GoType.holds]
    exact zeroFields_hold fields
theorem zeroFields_hold : ∀ (fields : FieldList), fields.hold (zeroFields fields) = true
  | .nil => by simp [zeroFields, FieldList.hold]
  | .cons _ typ rest => by
    simp only [zeroFields, FieldList.hold, Bool.and_eq_true]
    exact ⟨zeroValue_holds typ, zeroFields_hold rest⟩
end

theorem parseField_facts (d : Pkg) (field : StructField) (typ : GoType) (i : Nat)
    (ro : Bool) (path : List Step) (σ : GoValue) (opt : opts) (own : List Flag)
    (σ2 : GoValue) (h : parseField d field typ i ro path σ opt = .ok (own, σ2)) :
    (∃ v, σ2 = σ.set (path ++ [.field i]) v) ∧
      ∀ g ∈ own, g.RenderedBelow d σ2 (path ++ [.field i]) := by
  rcases parseField_cases d _ _ _ _ _ _ _ _ _ h with
    ⟨ho, hs⟩ | ⟨flag, nested, val, hf, hv, rfl⟩ | ⟨flag, hf, hv⟩
  · rw [ho, hs]
    exact ⟨⟨_, (GoValue.set_get_self _ σ).symm⟩, fun g hg => by cases hg⟩
  · obtain ⟨hl, hval, _⟩ := parseVal_facts d typ _ _ _ _ nested (some val) σ2 hv
    refine ⟨hl, ?_⟩
    intro g hg
    rw [List.mem_singleton] at hg
    subst hg
    refine ⟨_, rfl, ?_, rfl⟩
    rw [wrapValue_path]
    exact hval val rfl
  · obtain ⟨hl, _, hn⟩ := parseVal_facts d typ _ _ _ _ own none σ2 hv
    exact ⟨hl, hn⟩

theorem parseVal_addr (d : Pkg) (typ : GoType) (ro : Bool) (path : List Step) (σ : GoValue)
    (optFuncs : List OptFunc) (v : Value) (ha : addrValue d typ ro path = some v) :
    parseVal d typ ro path σ optFuncs = .ok ([], some v, σ) := by
  cases typ <;> rw [parseVal, ha]

theorem struct_resolves_at (pre : List GoValue) (x : GoValue) (suf : List GoValue)
    (r : List Step) :
    (GoValue.struct (pre ++ x :: suf)).resolves (.field pre.length :: r) = x.resolves r := by
  simp only [GoValue.resolves, getD_at_length]
  simp

theorem struct_get_at (pre : List GoValue) (x : GoValue) (suf : List GoValue) :
    (GoValue.struct (pre ++ x :: suf)).get [.field pre.length] = x := by
  simp only [GoValue.get, getD_at_length]

theorem struct_set_at (pre : List GoValue) (v x : GoValue) (suf : List GoValue) :
    (GoValue.struct (pre ++ v :: suf)).set [.field pre.length] x =
      .struct (pre ++ x :: suf) := by
  simp only [GoValue.set, set_at_length]

theorem ptr_content (name : String) (elem : GoType) (c : GoValue)
    (ht : (GoType.ptr name elem).holds c = true) (hn : c.IsNil = false) :
    ∃ t, c = .ptrTo t ∧ elem.holds t = true := by
  cases c <;> simp [GoType.holds, GoValue.IsNil] at ht hn
  exact ⟨_, rfl, ht⟩

theorem struct_content (name : String) (fields : FieldList) (c : GoValue)
    (ht : (GoType.struct name fields).holds c = true) :
    ∃ vs, c = .struct vs ∧ fields.hold vs = true := by
  cases c <;> simp [GoType.holds] at ht
  exact ⟨_, rfl, ht⟩

/-- The state after the allocation of `parseVal` on a pointer. -/
theorem allocPtr_facts (name : String) (elem : GoType) (path : List Step) (σ : GoValue)
    (hr : σ.resolves path = true) (ht : (GoType.ptr name elem).holds (σ.get path) = true) :
    (allocPtr σ path elem).resolves path = true ∧
      ∃ t, (allocPtr σ path elem).get path = .ptrTo t ∧ elem.holds t = true := by
  unfold allocPtr
  cases hn : (σ.get path).IsNil
  · simp only [Bool.false_eq_true, if_false]
    exact ⟨hr, ptr_content name elem _ ht hn⟩
  · simp only [if_true]
    refine ⟨GoValue.resolves_set_self path σ _ hr, _, ?_, zeroValue_holds elem⟩
    exact GoValue.get_set_resolves path σ _ hr

theorem ptr_of_resolves_deref (c : GoValue) (h : c.resolves [.deref] = true) :
    c = .ptrTo (c.get [.deref]) := by
  cases c <;> simp [GoValue.resolves] at h
  simp [GoValue.get]

theorem parseVal_ptr_none (d : Pkg) (name : String) (elem : GoType) (path : List Step)
    (σ : GoValue) (optFuncs : List OptFunc) (ro : Bool)
    (ha : addrValue d (.ptr name elem) ro path = none)
    (r : List Flag × Option Value × GoValue)
    (h : parseVal d (.ptr name elem) ro path σ optFuncs = .ok r) :
    ro = false ∧
    ((d.parseGeneratedPtrs (.ptr name elem) = true ∧
        r = ([], some (.bound .generatedPtrs (.ptr name elem) path), allocPtr σ path elem)) ∨
      (d.parseGeneratedPtrs (.ptr name elem) = false ∧
        parseVal d elem false (path ++ [.deref]) (allocPtr σ path elem) optFuncs = .ok r)) := by
  rw [parseVal, ha] at h
  simp only at h
  cases ro with
  | true =>
    cases hn : (σ.get path).IsNil <;> simp [hn] at h
  | false =>
    simp only [Bool.and_false, Bool.false_eq_true, if_false] at h
    refine ⟨rfl, ?_⟩
    by_cases hg : d.parseGeneratedPtrs (.ptr name elem) = true
    · rw [if_pos hg] at h
      injection h with h
      exact Or.inl ⟨hg, h.symm⟩
    · rw [if_neg hg] at h
      exact Or.inr ⟨by simpa using hg, h⟩

theorem parseVal_map_none (d : Pkg) (name : String) (key elem : GoType) (path : List Step)
    (σ : GoValue) (optFuncs : List OptFunc) (ro : Bool)
    (ha : addrValue d (.map name key elem) ro path = none)
    (r : List Flag × Option Value × GoValue)
    (h : parseVal d (.map name key elem) ro path σ optFuncs = .ok r) :
    (anyOf d.MapAllowedKinds key.Kind = false ∧ r = ([], none, σ)) ∨
    (anyOf d.MapAllowedKinds key.Kind = true ∧ ro = false ∧
      r = ([], (if d.parseGeneratedMap (.map name key elem) then
          some (.bound .generatedMap (.map name key elem) path) else none),
        if (σ.get path).IsNil then σ.set path (.mapOf []) else σ)) := by
  rw [parseVal, ha] at h
  simp only at h
  cases hk : anyOf d.MapAllowedKinds key.Kind with
  | false =>
    simp only [hk, Bool.not_false, if_true] at h
    injection h with h
    exact Or.inl ⟨rfl, h.symm⟩
  | true =>
    simp only [hk, Bool.not_true, Bool.false_eq_true, if_false] at h
    cases ro with
    | true =>
      cases hn : (σ.get path).IsNil <;> simp [hn] at h
    | false =>
      simp only [Bool.and_false, Bool.false_eq_true, if_false] at h
      refine Or.inr ⟨rfl, rfl, ?_⟩
      by_cases hg : d.parseGeneratedMap (.map name key elem) = true
      · rw [if_pos hg] at h
        injection h with h
        rw [if_pos hg]
        exact h.symm
      · rw [if_neg hg] at h
        injection h with h
        rw [if_neg hg]
        exact h.symm

theorem parseVal_other_none (d : Pkg) (name : String) (kind : Kind) (path : List Step)
    (σ : GoValue) (optFuncs : List OptFunc) (ro : Bool)
    (ha : addrValue d (.other name kind) ro path = none) :
    parseVal d (.other name kind) ro path σ optFuncs = .ok ([], none, σ) := by
  rw [parseVal, ha]

theorem parseVal_struct_none (d : Pkg) (name : String) (fields : FieldList)
    (path : List Step) (σ : GoValue) (optFuncs : List OptFunc) (ro : Bool)
    (ha : addrValue d (.struct name fields) ro path = none)
    (r : List Flag × Option Value × GoValue)
    (h : parseVal d (.struct name fields) ro path σ optFuncs = .ok r) :
    ∃ flags σ1, parseFields d fields 0 ro path σ (defOpts.apply optFuncs) [] =
      .ok (flags, σ1) ∧ r = (flags, none, σ1) := by
  rw [parseVal, ha] at h
  simp only at h
  cases hp : parseFields d fields 0 ro path σ (defOpts.apply optFuncs) [] with
  | error p => rw [hp] at h; cases h
  | ok q =>
    obtain ⟨flags, σ2⟩ := q
    rw [hp] at h
    simp only at h
    injection h with h
    exact ⟨flags, σ2, rfl, h.symm⟩

theorem map_alloc_facts (name : String) (key elem : GoType) (path : List Step) (σ : GoValue)
    (hr : σ.resolves path = true) (ht : (GoType.map name key elem).holds (σ.get path) = true) :
    (if (σ.get path).IsNil then σ.set path (.mapOf []) else σ).resolves path = true ∧
    (GoType.map name key elem).holds
      ((if (σ.get path).IsNil then σ.set path (.mapOf []) else σ).get path) = true ∧
    ((if (σ.get path).IsNil then σ.set path (.mapOf []) else σ).get path).IsNil = false := by
  cases hn : (σ.get path).IsNil
  · simp only [Bool.false_eq_true, if_false]
    exact ⟨hr, ht, hn⟩
  · simp only [if_true]
    rw [GoValue.get_set_resolves path σ _ hr]
    exact ⟨GoValue.resolves_set_self path σ _ hr, rfl, rfl⟩

mutual
theorem parseVal_typed (d : Pkg) :
    ∀ (typ : GoType) (ro : Bool) (path : List Step) (σ : GoValue) (optFuncs : List OptFunc)
      (nested : List Flag) (val : Option Value) (σ1 : GoValue),
      σ.resolves path = true → typ.holds (σ.get path) = true →
      parseVal d typ ro path σ optFuncs = .ok (nested, val, σ1) →
      σ1.resolves path = true ∧ typ.holds (σ1.get path) = true ∧
      (∀ h, val = some h → σ1.resolves h.path = true) ∧
      (∀ g ∈ nested, ∀ h, g.Value = some h → σ1.resolves h.path = true)
  | .other name kind, ro, path, σ, optFuncs, nested, val, σ1, hr, ht, h => by
    cases ha : addrValue d (.other name kind) ro path with
    | some v =>
      rw [parseVal_addr d _ ro path σ optFuncs v ha] at h
      injection h with h
      injection h with h1 h2
      injection h2 with h3 h4
      subst h1 h3 h4
      refine ⟨hr, ht, ?_, fun g hg => by cases hg⟩
      intro hh e
      injection e with e
      subst e
      rw [addrValue_path d _ _ _ _ ha]
      exact hr
    | none =>
      rw [parseVal_other_none d name kind path σ optFuncs ro ha] at h
      injection h with h
      injection h with h1 h2
      injection h2 with h3 h4
      subst h1 h3 h4
      refine ⟨hr, ht, ?_, ?_⟩
      · intro hh e
        cases e
      · intro g hg
        cases hg
  | .map name key elem, ro, path, σ, optFuncs, nested, val, σ1, hr, ht, h => by
    cases ha : addrValue d (.map name key elem) ro path with
    | some v =>
      rw [parseVal_addr d _ ro path σ optFuncs v ha] at h
      injection h with h
      injection h with h1 h2
      injection h2 with h3 h4
      subst h1 h3 h4
      refine ⟨hr, ht, ?_, fun g hg => by cases hg⟩
      intro hh e
      injection e with e
      subst e
      rw [addrValue_path d _ _ _ _ ha]
      exact hr
    | none =>
      rcases parseVal_map_none d name key elem path σ optFuncs ro ha _ h with
        ⟨_, hres⟩ | ⟨_, _, hres⟩
      · injection hres with h1 h2
        injection h2 with h3 h4
        subst h1 h3 h4
        refine ⟨hr, ht, ?_, ?_⟩
        · intro hh e
          cases e
        · intro g hg
          cases hg
      · injection hres with h1 h2
        injection h2 with h3 h4
        obtain ⟨m1, m2, _⟩ := map_alloc_facts name key elem path σ hr ht
        subst h1 h4
        refine ⟨m1, m2, ?_, fun g hg => by cases hg⟩
        intro hh e
        rw [h3] at e
        split at e
        · injection e with e
          subst e
          exact m1
        · cases e
  | .ptr name elem, ro, path, σ, optFuncs, nested, val, σ1, hr, ht, h => by
    cases ha : addrValue d (.ptr name elem) ro path with
    | some v =>
      rw [parseVal_addr d _ ro path σ optFuncs v ha] at h
      injection h with h
      injection h with h1 h2
      injection h2 with h3 h4
      subst h1 h3 h4
      refine ⟨hr, ht, ?_, fun g hg => by cases hg⟩
      intro hh e
      injection e with e
      subst e
      rw [addrValue_path d _ _ _ _ ha]
      exact hr
    | none =>
      obtain ⟨a1, t, a2, a3⟩ := allocPtr_facts name elem path σ hr ht
      rcases parseVal_ptr_none d name elem path σ optFuncs ro ha _ h with
        ⟨_, ⟨_, hres⟩ | ⟨_, hrec⟩⟩
      · injection hres with h1 h2
        injection h2 with h3 h4
        subst h1 h3 h4
        refine ⟨a1, ?_, ?_, fun g hg => by cases hg⟩
        · rw [a2]
          simpa [GoType.holds] using a3
        · intro hh e
          injection e with e
          subst e
          exact a1
      · have b1 : (allocPtr σ path elem).resolves (path ++ [.deref]) = true := by
          rw [GoValue.resolves_append, a1, a2]
          simp [GoValue.resolves]
        have b2 : elem.holds ((allocPtr σ path elem).get (path ++ [.deref])) = true := by
          rw [GoValue.get_append, a2]
          simpa [GoValue.get] using a3
        obtain ⟨c1, c2, c3, c4⟩ :=
          parseVal_typed d elem false _ _ optFuncs nested val σ1 b1 b2 hrec
        rw [GoValue.resolves_append, Bool.and_eq_true] at c1
        refine ⟨c1.1, ?_, c3, c4⟩
        rw [ptr_of_resolves_deref _ c1.2]
        rw [GoValue.get_append] at c2
        simpa [GoType.holds] using c2
  | .struct name fields, ro, path, σ, optFuncs, nested, val, σ1, hr, ht, h => by
    cases ha : addrValue d (.struct name fields) ro path with
    | some v =>
      rw [parseVal_addr d _ ro path σ optFuncs v ha] at h
      injection h with h
      injection h with h1 h2
      injection h2 with h3 h4
      subst h1 h3 h4
      refine ⟨hr, ht, ?_, fun g hg => by cases hg⟩
      intro hh e
      injection e with e
      subst e
      rw [addrValue_path d _ _ _ _ ha]
      exact hr
    | none =>
      obtain ⟨flags, σ2, hp, hres⟩ :=
        parseVal_struct_none d name fields path σ optFuncs ro ha _ h
      injection hres with h1 h2
      injection h2 with h3 h4
      subst h1 h3 h4
      obtain ⟨vs, hvs, hh⟩ := struct_content name fields _ ht
      obtain ⟨suf1, e1, e2, e3, e4⟩ :=
        parseFields_typed d fields 0 ro path σ _ nested σ1 [] vs hr hvs rfl hh hp
      refine ⟨e3, ?_, ?_, e4⟩
      · rw [e1]
        simpa [GoType.holds] using e2
      · intro hh e
        cases e
theorem parseFields_typed (d : Pkg) :
    ∀ (fields : FieldList) (i : Nat) (ro : Bool) (path : List Step) (σ : GoValue)
      (opt : opts) (flags : List Flag) (σ1 : GoValue) (pre suf : List GoValue),
      σ.resolves path = true → σ.get path = .struct (pre ++ suf) → pre.length = i →
      fields.hold suf = true →
      parseFields d fields i ro path σ opt [] = .ok (flags, σ1) →
      ∃ suf1, σ1.get path = .struct (pre ++ suf1) ∧ fields.hold suf1 = true ∧
        σ1.resolves path = true ∧
        (∀ g ∈ flags, ∀ h, g.Value = some h → σ1.resolves h.path = true)
  | .nil, i, ro, path, σ, opt, flags, σ1, pre, suf, hr, hg, hl, hh, h => by
    rw [parseFields] at h
    injection h with h
    injection h with h1 h2
    subst h1 h2
    exact ⟨suf, hg, hh, hr, fun g hg => by cases hg⟩
  | .cons field typ rest, i, ro, path, σ, opt, flags, σ1, pre, suf, hr, hg, hl, hh, h => by
    obtain ⟨own, σ2, more, hown, hmore, rfl⟩ := parseFields_cons_ok d _ _ _ _ _ _ _ _ _ _ h
    cases suf with
    | nil => simp [FieldList.hold] at hh
    | cons v suf0 =>
      simp only [FieldList.hold, Bool.and_eq_true] at hh
      subst hl
      have r1 : σ.resolves (path ++ [.field pre.length]) = true := by
        rw [GoValue.resolves_append, hr, hg, struct_resolves_at]
        simp [GoValue.resolves]
      have g1 : σ.get (path ++ [.field pre.length]) = v := by
        rw [GoValue.get_append, hg, struct_get_at]
      obtain ⟨⟨x0, hx0⟩, hbelow⟩ := parseField_facts d _ _ _ _ _ _ _ _ _ hown
      have hx : σ2.get (path ++ [.field pre.length]) = x0 := by
        rw [hx0]
        exact GoValue.get_set_resolves _ σ x0 r1
      have hσ2 : σ2.get path = .struct ((pre ++ [x0]) ++ suf0) := by
        rw [hx0, GoValue.set_append, GoValue.get_set_resolves path σ _ hr, hg, struct_set_at]
        simp
      have hr2 : σ2.resolves path = true := by
        rw [hx0, GoValue.set_append]
        exact GoValue.resolves_set_self path σ _ hr
      have hstep : typ.holds x0 = true ∧
          ∀ g ∈ own, ∀ h, g.Value = some h → σ2.resolves h.path = true := by
        rcases parseField_cases d _ _ _ _ _ _ _ _ _ hown with
          ⟨ho, hs⟩ | ⟨flag, nested, val, hf, hv, ho⟩ | ⟨flag, hf, hv⟩
        · refine ⟨?_, ?_⟩
          · rw [← hx, hs, g1]
            exact hh.1
          · rw [ho]
            intro g hg
            cases hg
        · obtain ⟨_, c2, c3, _⟩ := parseVal_typed d typ _ _ _ _ nested (some val) σ2 r1
            (by rw [g1]; exact hh.1) hv
          refine ⟨by rw [← hx]; exact c2, ?_⟩
          intro g hg hd e
          rw [ho, List.mem_singleton] at hg
          subst hg
          injection e with e
          subst e
          rw [wrapValue_path]
          exact c3 val rfl
        · obtain ⟨_, c2, _, c4⟩ := parseVal_typed d typ _ _ _ _ own none σ2 r1
            (by rw [g1]; exact hh.1) hv
          exact ⟨by rw [← hx]; exact c2, c4⟩
      obtain ⟨suf1, e1, e2, e3, e4⟩ :=
        parseFields_typed d rest (pre.length + 1) ro path σ2 opt more σ1 (pre ++ [x0]) suf0
          hr2 hσ2 (by simp) hh.2 hmore
      refine ⟨x0 :: suf1, by rw [e1]; simp, ?_, e3, ?_⟩
      · simp only [FieldList.hold, Bool.and_eq_true]
        exact ⟨hstep.1, e2⟩
      · intro g hg hd e
        rcases List.mem_append.mp hg with hg | hg
        · obtain ⟨hd2, e5, ⟨r, hr5⟩, _⟩ := hbelow g hg
          rw [e] at e5
          injection e5 with e5
          subst e5
          have s2 := hstep.2 g hg hd e
          rw [← hr5, List.append_assoc, GoValue.resolves_append, hr2, hσ2] at s2
          rw [← hr5, List.append_assoc, GoValue.resolves_append, e3, e1]
          simp only [List.append_assoc, List.singleton_append] at s2 ⊢
          rw [struct_resolves_at] at s2 ⊢
          exact s2
        · exact e4 g hg hd e
end

/-! ## A second walk over the result of the first -/

theorem parseFields_cons_of (d : Pkg) (field : StructField) (typ : GoType)
    (rest : FieldList) (i : Nat) (ro : Bool) (path : List Step) (σ : GoValue) (opt : opts)
    (own more : List Flag) (σ1 σ2 : GoValue)
    (hown : parseField d field typ i ro path σ opt = .ok (own, σ1))
    (hmore : parseFields d rest (i + 1) ro path σ1 opt [] = .ok (more, σ2)) :
    parseFields d (.cons field typ rest) i ro path σ opt [] = .ok (own ++ more, σ2) := by
  rw [parseFields_cons, hown]
  simp only [List.nil_append]
  rw [parseFields_acc, hmore]

theorem parseFields_cons_error (d : Pkg) (field : StructField) (typ : GoType)
    (rest : FieldList) (i : Nat) (ro : Bool) (path : List Step) (σ : GoValue) (opt : opts)
    (p : Panic) (hown : parseField d field typ i ro path σ opt = .error p) :
    parseFields d (.cons field typ rest) i ro path σ opt [] = .error p := by
  rw [parseFields_cons, hown]

theorem parseFields_cons_error_rest (d : Pkg) (field : StructField) (typ : GoType)
    (rest : FieldList) (i : Nat) (ro : Bool) (path : List Step) (σ : GoValue) (opt : opts)
    (own : List Flag) (σ1 : GoValue) (p : Panic)
    (hown : parseField d field typ i ro path σ opt = .ok (own, σ1))
    (hmore : parseFields d rest (i + 1) ro path σ1 opt [] = .error p) :
    parseFields d (.cons field typ rest) i ro path σ opt [] = .error p := by
  rw [parseFields_cons, hown]
  simp only [List.nil_append]
  rw [parseFields_acc, hmore]

theorem parseVal_ptr_eq (d : Pkg) (name : String) (elem : GoType) (path : List Step)
    (σ : GoValue) (optFuncs : List OptFunc)
    (ha : addrValue d (.ptr name elem) false path = none) :
    parseVal d (.ptr name elem) false path σ optFuncs =
      if d.parseGeneratedPtrs (.ptr name elem) then
        .ok ([], some (.bound .generatedPtrs (.ptr name elem) path), allocPtr σ path elem)
      else parseVal d elem false (path ++ [.deref]) (allocPtr σ path elem) optFuncs := by
  rw [parseVal, ha]
  simp only [Bool.and_false, Bool.false_eq_true, if_false]
  rfl

theorem parseVal_map_skip (d : Pkg) (name : String) (key elem : GoType) (path : List Step)
    (σ : GoValue) (optFuncs : List OptFunc) (ro : Bool)
    (ha : addrValue d (.map name key elem) ro path = none)
    (hk : anyOf d.MapAllowedKinds key.Kind = false) :
    parseVal d (.map name key elem) ro path σ optFuncs = .ok ([], none, σ) := by
  rw [parseVal, ha]
  simp [hk]

theorem parseVal_map_eq (d : Pkg) (name : String) (key elem : GoType) (path : List Step)
    (σ : GoValue) (optFuncs : List OptFunc)
    (ha : addrValue d (.map name key elem) false path = none)
    (hk : anyOf d.MapAllowedKinds key.Kind = true) :
    parseVal d (.map name key elem) false path σ optFuncs =
      .ok ([], (if d.parseGeneratedMap (.map name key elem) then
          some (.bound .generatedMap (.map name key elem) path) else none),
        if (σ.get path).IsNil then σ.set path (.mapOf []) else σ) := by
  rw [parseVal, ha]
  simp only [hk, Bool.not_true, Bool.false_eq_true, if_false, Bool.and_false]
  split <;> rfl

theorem parseVal_struct_eq (d : Pkg) (name : String) (fields : FieldList)
    (path : List Step) (σ : GoValue) (optFuncs : List OptFunc) (ro : Bool)
    (ha : addrValue d (.struct name fields) ro path = none) :
    parseVal d (.struct name fields) ro path σ optFuncs =
      match parseFields d fields 0 ro path σ (defOpts.apply optFuncs) [] with
      | .error p => .error p
      | .ok (flags, σ) => .ok (flags, none, σ) := by
  simp only [parseVal, ha]

theorem allocPtr_not_nil (σ : GoValue) (path : List Step) (elem : GoType) :
    ((allocPtr σ path elem).get path).IsNil = false := by
  unfold allocPtr
  cases hn : (σ.get path).IsNil
  · simp only [Bool.false_eq_true, if_false]
    exact hn
  · simp only [if_true]
    rw [GoValue.get_set_of_isNil path σ _ hn]
    rfl

theorem allocPtr_of_not_nil (σ : GoValue) (path : List Step) (elem : GoType)
    (h : (σ.get path).IsNil = false) : allocPtr σ path elem = σ := by
  unfold allocPtr
  simp [h]

theorem allocMap_not_nil (σ : GoValue) (path : List Step) :
    ((if (σ.get path).IsNil then σ.set path (.mapOf []) else σ).get path).IsNil = false := by
  cases hn : (σ.get path).IsNil
  · simp only [Bool.false_eq_true, if_false]
    exact hn
  · simp only [if_true]
    rw [GoValue.get_set_of_isNil path σ _ hn]
    rfl

mutual
theorem parseVal_rerun (d : Pkg) :
    ∀ (typ : GoType) (ro : Bool) (path : List Step) (σ : GoValue) (optFuncs : List OptFunc)
      (nested : List Flag) (val : Option Value) (σ1 : GoValue),
      parseVal d typ ro path σ optFuncs = .ok (nested, val, σ1) →
      ∀ τ, (∀ r, τ.get (path ++ r) = σ1.get (path ++ r)) →
        parseVal d typ ro path τ optFuncs = .ok (nested, val, τ)
  | .other name kind, ro, path, σ, optFuncs, nested, val, σ1, h, τ, hτ => by
    cases ha : addrValue d (.other name kind) ro path with
    | some v =>
      rw [parseVal_addr d _ ro path σ optFuncs v ha] at h
      injection h with h
      injection h with h1 h2
      injection h2 with h3 h4
      subst h1 h3 h4
      exact parseVal_addr d _ ro path τ optFuncs v ha
    | none =>
      rw [parseVal_other_none d name kind path σ optFuncs ro ha] at h
      injection h with h
      injection h with h1 h2
      injection h2 with h3 h4
      subst h1 h3 h4
      exact parseVal_other_none d name kind path τ optFuncs ro ha
  | .map name key elem, ro, path, σ, optFuncs, nested, val, σ1, h, τ, hτ => by
    cases ha : addrValue d (.map name key elem) ro path with
    | some v =>
      rw [parseVal_addr d _ ro path σ optFuncs v ha] at h
      injection h with h
      injection h with h1 h2
      injection h2 with h3 h4
      subst h1 h3 h4
      exact parseVal_addr d _ ro path τ optFuncs v ha
    | none =>
      rcases parseVal_map_none d name key elem path σ optFuncs ro ha _ h with
        ⟨hk, hres⟩ | ⟨hk, hro, hres⟩
      · injection hres with h1 h2
        injection h2 with h3 h4
        subst h1 h3 h4
        exact parseVal_map_skip d name key elem path τ optFuncs ro ha hk
      · subst hro
        injection hres with h1 h2
        injection h2 with h3 h4
        have hn : (τ.get path).IsNil = false := by
          have := hτ []
          rw [List.append_nil] at this
          rw [this, h4]
          exact allocMap_not_nil σ path
        rw [parseVal_map_eq d name key elem path τ optFuncs ha hk, h1, h3]
        simp [hn]
  | .ptr name elem, ro, path, σ, optFuncs, nested, val, σ1, h, τ, hτ => by
    cases ha : addrValue d (.ptr name elem) ro path with
    | some v =>
      rw [parseVal_addr d _ ro path σ optFuncs v ha] at h
      injection h with h
      injection h with h1 h2
      injection h2 with h3 h4
      subst h1 h3 h4
      exact parseVal_addr d _ ro path τ optFuncs v ha
    | none =>
      have hτ0 : τ.get path = σ1.get path := by
        have := hτ []
        rw [List.append_nil] at this
        exact this
      rcases parseVal_ptr_none d name elem path σ optFuncs ro ha _ h with
        ⟨hro, ⟨hg, hres⟩ | ⟨hg, hrec⟩⟩
      · subst hro
        injection hres with h1 h2
        injection h2 with h3 h4
        have hn : (τ.get path).IsNil = false := by
          rw [hτ0, h4]
          exact allocPtr_not_nil σ path elem
        rw [parseVal_ptr_eq d name elem path τ optFuncs ha, if_pos hg,
          allocPtr_of_not_nil τ path elem hn, h1, h3]
      · subst hro
        obtain ⟨⟨w, hw⟩, _, _⟩ := parseVal_facts d elem false _ _ optFuncs nested val σ1 hrec
        have hn : (τ.get path).IsNil = false := by
          rw [hτ0, hw, GoValue.isNil_get_set_below]
          exact allocPtr_not_nil σ path elem
        rw [parseVal_ptr_eq d name elem path τ optFuncs ha, if_neg (by simp [hg]),
          allocPtr_of_not_nil τ path elem hn]
        exact parseVal_rerun d elem false (path ++ [Step.deref]) (allocPtr σ path elem)
          optFuncs nested val σ1 hrec τ (fun r => by rw [List.append_assoc]; exact hτ _)
  | .struct name fields, ro, path, σ, optFuncs, nested, val, σ1, h, τ, hτ => by
    cases ha : addrValue d (.struct name fields) ro path with
    | some v =>
      rw [parseVal_addr d _ ro path σ optFuncs v ha] at h
      injection h with h
      injection h with h1 h2
      injection h2 with h3 h4
      subst h1 h3 h4
      exact parseVal_addr d _ ro path τ optFuncs v ha
    | none =>
      obtain ⟨flags, σ2, hp, hres⟩ :=
        parseVal_struct_none d name fields path σ optFuncs ro ha _ h
      injection hres with h1 h2
      injection h2 with h3 h4
      subst h1 h3 h4
      rw [parseVal_struct_eq d name fields path τ optFuncs ro ha,
        parseFields_rerun d fields 0 ro path σ _ nested σ1 hp τ (fun k _ r => hτ _)]
theorem parseFields_rerun (d : Pkg) :
    ∀ (fields : FieldList) (i : Nat) (ro : Bool) (path : List Step) (σ : GoValue)
      (opt : opts) (flags : List Flag) (σ1 : GoValue),
      parseFields d fields i ro path σ opt [] = .ok (flags, σ1) →
      ∀ τ, (∀ k, i ≤ k → ∀ r, τ.get (path ++ .field k :: r) = σ1.get (path ++ .field k :: r)) →
        parseFields d fields i ro path τ opt [] = .ok (flags, τ)
  | .nil, i, ro, path, σ, opt, flags, σ1, h, τ, hτ => by
    rw [parseFields] at h
    injection h with h
    injection h with h1 h2
    subst h1 h2
    rw [parseFields]
  | .cons field typ rest, i, ro, path, σ, opt, flags, σ1, h, τ, hτ => by
    obtain ⟨own, σ2, more, hown, hmore, rfl⟩ := parseFields_cons_ok d _ _ _ _ _ _ _ _ _ _ h
    obtain ⟨_, hframe, _⟩ := parseFields_facts d rest (i + 1) ro path σ2 opt more σ1 hmore
    have hagree : ∀ r, τ.get (path ++ [.field i] ++ r) = σ2.get (path ++ [.field i] ++ r) := by
      intro r
      have e1 := hτ i (Nat.le_refl i) r
      have e2 := hframe i (Nat.lt_succ_self i) r
      simp only [List.append_assoc, List.singleton_append]
      rw [e1, e2]
    have hrest := parseFields_rerun d rest (i + 1) ro path σ2 opt more σ1 hmore τ
      (fun k hk r => hτ k (Nat.le_of_succ_le hk) r)
    refine parseFields_cons_of d field typ rest i ro path τ opt own more τ τ ?_ hrest
    unfold parseField at hown ⊢
    by_cases he : field.PkgPath ≠ "" ∧ field.Anonymous = false
    · rw [if_pos he] at hown ⊢
      injection hown with hown
      injection hown with h1 h2
      rw [← h1]
    · rw [if_neg he] at hown ⊢
      cases hf : parseFlagTag d field opt with
      | none =>
        rw [hf] at hown
        injection hown with hown
        injection hown with h1 h2
        rw [← h1]
      | some flag =>
        rw [hf] at hown
        simp only at hown ⊢
        cases hv : parseVal d typ (decide (field.PkgPath ≠ "")) (path ++ [.field i]) σ
            (nestedOptFuncs opt field (draftFlag d field opt flag)) with
        | error p => rw [hv] at hown; cases hown
        | ok q =>
          obtain ⟨nested, val, σ3⟩ := q
          rw [hv] at hown
          cases val with
          | some val =>
            simp only at hown
            injection hown with hown
            injection hown with h1 h2
            subst h2
            obtain ⟨_, hval, _⟩ := parseVal_facts d typ _ _ _ _ nested (some val) σ3 hv
            rw [parseVal_rerun d typ _ _ σ _ nested (some val) σ3 hv τ hagree]
            simp only
            rw [← h1]
            have hs : (wrapValue opt field ro path val).String d τ =
                (wrapValue opt field ro path val).String d σ3 := by
              apply Value.String_congr
              rw [wrapValue_path]
              obtain ⟨r, hr⟩ := hval val rfl
              rw [← hr]
              exact hagree r
            rw [hs]
          | none =>
            simp only at hown
            injection hown with hown
            injection hown with h1 h2
            subst h2
            rw [parseVal_rerun d typ _ _ σ _ nested none σ3 hv τ hagree]
            simp only
            rw [h1]
end

/-! ## Default values, `Set` and `String` -/

theorem Value.String_eq_render (d : Pkg) (σ : GoValue) : ∀ (h : Value),
    h.String d σ = h.render d (σ.get h.path)
  | .bound _ _ _ => rfl
  | .validateValue inner _ _ _ _ => by
    simp only [Value.String, Value.render, Value.path]
    exact Value.String_eq_render d σ inner

theorem Value.Set_ok (set : SetFunc) (s : Text) (σ σ2 : GoValue) : ∀ (h : Value),
    h.Set set s σ = .ok (none, σ2) →
    ∃ x, h.content set σ s = .ok x ∧ σ2 = σ.set h.path x
  | .bound source typ path, e => by
    simp only [Value.Set] at e
    simp only [Value.content, Value.path]
    cases hs : set source typ s (σ.get path) with
    | error m =>
      rw [hs] at e
      simp at e
    | ok x =>
      rw [hs] at e
      simp only at e
      injection e with e
      injection e with e1 e2
      exact ⟨x, rfl, e2.symm⟩
  | .validateValue inner validator field structRO structPath, e => by
    simp only [Value.Set] at e
    simp only [Value.content, Value.path]
    cases structRO with
    | true => simp at e
    | false =>
      simp only [Bool.false_eq_true, if_false] at e
      cases hv : validator s field (σ.get structPath) with
      | some m =>
        rw [hv] at e
        simp at e
      | none =>
        rw [hv] at e
        exact Value.Set_ok set s σ σ2 inner e

/-- A successful `ParseStruct` on a typed configuration: the loop of `parseStruct` on the
struct behind the pointer, the state it leaves, which is typed, and the handles, whose
storage exists in that state. -/
theorem ParseStruct_typed (d : Pkg) (name sname : String) (fields : FieldList)
    (v : GoValue) (optFuncs : List OptFunc) (flags : List Flag) (err : Option String)
    (cfg1 : Interface)
    (hty : (GoType.ptr name (.struct sname fields)).holds v = true)
    (h : ParseStruct d (some (.ptr name (.struct sname fields), v)) optFuncs =
      .ok ((some flags, err), cfg1)) :
    ∃ σ, parseFields d fields 0 false [.deref] v (defOpts.apply optFuncs) [] =
        .ok (flags, σ) ∧ err = none ∧ cfg1 = some (.ptr name (.struct sname fields), σ) ∧
      (GoType.ptr name (.struct sname fields)).holds σ = true ∧ σ.IsNil = false ∧
      (∀ g ∈ flags, ∀ h, g.Value = some h → σ.resolves h.path = true) := by
  obtain ⟨σ, hp, he, hc, hn⟩ := parseFields_of_ParseStruct d name sname fields v optFuncs
    flags err cfg1 h
  obtain ⟨t, ht, hs⟩ := ptr_content name _ v hty hn
  obtain ⟨vs, hvs, hh⟩ := struct_content sname fields t hs
  subst ht hvs
  obtain ⟨suf1, e1, e2, e3, e4⟩ := parseFields_typed d fields 0 false [.deref]
    (.ptrTo (.struct vs)) _ flags σ [] vs rfl rfl rfl hh hp
  refine ⟨σ, hp, he, hc, ?_, ?_, e4⟩
  · rw [ptr_of_resolves_deref σ e3, e1]
    simpa [GoType.holds] using e2
  · rw [ptr_of_resolves_deref σ e3]
    rfl

/-- C20: every descriptor that `ParseStruct` returns for a typed configuration carries a
handle, and its `DefValue` is what `String()` of that handle gives in the state that
`ParseStruct` leaves, after the allocations. A later `Set` that succeeds makes `String()`
show the new content; the descriptor, with its `DefValue`, is a value that `Set` does not
touch. -/
theorem defValue_captured (d : Pkg) (set : SetFunc) (name sname : String)
    (fields : FieldList) (v : GoValue) (optFuncs : List OptFunc) (flags : List Flag)
    (err : Option String) (cfg1 : Interface)
    (hty : (GoType.ptr name (.struct sname fields)).holds v = true)
    (h : ParseStruct d (some (.ptr name (.struct sname fields), v)) optFuncs =
      .ok ((some flags, err), cfg1)) :
    ∃ σ1, cfg1 = some (.ptr name (.struct sname fields), σ1) ∧
      ∀ g ∈ flags, ∃ val, g.Value = some val ∧ g.DefValue = val.String d σ1 ∧
        ∀ s σ2, val.Set set s σ1 = .ok (none, σ2) →
          ∃ x, val.content set σ1 s = .ok x ∧ val.String d σ2 = val.render d x := by
  obtain ⟨σ, hp, _, hc, _, _, hres⟩ := ParseStruct_typed d name sname fields v optFuncs
    flags err cfg1 hty h
  refine ⟨σ, hc, ?_⟩
  intro g hg
  obtain ⟨_, _, hfl⟩ := parseFields_facts d fields 0 false [.deref] v _ flags σ hp
  obtain ⟨k, _, val, hval, _, hdef⟩ := hfl g hg
  refine ⟨val, hval, hdef, ?_⟩
  intro s σ2 hset
  obtain ⟨x, hx, hσ2⟩ := Value.Set_ok set s σ σ2 val hset
  refine ⟨x, hx, ?_⟩
  rw [Value.String_eq_render, hσ2, GoValue.get_set_resolves _ σ x (hres g hg val hval)]

/-- C20 on the configuration of `TestParseStruct_NilValue`: the default values are taken
after the allocation of `Name1` and `Regexp`, and after `Set("name1value")` on the first
descriptor `String()` shows the new text while the default value stays empty. -/
theorem defValue_captured_witness :
    (∃ σ1, some (GoType.ptr "" (.struct "" nilCfgFields), nilCfgAfter) =
        some (.ptr "" (.struct "" nilCfgFields), σ1) ∧
      ∀ g ∈ nilCfgFlags, ∃ val, g.Value = some val ∧ g.DefValue = val.String testPkg σ1 ∧
        ∀ s σ2, val.Set testSet s σ1 = .ok (none, σ2) →
          ∃ x, val.content testSet σ1 s = .ok x ∧
            val.String testPkg σ2 = val.render testPkg x) ∧
    defValuesOf (ParseStruct testPkg
      (some (.ptr "" (.struct "" nilCfgFields), nilCfgValue)) []) = ["", "name2_value", ""] ∧
    stringAfterSet testPkg testSet (ParseStruct testPkg
      (some (.ptr "" (.struct "" nilCfgFields), nilCfgValue)) []) 0 "name1value" =
      some "name1value" :=
  ⟨defValue_captured testPkg testSet "" "" nilCfgFields nilCfgValue [] nilCfgFlags none
      (some (.ptr "" (.struct "" nilCfgFields), nilCfgAfter)) rfl rfl,
    rfl, rfl⟩

/-! ## The same call twice -/

/-- C19: a second call of `ParseStruct` with the same options on what the first call left
behind the configuration returns what the first call returned, and changes nothing: the two
descriptor lists are equal, hence have the same length and the same names, env names and
default values in the same order; the same holds for the two errors of a refused
configuration. -/
theorem ParseStruct_twice (d : Pkg) (cfg : Interface) (optFuncs : List OptFunc)
    (r : Option (List Flag) × Option String) (cfg1 : Interface)
    (h : ParseStruct d cfg optFuncs = .ok (r, cfg1)) :
    ParseStruct d cfg1 optFuncs = .ok (r, cfg1) := by
  have hsame : ∀ e : String, ParseStruct d cfg optFuncs = .ok ((none, some e), cfg) →
      ParseStruct d cfg1 optFuncs = .ok (r, cfg1) := by
    intro e he
    rw [he] at h
    injection h with h
    injection h with h1 h2
    subst h1 h2
    exact he
  match cfg, h, hsame with
  | none, h, hsame => exact hsame _ rfl
  | some (.other _ _, _), h, hsame => exact hsame _ rfl
  | some (.map _ _ _, _), h, hsame => exact hsame _ rfl
  | some (.struct _ _, _), h, hsame => exact hsame _ rfl
  | some (.ptr name elem, v), h, hsame =>
    cases hv : v.IsNil with
    | true =>
      apply hsame errNilConfig
      simp [ParseStruct, hv]
    | false =>
      match elem, h, hsame with
      | .other _ _, h, hsame =>
        apply hsame errInvalidConfigType
        simp [ParseStruct, hv]
      | .map _ _ _, h, hsame =>
        apply hsame errInvalidConfigType
        simp [ParseStruct, hv]
      | .ptr _ _, h, hsame =>
        apply hsame errInvalidConfigType
        simp [ParseStruct, hv]
      | .struct sname fields, h, hsame =>
        have h0 := h
        rw [ParseStruct_of_struct d name sname fields v optFuncs hv,
          ← parseFields_eq_concatFields] at h0
        cases hr : parseFields d fields 0 false [.deref] v (defOpts.apply optFuncs) [] with
        | error p => rw [hr] at h0; cases h0
        | ok q =>
          obtain ⟨flags, σ⟩ := q
          rw [hr] at h0
          simp only at h0
          injection h0 with h0
          injection h0 with h1 h2
          subst h1 h2
          obtain ⟨⟨w, hw⟩, _, _⟩ := parseFields_facts d fields 0 false [.deref] v _ flags σ hr
          have hn : σ.IsNil = false := by
            rw [hw, GoValue.isNil_set_below]
            exact hv
          rw [ParseStruct_of_struct d name sname fields σ optFuncs hn,
            ← parseFields_eq_concatFields,
            parseFields_rerun d fields 0 false [.deref] v _ flags σ hr σ (fun _ _ _ => rfl)]

/-- C19 on the configuration of `TestParseStruct_NilValue`: the first call allocates `Name1`
and `Regexp`, the second call on the result returns the same three descriptors. -/
theorem ParseStruct_twice_witness :
    ParseStruct testPkg (some (.ptr "" (.struct "" nilCfgFields), nilCfgValue)) [] =
      .ok ((some nilCfgFlags, none), some (.ptr "" (.struct "" nilCfgFields), nilCfgAfter)) ∧
    ParseStruct testPkg (some (.ptr "" (.struct "" nilCfgFields), nilCfgAfter)) [] =
      .ok ((some nilCfgFlags, none), some (.ptr "" (.struct "" nilCfgFields), nilCfgAfter)) :=
  ⟨rfl, ParseStruct_twice testPkg (some (.ptr "" (.struct "" nilCfgFields), nilCfgValue)) []
    (some nilCfgFlags, none) (some (.ptr "" (.struct "" nilCfgFields), nilCfgAfter)) rfl⟩

/-! ## Handles of different descriptors -/

theorem Diverge.symm (p q : List Step) (h : Diverge p q) : Diverge q p := by
  obtain ⟨base, i, k, r1, r2, hne, hp, hq⟩ := h
  exact ⟨base, k, i, r2, r1, fun e => hne e.symm, hq, hp⟩

theorem Diverge.get_set (p q : List Step) (σ x : GoValue) (h : Diverge p q) :
    (σ.set p x).get q = σ.get q := by
  obtain ⟨base, i, k, r1, r2, hne, hp, hq⟩ := h
  rw [hp, hq]
  exact GoValue.get_set_field_ne base σ x k i r1 r2 (fun e => hne e.symm)

mutual
theorem parseVal_apart (d : Pkg) :
    ∀ (typ : GoType) (ro : Bool) (path : List Step) (σ : GoValue) (optFuncs : List OptFunc)
      (nested : List Flag) (val : Option Value) (σ1 : GoValue),
      parseVal d typ ro path σ optFuncs = .ok (nested, val, σ1) →
      nested.Pairwise Flag.Apart
  | .other name kind, ro, path, σ, optFuncs, nested, val, σ1, h => by
    cases ha : addrValue d (.other name kind) ro path with
    | some v =>
      rw [parseVal_addr d _ ro path σ optFuncs v ha] at h
      injection h with h
      injection h with h1 h2
      subst h1
      exact List.Pairwise.nil
    | none =>
      rw [parseVal_other_none d name kind path σ optFuncs ro ha] at h
      injection h with h
      injection h with h1 h2
      subst h1
      exact List.Pairwise.nil
  | .map name key elem, ro, path, σ, optFuncs, nested, val, σ1, h => by
    cases ha : addrValue d (.map name key elem) ro path with
    | some v =>
      rw [parseVal_addr d _ ro path σ optFuncs v ha] at h
      injection h with h
      injection h with h1 h2
      subst h1
      exact List.Pairwise.nil
    | none =>
      rcases parseVal_map_none d name key elem path σ optFuncs ro ha _ h with
        ⟨_, hres⟩ | ⟨_, _, hres⟩ <;>
      · injection hres with h1 h2
        subst h1
        exact List.Pairwise.nil
  | .ptr name elem, ro, path, σ, optFuncs, nested, val, σ1, h => by
    cases ha : addrValue d (.ptr name elem) ro path with
    | some v =>
      rw [parseVal_addr d _ ro path σ optFuncs v ha] at h
      injection h with h
      injection h with h1 h2
      subst h1
      exact List.Pairwise.nil
    | none =>
      rcases parseVal_ptr_none d name elem path σ optFuncs ro ha _ h with
        ⟨_, ⟨_, hres⟩ | ⟨_, hrec⟩⟩
      · injection hres with h1 h2
        subst h1
        exact List.Pairwise.nil
      · exact parseVal_apart d elem false _ _ optFuncs nested val σ1 hrec
  | .struct name fields, ro, path, σ, optFuncs, nested, val, σ1, h => by
    cases ha : addrValue d (.struct name fields) ro path with
    | some v =>
      rw [parseVal_addr d _ ro path σ optFuncs v ha] at h
      injection h with h
      injection h with h1 h2
      subst h1
      exact List.Pairwise.nil
    | none =>
      obtain ⟨flags, σ2, hp, hres⟩ :=
        parseVal_struct_none d name fields path σ optFuncs ro ha _ h
      injection hres with h1 h2
      subst h1
      exact parseFields_apart d fields 0 ro path σ _ nested σ2 hp
theorem parseFields_apart (d : Pkg) :
    ∀ (fields : FieldList) (i : Nat) (ro : Bool) (path : List Step) (σ : GoValue)
      (opt : opts) (flags : List Flag) (σ1 : GoValue),
      parseFields d fields i ro path σ opt [] = .ok (flags, σ1) →
      flags.Pairwise Flag.Apart
  | .nil, i, ro, path, σ, opt, flags, σ1, h => by
    rw [parseFields] at h
    injection h with h
    injection h with h1 h2
    subst h1
    exact List.Pairwise.nil
  | .cons field typ rest, i, ro, path, σ, opt, flags, σ1, h => by
    obtain ⟨own, σ2, more, hown, hmore, rfl⟩ := parseFields_cons_ok d _ _ _ _ _ _ _ _ _ _ h
    rw [List.pairwise_append]
    refine ⟨?_, parseFields_apart d rest (i + 1) ro path σ2 opt more σ1 hmore, ?_⟩
    · rcases parseField_cases d _ _ _ _ _ _ _ _ _ hown with
        ⟨ho, _⟩ | ⟨flag, nested, val, _, _, ho⟩ | ⟨flag, _, hv⟩
      · rw [ho]
        exact List.Pairwise.nil
      · rw [ho]
        exact List.pairwise_singleton _ _
      · exact parseVal_apart d typ _ _ _ _ own none σ2 hv
    · intro a ha b hb h1 h2 e1 e2
      obtain ⟨_, hbelow⟩ := parseField_facts d _ _ _ _ _ _ _ _ _ hown
      obtain ⟨_, _, hfl⟩ := parseFields_facts d rest (i + 1) ro path σ2 opt more σ1 hmore
      obtain ⟨v1, f1, ⟨r1, p1⟩, _⟩ := hbelow a ha
      obtain ⟨k, hk, v2, f2, ⟨r2, p2⟩, _⟩ := hfl b hb
      rw [e1] at f1
      rw [e2] at f2
      injection f1 with f1
      injection f2 with f2
      subst f1 f2
      refine ⟨path, i, k, r1, r2, Nat.ne_of_lt hk, ?_, ?_⟩
      · rw [← p1]
        simp
      · rw [← p2]
        simp
end

/-- C17: after a successful `ParseStruct` on a typed configuration, a `Set(s)` without
error on the handle of a descriptor leaves, in the storage of the field the handle is bound
to (below the struct behind the configuration pointer, behind the pointer of a pointer
field), the content that `Set` made of the text, and leaves the storage of the handles of
all other descriptors as it was. The configuration is a tree: no two pointers in it share
a target. -/
theorem set_aliases_field (d : Pkg) (set : SetFunc) (name sname : String)
    (fields : FieldList) (v : GoValue) (optFuncs : List OptFunc) (flags : List Flag)
    (err : Option String) (cfg1 : Interface)
    (hty : (GoType.ptr name (.struct sname fields)).holds v = true)
    (h : ParseStruct d (some (.ptr name (.struct sname fields), v)) optFuncs =
      .ok ((some flags, err), cfg1)) :
    ∃ σ1, cfg1 = some (.ptr name (.struct sname fields), σ1) ∧
      ∀ n g val s σ2, flags.get? n = some g → g.Value = some val →
        val.Set set s σ1 = .ok (none, σ2) →
        (∃ k, [.deref, .field k] <+: val.path) ∧
        (∃ x, val.content set σ1 s = .ok x ∧ σ2.get val.path = x) ∧
        ∀ m g2 val2, m ≠ n → flags.get? m = some g2 → g2.Value = some val2 →
          σ2.get val2.path = σ1.get val2.path := by
  obtain ⟨σ, hp, _, hc, _, _, hres⟩ := ParseStruct_typed d name sname fields v optFuncs
    flags err cfg1 hty h
  refine ⟨σ, hc, ?_⟩
  intro n g val s σ2 hn hval hset
  obtain ⟨hlt, hgn⟩ := List.get?_eq_some.mp hn
  have hg : g ∈ flags := by
    rw [← hgn]
    exact List.get_mem _ _ _
  obtain ⟨_, _, hfl⟩ := parseFields_facts d fields 0 false [.deref] v _ flags σ hp
  obtain ⟨k, _, val0, hval0, hk, _⟩ := hfl g hg
  rw [hval] at hval0
  injection hval0 with hval0
  subst hval0
  obtain ⟨x, hx, hσ2⟩ := Value.Set_ok set s σ σ2 val hset
  refine ⟨⟨k, hk⟩, ⟨x, hx, ?_⟩, ?_⟩
  · rw [hσ2]
    exact GoValue.get_set_resolves _ σ x (hres g hg val hval)
  · intro m g2 val2 hmn hm hval2
    obtain ⟨hlt2, hgm⟩ := List.get?_eq_some.mp hm
    have hpw := parseFields_apart d fields 0 false [.deref] v _ flags σ hp
    rw [List.pairwise_iff_get] at hpw
    rw [hσ2]
    apply Diverge.get_set
    rcases Nat.lt_or_gt_of_ne hmn with hlt3 | hlt3
    · have := hpw ⟨m, hlt2⟩ ⟨n, hlt⟩ hlt3
      rw [hgm, hgn] at this
      exact Diverge.symm _ _ (this val2 val hval2 hval)
    · have := hpw ⟨n, hlt⟩ ⟨m, hlt2⟩ hlt3
      rw [hgm, hgn] at this
      exact this val val2 hval hval2

/-- C17 on the configuration of `TestParseStruct_NilValue`: `Set("name1value")` on the
first descriptor is read back behind the pointer `Name1` that `ParseStruct` allocated, and
`Name2` and `Regexp` are as before. -/
theorem set_aliases_field_witness :
    (∃ σ1, some (GoType.ptr "" (.struct "" nilCfgFields), nilCfgAfter) =
        some (.ptr "" (.struct "" nilCfgFields), σ1) ∧
      ∀ n g val s σ2, nilCfgFlags.get? n = some g → g.Value = some val →
        val.Set testSet s σ1 = .ok (none, σ2) →
        (∃ k, [.deref, .field k] <+: val.path) ∧
        (∃ x, val.content testSet σ1 s = .ok x ∧ σ2.get val.path = x) ∧
        ∀ m g2 val2, m ≠ n → nilCfgFlags.get? m = some g2 → g2.Value = some val2 →
          σ2.get val2.path = σ1.get val2.path) ∧
    stateAfterSet testSet (ParseStruct testPkg
      (some (.ptr "" (.struct "" nilCfgFields), nilCfgValue)) []) 0 "name1value" =
      some (.ptrTo (.struct [.ptrTo (.data "name1value"), .ptrTo (.data "name2_value"),
        .ptrTo (.struct [])])) :=
  ⟨set_aliases_field testPkg testSet "" "" nilCfgFields nilCfgValue [] nilCfgFlags none
      (some (.ptr "" (.struct "" nilCfgFields), nilCfgAfter)) rfl rfl,
    rfl⟩

/-! ## Allocation of nil pointers and maps -/

theorem addrValue_isSome (d : Pkg) (typ : GoType) (ro : Bool) (p q : List Step) :
    (addrValue d typ ro p).isSome = (addrValue d typ ro q).isSome := by
  unfold addrValue
  split
  · rfl
  · split
    · rfl
    · split <;> rfl

theorem addrValue_none (d : Pkg) (typ : GoType) (ro : Bool) (p q : List Step)
    (h : addrValue d typ ro p = none) : addrValue d typ ro q = none := by
  have := addrValue_isSome d typ ro p q
  rw [h] at this
  cases hq : addrValue d typ ro q with
  | none => rfl
  | some v => rw [hq] at this; cases this

/-- One iteration of the loop of `parseStruct` on a typed struct: the field it looks at, and
the struct after it. -/
theorem parseField_typed (d : Pkg) (field : StructField) (typ : GoType) (ro : Bool)
    (path : List Step) (σ : GoValue) (opt : opts) (own : List Flag) (σ2 : GoValue)
    (pre : List GoValue) (v : GoValue) (suf0 : List GoValue)
    (hr : σ.resolves path = true) (hg : σ.get path = .struct (pre ++ v :: suf0))
    (hv : typ.holds v = true)
    (hown : parseField d field typ pre.length ro path σ opt = .ok (own, σ2)) :
    σ.resolves (path ++ [.field pre.length]) = true ∧
    σ.get (path ++ [.field pre.length]) = v ∧
    σ2.resolves path = true ∧
    σ2.get path = .struct ((pre ++ [σ2.get (path ++ [.field pre.length])]) ++ suf0) ∧
    typ.holds (σ2.get (path ++ [.field pre.length])) = true := by
  have r1 : σ.resolves (path ++ [.field pre.length]) = true := by
    rw [GoValue.resolves_append, hr, hg, struct_resolves_at]
    simp [GoValue.resolves]
  have g1 : σ.get (path ++ [.field pre.length]) = v := by
    rw [GoValue.get_append, hg, struct_get_at]
  obtain ⟨⟨x0, hx0⟩, _⟩ := parseField_facts d _ _ _ _ _ _ _ _ _ hown
  have hx : σ2.get (path ++ [.field pre.length]) = x0 := by
    rw [hx0]
    exact GoValue.get_set_resolves _ σ x0 r1
  refine ⟨r1, g1, ?_, ?_, ?_⟩
  · rw [hx0, GoValue.set_append]
    exact GoValue.resolves_set_self path σ _ hr
  · rw [hx]
    rw [hx0, GoValue.set_append, GoValue.get_set_resolves path σ _ hr, hg, struct_set_at]
    simp
  · rcases parseField_cases d _ _ _ _ _ _ _ _ _ hown with
      ⟨_, hs⟩ | ⟨flag, nested, val, _, hp, _⟩ | ⟨flag, _, hp⟩
    · rw [hs, g1]
      exact hv
    · exact (parseVal_typed d typ _ _ _ _ nested (some val) σ2 r1 (by rw [g1]; exact hv) hp).2.1
    · exact (parseVal_typed d typ _ _ _ _ own none σ2 r1 (by rw [g1]; exact hv) hp).2.1

mutual
theorem parseVal_allocated (d : Pkg) :
    ∀ (typ : GoType) (ro : Bool) (path : List Step) (σ : GoValue) (optFuncs : List OptFunc)
      (nested : List Flag) (val : Option Value) (σ1 : GoValue),
      σ.resolves path = true → typ.holds (σ.get path) = true →
      parseVal d typ ro path σ optFuncs = .ok (nested, val, σ1) →
      typ.allocated d ro optFuncs (σ1.get path) = true
  | .other name kind, ro, path, σ, optFuncs, nested, val, σ1, hr, ht, h => by
    simp [GoType.allocated]
  | .map name key elem, ro, path, σ, optFuncs, nested, val, σ1, hr, ht, h => by
    cases ha : addrValue d (.map name key elem) ro path with
    | some v =>
      have := addrValue_isSome d (.map name key elem) ro [] path
      rw [ha] at this
      simp [GoType.allocated, this]
    | none =>
      rcases parseVal_map_none d name key elem path σ optFuncs ro ha _ h with
        ⟨hk, _⟩ | ⟨_, _, hres⟩
      · simp [GoType.allocated, hk]
      · injection hres with h1 h2
        injection h2 with h3 h4
        rw [h4]
        simp [GoType.allocated, allocMap_not_nil σ path]
  | .ptr name elem, ro, path, σ, optFuncs, nested, val, σ1, hr, ht, h => by
    cases ha : addrValue d (.ptr name elem) ro path with
    | some v =>
      have := addrValue_isSome d (.ptr name elem) ro [] path
      rw [ha] at this
      simp [GoType.allocated, this]
    | none =>
      obtain ⟨a1, t, a2, a3⟩ := allocPtr_facts name elem path σ hr ht
      rcases parseVal_ptr_none d name elem path σ optFuncs ro ha _ h with
        ⟨_, ⟨hg, hres⟩ | ⟨_, hrec⟩⟩
      · injection hres with h1 h2
        injection h2 with h3 h4
        rw [h4]
        simp [GoType.allocated, allocPtr_not_nil σ path elem, hg]
      · rename_i hro _
        subst hro
        have b1 : (allocPtr σ path elem).resolves (path ++ [.deref]) = true := by
          rw [GoValue.resolves_append, a1, a2]
          simp [GoValue.resolves]
        have b2 : elem.holds ((allocPtr σ path elem).get (path ++ [.deref])) = true := by
          rw [GoValue.get_append, a2]
          simpa [GoValue.get] using a3
        have c0 := parseVal_allocated d elem false _ _ optFuncs nested val σ1 b1 b2 hrec
        obtain ⟨c1, _, _, _⟩ :=
          parseVal_typed d elem false _ _ optFuncs nested val σ1 b1 b2 hrec
        rw [GoValue.resolves_append, Bool.and_eq_true] at c1
        rw [GoValue.get_append] at c0
        have hn : (σ1.get path).IsNil = false := by
          rw [ptr_of_resolves_deref _ c1.2]
          rfl
        simp [GoType.allocated, hn, c0]
  | .struct name fields, ro, path, σ, optFuncs, nested, val, σ1, hr, ht, h => by
    cases ha : addrValue d (.struct name fields) ro path with
    | some v =>
      have := addrValue_isSome d (.struct name fields) ro [] path
      rw [ha] at this
      simp [GoType.allocated, this]
    | none =>
      obtain ⟨flags, σ2, hp, hres⟩ :=
        parseVal_struct_none d name fields path σ optFuncs ro ha _ h
      injection hres with h1 h2
      injection h2 with h3 h4
      subst h1 h3 h4
      obtain ⟨vs, hvs, hh⟩ := struct_content name fields _ ht
      obtain ⟨suf1, e1, e2⟩ :=
        parseFields_allocated d fields 0 ro path σ _ nested σ1 [] vs hr hvs rfl hh hp
      rw [e1]
      simp [GoType.allocated, e2]
theorem parseFields_allocated (d : Pkg) :
    ∀ (fields : FieldList) (i : Nat) (ro : Bool) (path : List Step) (σ : GoValue)
      (opt : opts) (flags : List Flag) (σ1 : GoValue) (pre suf : List GoValue),
      σ.resolves path = true → σ.get path = .struct (pre ++ suf) → pre.length = i →
      fields.hold suf = true →
      parseFields d fields i ro path σ opt [] = .ok (flags, σ1) →
      ∃ suf1, σ1.get path = .struct (pre ++ suf1) ∧ fields.allocated d opt suf1 = true
  | .nil, i, ro, path, σ, opt, flags, σ1, pre, suf, hr, hg, hl, hh, h => by
    rw [parseFields] at h
    injection h with h
    injection h with h1 h2
    subst h1 h2
    exact ⟨suf, hg, by simp [FieldList.allocated]⟩
  | .cons field typ rest, i, ro, path, σ, opt, flags, σ1, pre, suf, hr, hg, hl, hh, h => by
    obtain ⟨own, σ2, more, hown, hmore, rfl⟩ := parseFields_cons_ok d _ _ _ _ _ _ _ _ _ _ h
    cases suf with
    | nil => simp [FieldList.hold] at hh
    | cons v suf0 =>
      simp only [FieldList.hold, Bool.and_eq_true] at hh
      subst hl
      obtain ⟨r1, g1, hr2, hσ2, ht2⟩ :=
        parseField_typed d field typ ro path σ opt own σ2 pre v suf0 hr hg hh.1 hown
      obtain ⟨suf1, e1, e2⟩ :=
        parseFields_allocated d rest (pre.length + 1) ro path σ2 opt more σ1
          (pre ++ [σ2.get (path ++ [.field pre.length])]) suf0 hr2 hσ2 (by simp) hh.2 hmore
      refine ⟨σ2.get (path ++ [.field pre.length]) :: suf1, by rw [e1]; simp, ?_⟩
      simp only [FieldList.allocated, Bool.and_eq_true]
      refine ⟨?_, e2⟩
      by_cases he : field.PkgPath ≠ "" ∧ field.Anonymous = false
      · rw [if_pos he]
      · rw [if_neg he]
        cases hf : parseFlagTag d field opt with
        | none => rfl
        | some flag =>
          simp only
          unfold parseField at hown
          rw [if_neg he, hf] at hown
          simp only at hown
          cases hv : parseVal d typ (decide (field.PkgPath ≠ "")) (path ++ [.field pre.length])
              σ (nestedOptFuncs opt field (draftFlag d field opt flag)) with
          | error p => rw [hv] at hown; cases hown
          | ok q =>
            obtain ⟨nested, val, σ3⟩ := q
            have hσ3 : σ3 = σ2 := by
              rw [hv] at hown
              cases val with
              | some val =>
                simp only at hown
                injection hown with hown
                injection hown with _ h2
              | none =>
                simp only at hown
                injection hown with hown
                injection hown with _ h2
            subst hσ3
            exact parseVal_allocated d typ _ _ σ _ nested val σ3 r1
              (by rw [g1]; exact hh.1) hv
end

/-- C14, counterexample: in `struct{ Skipped *string; hidden *string; M map[bool]string }`,
with `Skipped` tagged as not a flag, `ParseStruct` succeeds, returns no descriptor and
leaves the two nil pointers and the nil map nil. -/
theorem nil_fields_left_nil :
    ParseStruct testPkg
      (some (.ptr "" (.struct "" leftNilFields), .ptrTo (.struct [.nilPtr, .nilPtr, .nilMap])))
      [] =
    .ok ((some [], none),
      some (.ptr "" (.struct "" leftNilFields),
        .ptrTo (.struct [.nilPtr, .nilPtr, .nilMap]))) := by
  rfl

/-- C14, amended: after a successful `ParseStruct` on a typed configuration, every pointer,
and every map with an allowed key kind, that the walk reaches is not nil, at every depth;
the walk reaches the fields that are exported or embedded and not suppressed by their flag
tag, in the struct behind the configuration pointer and in every struct it recurses into,
and it stops at a field for whose address a handle is found. Where `parseVal` meets a nil
pointer it continues on the state in which the pointer points to the zero value of the
element type, and where it meets a nil map with an allowed key kind it leaves an empty
map. -/
theorem visited_fields_allocated (d : Pkg) (name sname : String) (fields : FieldList)
    (v : GoValue) (optFuncs : List OptFunc) (flags : List Flag) (err : Option String)
    (cfg1 : Interface)
    (hty : (GoType.ptr name (.struct sname fields)).holds v = true)
    (h : ParseStruct d (some (.ptr name (.struct sname fields), v)) optFuncs =
      .ok ((some flags, err), cfg1)) :
    (∃ σ1, cfg1 = some (.ptr name (.struct sname fields), σ1) ∧ σ1.IsNil = false ∧
      fields.allocated d (defOpts.apply optFuncs)
        (match σ1.get [.deref] with
          | .struct vs => vs
          | _ => []) = true) ∧
    (∀ pname elem path σ funcs, addrValue d (.ptr pname elem) false path = none →
      (σ.get path).IsNil = true →
      parseVal d (.ptr pname elem) false path σ funcs =
        if d.parseGeneratedPtrs (.ptr pname elem) then
          .ok ([], some (.bound .generatedPtrs (.ptr pname elem) path),
            σ.set path (.ptrTo (zeroValue elem)))
        else parseVal d elem false (path ++ [.deref]) (σ.set path (.ptrTo (zeroValue elem)))
          funcs) ∧
    (∀ mname key elem path σ funcs, addrValue d (.map mname key elem) false path = none →
      anyOf d.MapAllowedKinds key.Kind = true → (σ.get path).IsNil = true →
      ∃ val, parseVal d (.map mname key elem) false path σ funcs =
        .ok ([], val, σ.set path (.mapOf []))) := by
  refine ⟨?_, ?_, ?_⟩
  · obtain ⟨σ, hp, hn⟩ := parseFields_of_ParseStruct d name sname fields v optFuncs
      flags err cfg1 h
    obtain ⟨_, hc, hn⟩ := hn
    obtain ⟨t, ht, hs⟩ := ptr_content name _ v hty hn
    obtain ⟨vs, hvs, hh⟩ := struct_content sname fields t hs
    subst ht hvs
    obtain ⟨suf1, e1, e2⟩ := parseFields_allocated d fields 0 false [.deref]
      (.ptrTo (.struct vs)) _ flags σ [] vs rfl rfl rfl hh hp
    obtain ⟨σ2, h1, _, h3, _, h5, _⟩ := ParseStruct_typed d name sname fields _ optFuncs
      flags err cfg1 hty h
    rw [hp] at h1
    injection h1 with h1
    injection h1 with _ h1
    subst h1
    refine ⟨σ, hc, h5, ?_⟩
    rw [e1]
    exact e2
  · intro pname elem path σ funcs ha hn
    rw [parseVal_ptr_eq d pname elem path σ funcs ha]
    unfold allocPtr
    rw [if_pos hn]
  · intro mname key elem path σ funcs ha hk hn
    rw [parseVal_map_eq d mname key elem path σ funcs ha hk, if_pos hn]
    exact ⟨_, rfl⟩

/-- C14 as amended, on the configuration of `TestParseStruct_NilValue` nested behind a nil
pointer `Sub`: after `ParseStruct` the pointer `Sub` and, in the struct behind it, the
pointers `Name1` and `Regexp` are allocated. -/
theorem visited_fields_allocated_witness :
    (∃ σ1, some (GoType.ptr "" (.struct "" nilSubFields),
          GoValue.ptrTo (.struct [nilSubAfter])) =
        some (.ptr "" (.struct "" nilSubFields), σ1) ∧ σ1.IsNil = false ∧
      nilSubFields.allocated testPkg (defOpts.apply [])
        (match σ1.get [.deref] with
          | .struct vs => vs
          | _ => []) = true) ∧
    namesOf (ParseStruct testPkg
      (some (.ptr "" (.struct "" nilSubFields), .ptrTo (.struct [.nilPtr]))) []) =
      ["sub-name1", "sub-name2", "sub-regexp"] :=
  ⟨(visited_fields_allocated testPkg "" "" nilSubFields (.ptrTo (.struct [.nilPtr])) []
      _ none (some (.ptr "" (.struct "" nilSubFields), .ptrTo (.struct [nilSubAfter])))
      rfl rfl).1,
    rfl⟩

/-! ## The walk seen from another place, and fields that contribute nothing -/

theorem addrValue_reloc (d : Pkg) (typ : GoType) (ro : Bool) (p : List Step) (v : Value)
    (h : addrValue d typ ro p = some v) :
    ∃ source, v = .bound source typ p ∧
      ∀ q, addrValue d typ ro q = some (.bound source typ q) := by
  unfold addrValue at h ⊢
  split at h
  · cases h
  · rename_i hro
    split at h
    · rename_i hg
      injection h with h
      exact ⟨.generated, h.symm, fun q => by rw [if_neg hro, if_pos hg]⟩
    · rename_i hg
      split at h
      · rename_i hi
        injection h with h
        exact ⟨.implemented, h.symm, fun q => by rw [if_neg hro, if_neg hg, if_pos hi]⟩
      · cases h

theorem parseVal_ptr_ro (d : Pkg) (name : String) (elem : GoType) (path : List Step)
    (σ : GoValue) (optFuncs : List OptFunc)
    (ha : addrValue d (.ptr name elem) true path = none) :
    parseVal d (.ptr name elem) true path σ optFuncs =
      .error (if (σ.get path).IsNil then .setUnexported else .interfaceUnexported) := by
  rw [parseVal, ha]
  cases (σ.get path).IsNil <;> simp

theorem parseVal_map_ro (d : Pkg) (name : String) (key elem : GoType) (path : List Step)
    (σ : GoValue) (optFuncs : List OptFunc)
    (ha : addrValue d (.map name key elem) true path = none)
    (hk : anyOf d.MapAllowedKinds key.Kind = true) :
    parseVal d (.map name key elem) true path σ optFuncs =
      .error (if (σ.get path).IsNil then .setUnexported else .interfaceUnexported) := by
  rw [parseVal, ha]
  cases (σ.get path).IsNil <;> simp [hk]

theorem allocPtr_get (σ : GoValue) (path : List Step) (elem : GoType)
    (hr : σ.resolves path = true) :
    (allocPtr σ path elem).get path =
      if (σ.get path).IsNil then .ptrTo (zeroValue elem) else σ.get path := by
  unfold allocPtr
  cases hn : (σ.get path).IsNil
  · simp
  · simp only [if_true]
    exact GoValue.get_set_resolves path σ _ hr

theorem allocPtr_resolves (σ : GoValue) (path : List Step) (elem : GoType)
    (hr : σ.resolves path = true) : (allocPtr σ path elem).resolves path = true := by
  unfold allocPtr
  split
  · exact GoValue.resolves_set_self path σ _ hr
  · exact hr

theorem allocMap_get (σ : GoValue) (path : List Step) (hr : σ.resolves path = true) :
    (if (σ.get path).IsNil then σ.set path (.mapOf []) else σ).get path =
      if (σ.get path).IsNil then .mapOf [] else σ.get path := by
  cases hn : (σ.get path).IsNil
  · simp
  · simp only [if_true]
    exact GoValue.get_set_resolves path σ _ hr

theorem Value.unbound_wrapValue (opt : opts) (field : StructField) (ro : Bool)
    (p q : List Step) (v w : Value) (h : v.unbound = w.unbound) :
    (wrapValue opt field ro p v).unbound = (wrapValue opt field ro q w).unbound := by
  unfold wrapValue
  cases opt.validator with
  | none => exact h
  | some f => simp [Value.unbound, h]

theorem Value.render_unbound (d : Pkg) (x : GoValue) : ∀ (v : Value),
    v.unbound.render d x = v.render d x
  | .bound _ _ _ => rfl
  | .validateValue inner _ _ _ _ => by
    simp only [Value.unbound, Value.render]
    exact Value.render_unbound d x inner

theorem Value.String_reloc (d : Pkg) (σ τ : GoValue) (v w : Value)
    (h : v.unbound = w.unbound) (hc : σ.get v.path = τ.get w.path) :
    v.String d σ = w.String d τ := by
  rw [Value.String_eq_render, Value.String_eq_render, ← Value.render_unbound d _ v,
    ← Value.render_unbound d _ w, h, hc]

theorem parseFields_cons_nil (d : Pkg) (field : StructField) (typ : GoType)
    (rest : FieldList) (i : Nat) (ro : Bool) (path : List Step) (σ : GoValue) (opt : opts) :
    parseFields d (.cons field typ rest) i ro path σ opt [] =
      match parseField d field typ i ro path σ opt with
      | .error p => .error p
      | .ok (own, σ2) =>
        match parseFields d rest (i + 1) ro path σ2 opt [] with
        | .error p => .error p
        | .ok (more, σ1) => .ok (own ++ more, σ1) := by
  rw [parseFields_cons]
  cases parseField d field typ i ro path σ opt with
  | error p => rfl
  | ok r =>
    obtain ⟨own, σ2⟩ := r
    have hacc := parseFields_acc d rest (i + 1) ro path σ2 opt own
    simp only [List.nil_append]
    cases hq : parseFields d rest (i + 1) ro path σ2 opt [] with
    | error p =>
      rw [hq] at hacc
      exact hacc
    | ok r2 =>
      rw [hq] at hacc
      exact hacc

theorem drop_at_length (pre suf : List GoValue) : (pre ++ suf).drop pre.length = suf := by
  simp

theorem parseField_reloc (d : Pkg) (field : StructField) (typ : GoType) (i k : Nat)
    (ro : Bool) (p q : List Step) (σ τ : GoValue) (opt : opts)
    (hval : ∀ flag, parseFlagTag d field opt = some flag →
      normVal (p ++ [.field i]) (parseVal d typ (decide (field.PkgPath ≠ ""))
          (p ++ [.field i]) σ (nestedOptFuncs opt field (draftFlag d field opt flag))) =
        normVal (q ++ [.field k]) (parseVal d typ (decide (field.PkgPath ≠ ""))
          (q ++ [.field k]) τ (nestedOptFuncs opt field (draftFlag d field opt flag))))
    (hc : σ.get (p ++ [.field i]) = τ.get (q ++ [.field k])) :
    normField p i (parseField d field typ i ro p σ opt) =
      normField q k (parseField d field typ k ro q τ opt) := by
  unfold parseField
  by_cases he : field.PkgPath ≠ "" ∧ field.Anonymous = false
  · rw [if_pos he, if_pos he]
    simp [normField, hc]
  · rw [if_neg he, if_neg he]
    cases hf : parseFlagTag d field opt with
    | none => simp [normField, hc]
    | some flag =>
      have h := hval flag hf
      simp only
      cases hA : parseVal d typ (decide (field.PkgPath ≠ "")) (p ++ [.field i]) σ
          (nestedOptFuncs opt field (draftFlag d field opt flag)) with
      | error e1 =>
        cases hB : parseVal d typ (decide (field.PkgPath ≠ "")) (q ++ [.field k]) τ
            (nestedOptFuncs opt field (draftFlag d field opt flag)) with
        | error e2 =>
          rw [hA, hB] at h
          simp only [normVal, Except.error.injEq] at h
          simp [normField, h]
        | ok r2 =>
          rw [hA, hB] at h
          obtain ⟨n2, v2, σ2⟩ := r2
          simp [normVal] at h
      | ok r1 =>
        obtain ⟨n1, v1, σ1⟩ := r1
        cases hB : parseVal d typ (decide (field.PkgPath ≠ "")) (q ++ [.field k]) τ
            (nestedOptFuncs opt field (draftFlag d field opt flag)) with
        | error e2 =>
          rw [hA, hB] at h
          simp [normVal] at h
        | ok r2 =>
          obtain ⟨n2, v2, σ2⟩ := r2
          rw [hA, hB] at h
          simp only [normVal, Except.ok.injEq, Prod.mk.injEq] at h
          obtain ⟨h1, h2, h3⟩ := h
          cases v1 with
          | none =>
            cases v2 with
            | none => simp [normField, h1, h3]
            | some w2 => simp at h2
          | some w1 =>
            cases v2 with
            | none => simp at h2
            | some w2 =>
              simp only [Option.map_some', Option.some.injEq, Prod.mk.injEq] at h2
              have hu := Value.unbound_wrapValue opt field ro p q w1 w2 h2.1
              have hs : (wrapValue opt field ro p w1).String d σ1 =
                  (wrapValue opt field ro q w2).String d σ2 := by
                apply Value.String_reloc d σ1 σ2 _ _ hu
                rw [wrapValue_path, wrapValue_path]
                exact h2.2
              simp [normField, Flag.unbound, hu, hs, h3]

mutual
theorem parseVal_reloc (d : Pkg) :
    ∀ (typ : GoType) (ro : Bool) (p q : List Step) (σ τ : GoValue) (optFuncs : List OptFunc),
      σ.resolves p = true → τ.resolves q = true → typ.holds (σ.get p) = true →
      σ.get p = τ.get q →
      normVal p (parseVal d typ ro p σ optFuncs) = normVal q (parseVal d typ ro q τ optFuncs)
  | .other name kind, ro, p, q, σ, τ, optFuncs, hr, hr2, ht, hc => by
    cases ha : addrValue d (.other name kind) ro p with
    | some v =>
      obtain ⟨source, rfl, hq⟩ := addrValue_reloc d _ ro p v ha
      rw [parseVal_addr d _ ro p σ optFuncs _ ha, parseVal_addr d _ ro q τ optFuncs _ (hq q)]
      simp [normVal, Value.unbound, Value.path, hc]
    | none =>
      rw [parseVal_other_none d name kind p σ optFuncs ro ha,
        parseVal_other_none d name kind q τ optFuncs ro (addrValue_none d _ ro p q ha)]
      simp [normVal, hc]
  | .map name key elem, ro, p, q, σ, τ, optFuncs, hr, hr2, ht, hc => by
    cases ha : addrValue d (.map name key elem) ro p with
    | some v =>
      obtain ⟨source, rfl, hq⟩ := addrValue_reloc d _ ro p v ha
      rw [parseVal_addr d _ ro p σ optFuncs _ ha, parseVal_addr d _ ro q τ optFuncs _ (hq q)]
      simp [normVal, Value.unbound, Value.path, hc]
    | none =>
      have ha2 := addrValue_none d _ ro p q ha
      cases hk : anyOf d.MapAllowedKinds key.Kind with
      | false =>
        rw [parseVal_map_skip d name key elem p σ optFuncs ro ha hk,
          parseVal_map_skip d name key elem q τ optFuncs ro ha2 hk]
        simp [normVal, hc]
      | true =>
        cases ro with
        | true =>
          rw [parseVal_map_ro d name key elem p σ optFuncs ha hk,
            parseVal_map_ro d name key elem q τ optFuncs ha2 hk, hc]
          rfl
        | false =>
          rw [parseVal_map_eq d name key elem p σ optFuncs ha hk,
            parseVal_map_eq d name key elem q τ optFuncs ha2 hk]
          have e3 : (if (σ.get p).IsNil then σ.set p (.mapOf []) else σ).get p =
              (if (τ.get q).IsNil then τ.set q (.mapOf []) else τ).get q := by
            rw [allocMap_get σ p hr, allocMap_get τ q hr2, hc]
          cases hg : d.parseGeneratedMap (.map name key elem) <;>
            simp [normVal, Value.unbound, Value.path, e3]
  | .ptr name elem, ro, p, q, σ, τ, optFuncs, hr, hr2, ht, hc => by
    cases ha : addrValue d (.ptr name elem) ro p with
    | some v =>
      obtain ⟨source, rfl, hq⟩ := addrValue_reloc d _ ro p v ha
      rw [parseVal_addr d _ ro p σ optFuncs _ ha, parseVal_addr d _ ro q τ optFuncs _ (hq q)]
      simp [normVal, Value.unbound, Value.path, hc]
    | none =>
      have ha2 := addrValue_none d _ ro p q ha
      cases ro with
      | true =>
        rw [parseVal_ptr_ro d name elem p σ optFuncs ha,
          parseVal_ptr_ro d name elem q τ optFuncs ha2, hc]
        rfl
      | false =>
        rw [parseVal_ptr_eq d name elem p σ optFuncs ha,
          parseVal_ptr_eq d name elem q τ optFuncs ha2]
        have e1 := allocPtr_get σ p elem hr
        have e2 := allocPtr_get τ q elem hr2
        rw [← hc] at e2
        have e3 : (allocPtr σ p elem).get p = (allocPtr τ q elem).get q := by rw [e1, e2]
        cases hg : d.parseGeneratedPtrs (.ptr name elem) with
        | true =>
          simp [normVal, Value.unbound, Value.path, e3]
        | false =>
          simp only [Bool.false_eq_true, if_false]
          obtain ⟨a1, t, a2, a3⟩ := allocPtr_facts name elem p σ hr ht
          have ht2 : (GoType.ptr name elem).holds (τ.get q) = true := by rw [← hc]; exact ht
          obtain ⟨b1, t2, b2, _⟩ := allocPtr_facts name elem q τ hr2 ht2
          have c1 : (allocPtr σ p elem).resolves (p ++ [.deref]) = true := by
            rw [GoValue.resolves_append, a1, a2]
            simp [GoValue.resolves]
          have c2 : (allocPtr τ q elem).resolves (q ++ [.deref]) = true := by
            rw [GoValue.resolves_append, b1, b2]
            simp [GoValue.resolves]
          have c3 : elem.holds ((allocPtr σ p elem).get (p ++ [.deref])) = true := by
            rw [GoValue.get_append, a2]
            simpa [GoValue.get] using a3
          have c4 : (allocPtr σ p elem).get (p ++ [.deref]) =
              (allocPtr τ q elem).get (q ++ [.deref]) := by
            rw [GoValue.get_append, GoValue.get_append, e3]
          have c5 : elem.holds ((allocPtr τ q elem).get (q ++ [.deref])) = true := by
            rw [← c4]; exact c3
          have ih := parseVal_reloc d elem false (p ++ [.deref]) (q ++ [.deref])
            (allocPtr σ p elem) (allocPtr τ q elem) optFuncs c1 c2 c3 c4
          cases hA : parseVal d elem false (p ++ [.deref]) (allocPtr σ p elem) optFuncs with
          | error e =>
            cases hB : parseVal d elem false (q ++ [.deref]) (allocPtr τ q elem) optFuncs with
            | error e2 =>
              rw [hA, hB] at ih
              exact ih
            | ok r2 =>
              rw [hA, hB] at ih
              obtain ⟨n2, v2, σ2⟩ := r2
              simp [normVal] at ih
          | ok r1 =>
            obtain ⟨n1, v1, σ1⟩ := r1
            cases hB : parseVal d elem false (q ++ [.deref]) (allocPtr τ q elem) optFuncs with
            | error e2 =>
              rw [hA, hB] at ih
              simp [normVal] at ih
            | ok r2 =>
              obtain ⟨n2, v2, σ2⟩ := r2
              rw [hA, hB] at ih
              simp only [normVal, Except.ok.injEq, Prod.mk.injEq] at ih ⊢
              obtain ⟨d1, _, _, _⟩ := parseVal_typed d elem false _ _ optFuncs n1 v1 σ1 c1 c3 hA
              obtain ⟨d2, _, _, _⟩ := parseVal_typed d elem false _ _ optFuncs n2 v2 σ2 c2 c5 hB
              rw [GoValue.resolves_append, Bool.and_eq_true] at d1 d2
              refine ⟨ih.1, ih.2.1, ?_⟩
              rw [ptr_of_resolves_deref _ d1.2, ptr_of_resolves_deref _ d2.2,
                ← GoValue.get_append, ← GoValue.get_append, ih.2.2]
  | .struct name fields, ro, p, q, σ, τ, optFuncs, hr, hr2, ht, hc => by
    cases ha : addrValue d (.struct name fields) ro p with
    | some v =>
      obtain ⟨source, rfl, hq⟩ := addrValue_reloc d _ ro p v ha
      rw [parseVal_addr d _ ro p σ optFuncs _ ha, parseVal_addr d _ ro q τ optFuncs _ (hq q)]
      simp [normVal, Value.unbound, Value.path, hc]
    | none =>
      have ha2 := addrValue_none d _ ro p q ha
      rw [parseVal_struct_eq d name fields p σ optFuncs ro ha,
        parseVal_struct_eq d name fields q τ optFuncs ro ha2]
      obtain ⟨vs, hvs, hh⟩ := struct_content name fields _ ht
      have hvs2 : τ.get q = .struct ([] ++ vs) := by rw [← hc]; exact hvs
      have ih := parseFields_reloc d fields 0 0 ro p q σ τ (defOpts.apply optFuncs) [] [] vs
        hr hr2 hvs hvs2 rfl rfl hh
      cases hA : parseFields d fields 0 ro p σ (defOpts.apply optFuncs) [] with
      | error e =>
        cases hB : parseFields d fields 0 ro q τ (defOpts.apply optFuncs) [] with
        | error e2 =>
          rw [hA, hB] at ih
          simp only [normFields, Except.error.injEq] at ih
          simp [normVal, ih]
        | ok r2 =>
          rw [hA, hB] at ih
          obtain ⟨f2, σ2⟩ := r2
          simp [normFields] at ih
      | ok r1 =>
        obtain ⟨f1, σ1⟩ := r1
        cases hB : parseFields d fields 0 ro q τ (defOpts.apply optFuncs) [] with
        | error e2 =>
          rw [hA, hB] at ih
          simp [normFields] at ih
        | ok r2 =>
          obtain ⟨f2, σ2⟩ := r2
          rw [hA, hB] at ih
          obtain ⟨s1, g1, _, _, _⟩ := parseFields_typed d fields 0 ro p σ _ f1 σ1 [] vs
            hr hvs rfl hh hA
          obtain ⟨s2, g2, _, _, _⟩ := parseFields_typed d fields 0 ro q τ _ f2 σ2 [] vs
            hr2 hvs2 rfl hh hB
          simp only [normFields, g1, g2, List.nil_append, List.drop_zero, Except.ok.injEq,
            Prod.mk.injEq] at ih
          simp [normVal, ih.1, g1, g2, ih.2]
theorem parseFields_reloc (d : Pkg) :
    ∀ (fields : FieldList) (i k : Nat) (ro : Bool) (p q : List Step) (σ τ : GoValue)
      (opt : opts) (pre pre2 suf : List GoValue),
      σ.resolves p = true → τ.resolves q = true →
      σ.get p = .struct (pre ++ suf) → τ.get q = .struct (pre2 ++ suf) →
      pre.length = i → pre2.length = k → fields.hold suf = true →
      normFields p i (parseFields d fields i ro p σ opt []) =
        normFields q k (parseFields d fields k ro q τ opt [])
  | .nil, i, k, ro, p, q, σ, τ, opt, pre, pre2, suf, hr, hr2, hg, hg2, hl, hl2, hh => by
    rw [parseFields, parseFields]
    subst hl hl2
    simp [normFields, hg, hg2]
  | .cons field typ rest, i, k, ro, p, q, σ, τ, opt, pre, pre2, suf, hr, hr2, hg, hg2,
      hl, hl2, hh => by
    cases suf with
    | nil => simp [FieldList.hold] at hh
    | cons v suf0 =>
      simp only [FieldList.hold, Bool.and_eq_true] at hh
      subst hl hl2
      have r1 : σ.resolves (p ++ [.field pre.length]) = true := by
        rw [GoValue.resolves_append, hr, hg, struct_resolves_at]
        simp [GoValue.resolves]
      have r2 : τ.resolves (q ++ [.field pre2.length]) = true := by
        rw [GoValue.resolves_append, hr2, hg2, struct_resolves_at]
        simp [GoValue.resolves]
      have g1 : σ.get (p ++ [.field pre.length]) = v := by
        rw [GoValue.get_append, hg, struct_get_at]
      have g2 : τ.get (q ++ [.field pre2.length]) = v := by
        rw [GoValue.get_append, hg2, struct_get_at]
      have hfield := parseField_reloc d field typ pre.length pre2.length ro p q σ τ opt
        (fun flag _ => parseVal_reloc d typ _ _ _ σ τ _ r1 r2 (by rw [g1]; exact hh.1)
          (by rw [g1, g2]))
        (by rw [g1, g2])
      rw [parseFields_cons_nil, parseFields_cons_nil]
      cases hA : parseField d field typ pre.length ro p σ opt with
      | error e =>
        cases hB : parseField d field typ pre2.length ro q τ opt with
        | error e2 =>
          rw [hA, hB] at hfield
          simp only [normField, Except.error.injEq] at hfield
          simp [normFields, hfield]
        | ok r2 =>
          rw [hA, hB] at hfield
          obtain ⟨o2, σ2⟩ := r2
          simp [normField] at hfield
      | ok r1 =>
        obtain ⟨o1, σ1⟩ := r1
        cases hB : parseField d field typ pre2.length ro q τ opt with
        | error e2 =>
          rw [hA, hB] at hfield
          simp [normField] at hfield
        | ok r2 =>
          obtain ⟨o2, σ2⟩ := r2
          rw [hA, hB] at hfield
          simp only [normField, Except.ok.injEq, Prod.mk.injEq] at hfield
          obtain ⟨_, _, s1, s2, _⟩ :=
            parseField_typed d field typ ro p σ opt o1 σ1 pre v suf0 hr hg hh.1 hA
          obtain ⟨_, _, t1, t2, _⟩ :=
            parseField_typed d field typ ro q τ opt o2 σ2 pre2 v suf0 hr2 hg2 hh.1 hB
          rw [← hfield.2] at t2
          have ih := parseFields_reloc d rest (pre.length + 1) (pre2.length + 1) ro p q σ1 σ2
            opt (pre ++ [σ1.get (p ++ [.field pre.length])])
            (pre2 ++ [σ1.get (p ++ [.field pre.length])]) suf0 s1 t1 s2 t2
            (by simp) (by simp) hh.2
          simp only
          cases hC : parseFields d rest (pre.length + 1) ro p σ1 opt [] with
          | error e =>
            cases hD : parseFields d rest (pre2.length + 1) ro q σ2 opt [] with
            | error e2 =>
              rw [hC, hD] at ih
              simp only [normFields, Except.error.injEq] at ih
              simp [normFields, ih]
            | ok r4 =>
              rw [hC, hD] at ih
              obtain ⟨m2, σ4⟩ := r4
              simp [normFields] at ih
          | ok r3 =>
            obtain ⟨m1, σ3⟩ := r3
            cases hD : parseFields d rest (pre2.length + 1) ro q σ2 opt [] with
            | error e2 =>
              rw [hC, hD] at ih
              simp [normFields] at ih
            | ok r4 =>
              obtain ⟨m2, σ4⟩ := r4
              rw [hC, hD] at ih
              obtain ⟨u1, w1, _, _, _⟩ := parseFields_typed d rest (pre.length + 1) ro p σ1 opt
                m1 σ3 (pre ++ [σ1.get (p ++ [.field pre.length])]) suf0 s1 s2 (by simp)
                hh.2 hC
              obtain ⟨u2, w2, _, _, _⟩ := parseFields_typed d rest (pre2.length + 1) ro q σ2
                opt m2 σ4 (pre2 ++ [σ1.get (p ++ [.field pre.length])]) suf0 t1 t2 (by simp)
                hh.2 hD
              have l1 : (pre ++ [σ1.get (p ++ [.field pre.length])]).length =
                  pre.length + 1 := by simp
              have l2 : (pre2 ++ [σ1.get (p ++ [.field pre.length])]).length =
                  pre2.length + 1 := by simp
              simp only [normFields, w1, w2, Except.ok.injEq, Prod.mk.injEq] at ih
              rw [← l1, drop_at_length, ← l2, drop_at_length] at ih
              simp only [normFields, Except.ok.injEq, Prod.mk.injEq, List.map_append, w1, w2]
              rw [hfield.1, ih.1, ih.2]
              simp only [List.append_assoc, List.singleton_append]
              rw [drop_at_length, drop_at_length]
              exact ⟨trivial, rfl⟩
end

theorem normFlags_of_normFields (p q : List Step) (i k : Nat)
    (a b : Except Panic (List Flag × GoValue))
    (h : normFields p i a = normFields q k b) : normFlags a = normFlags b := by
  cases a with
  | error e1 =>
    cases b with
    | error e2 =>
      simp only [normFields, Except.error.injEq] at h
      simp [normFlags, h]
    | ok r2 =>
      obtain ⟨f2, σ2⟩ := r2
      simp [normFields] at h
  | ok r1 =>
    obtain ⟨f1, σ1⟩ := r1
    cases b with
    | error e2 => simp [normFields] at h
    | ok r2 =>
      obtain ⟨f2, σ2⟩ := r2
      simp only [normFields, Except.ok.injEq, Prod.mk.injEq] at h
      simp [normFlags, h.1]

theorem parseField_dead_other (d : Pkg) (field : StructField) (name : String) (kind : Kind)
    (i : Nat) (ro : Bool) (path : List Step) (σ : GoValue) (opt : opts)
    (ha : addrValue d (.other name kind) (decide (field.PkgPath ≠ "")) [] = none) :
    parseField d field (.other name kind) i ro path σ opt = .ok ([], σ) := by
  unfold parseField
  by_cases he : field.PkgPath ≠ "" ∧ field.Anonymous = false
  · rw [if_pos he]
  · rw [if_neg he]
    cases hf : parseFlagTag d field opt with
    | none => rfl
    | some flag =>
      simp only
      rw [parseVal_other_none d name kind _ σ _ _ (addrValue_none d _ _ [] _ ha)]

theorem parseField_dead_map (d : Pkg) (field : StructField) (name : String)
    (key elem : GoType) (i : Nat) (ro : Bool) (path : List Step) (σ : GoValue) (opt : opts)
    (ha : addrValue d (.map name key elem) (decide (field.PkgPath ≠ "")) [] = none)
    (hk : anyOf d.MapAllowedKinds key.Kind = false) :
    parseField d field (.map name key elem) i ro path σ opt = .ok ([], σ) := by
  unfold parseField
  by_cases he : field.PkgPath ≠ "" ∧ field.Anonymous = false
  · rw [if_pos he]
  · rw [if_neg he]
    cases hf : parseFlagTag d field opt with
    | none => rfl
    | some flag =>
      simp only
      rw [parseVal_map_skip d name key elem _ σ _ _ (addrValue_none d _ _ [] _ ha) hk]

/-- The loop of `parseStruct` on a struct from which a field that contributes nothing is
removed, in the type and in the value, returns the same descriptors off their storage, or
panics in the same way. -/
theorem parseFields_erase (d : Pkg) (ro : Bool) (p : List Step) (opt : opts)
    (f : StructField) (typ : GoType) :
    ∀ (fields : FieldList) (j i : Nat) (σ τ : GoValue) (pre suf : List GoValue),
      fields.get? j = some (f, typ) →
      (∀ σ0, ∃ σ2, parseField d f typ (i + j) ro p σ0 opt = .ok ([], σ2)) →
      σ.resolves p = true → τ.resolves p = true →
      σ.get p = .struct (pre ++ suf) → τ.get p = .struct (pre ++ suf.eraseIdx j) →
      pre.length = i → fields.hold suf = true →
      normFlags (parseFields d fields i ro p σ opt []) =
        normFlags (parseFields d (fields.eraseIdx j) i ro p τ opt [])
  | .nil, j, i, σ, τ, pre, suf, hget, hdead, hr, hr2, hg, hg2, hl, hh => by
    simp [FieldList.get?] at hget
  | .cons f0 t0 rest, 0, i, σ, τ, pre, suf, hget, hdead, hr, hr2, hg, hg2, hl, hh => by
    simp only [FieldList.get?, Option.some.injEq, Prod.mk.injEq] at hget
    obtain ⟨rfl, rfl⟩ := hget
    cases suf with
    | nil => simp [FieldList.hold] at hh
    | cons v suf0 =>
      simp only [FieldList.hold, Bool.and_eq_true] at hh
      subst hl
      obtain ⟨σ2, hA⟩ := hdead σ
      simp only [Nat.add_zero] at hA
      obtain ⟨_, _, s1, s2, _⟩ :=
        parseField_typed d f0 t0 ro p σ opt [] σ2 pre v suf0 hr hg hh.1 hA
      have h := parseFields_reloc d rest (pre.length + 1) pre.length ro p p σ2 τ opt
        (pre ++ [σ2.get (p ++ [.field pre.length])]) pre suf0 s1 hr2 s2
        (by simpa using hg2) (by simp) rfl hh.2
      have h2 := normFlags_of_normFields _ _ _ _ _ _ h
      rw [parseFields_cons_nil, hA]
      simp only [FieldList.eraseIdx]
      rw [← h2]
      cases parseFields d rest (pre.length + 1) ro p σ2 opt [] with
      | error e => rfl
      | ok r =>
        obtain ⟨more, σ1⟩ := r
        simp [normFlags]
  | .cons f0 t0 rest, j + 1, i, σ, τ, pre, suf, hget, hdead, hr, hr2, hg, hg2, hl, hh => by
    simp only [FieldList.get?] at hget
    cases suf with
    | nil => simp [FieldList.hold] at hh
    | cons v suf0 =>
      simp only [FieldList.hold, Bool.and_eq_true] at hh
      simp only [List.eraseIdx_cons_succ] at hg2
      subst hl
      have r1 : σ.resolves (p ++ [.field pre.length]) = true := by
        rw [GoValue.resolves_append, hr, hg, struct_resolves_at]
        simp [GoValue.resolves]
      have r2 : τ.resolves (p ++ [.field pre.length]) = true := by
        rw [GoValue.resolves_append, hr2, hg2, struct_resolves_at]
        simp [GoValue.resolves]
      have g1 : σ.get (p ++ [.field pre.length]) = v := by
        rw [GoValue.get_append, hg, struct_get_at]
      have g2 : τ.get (p ++ [.field pre.length]) = v := by
        rw [GoValue.get_append, hg2, struct_get_at]
      have hfield := parseField_reloc d f0 t0 pre.length pre.length ro p p σ τ opt
        (fun flag _ => parseVal_reloc d t0 _ _ _ σ τ _ r1 r2 (by rw [g1]; exact hh.1)
          (by rw [g1, g2]))
        (by rw [g1, g2])
      simp only [FieldList.eraseIdx]
      rw [parseFields_cons_nil, parseFields_cons_nil]
      cases hA : parseField d f0 t0 pre.length ro p σ opt with
      | error e =>
        cases hB : parseField d f0 t0 pre.length ro p τ opt with
        | error e2 =>
          rw [hA, hB] at hfield
          simp only [normField, Except.error.injEq] at hfield
          simp [normFlags, hfield]
        | ok r2 =>
          rw [hA, hB] at hfield
          obtain ⟨o2, σ2⟩ := r2
          simp [normField] at hfield
      | ok r1 =>
        obtain ⟨o1, σ1⟩ := r1
        cases hB : parseField d f0 t0 pre.length ro p τ opt with
        | error e2 =>
          rw [hA, hB] at hfield
          simp [normField] at hfield
        | ok r2 =>
          obtain ⟨o2, σ2⟩ := r2
          rw [hA, hB] at hfield
          simp only [normField, Except.ok.injEq, Prod.mk.injEq] at hfield
          obtain ⟨_, _, s1, s2, _⟩ :=
            parseField_typed d f0 t0 ro p σ opt o1 σ1 pre v suf0 hr hg hh.1 hA
          obtain ⟨_, _, t1, t2, _⟩ :=
            parseField_typed d f0 t0 ro p τ opt o2 σ2 pre v (suf0.eraseIdx j) hr2 hg2 hh.1 hB
          rw [← hfield.2] at t2
          have ih := parseFields_erase d ro p opt f typ rest j (pre.length + 1) σ1 σ2
            (pre ++ [σ1.get (p ++ [.field pre.length])]) suf0 hget
            (fun σ0 => by
              have := hdead σ0
              rwa [show pre.length + (j + 1) = pre.length + 1 + j by omega] at this)
            s1 t1 s2 t2 (by simp) hh.2
          simp only
          cases hC : parseFields d rest (pre.length + 1) ro p σ1 opt [] with
          | error e =>
            cases hD : parseFields d (rest.eraseIdx j) (pre.length + 1) ro p σ2 opt [] with
            | error e2 =>
              rw [hC, hD] at ih
              simp only [normFlags, Except.error.injEq] at ih
              simp [normFlags, ih]
            | ok r4 =>
              rw [hC, hD] at ih
              obtain ⟨m2, σ4⟩ := r4
              simp [normFlags] at ih
          | ok r3 =>
            obtain ⟨m1, σ3⟩ := r3
            cases hD : parseFields d (rest.eraseIdx j) (pre.length + 1) ro p σ2 opt [] with
            | error e2 =>
              rw [hC, hD] at ih
              simp [normFlags] at ih
            | ok r4 =>
              obtain ⟨m2, σ4⟩ := r4
              rw [hC, hD] at ih
              simp only [normFlags, Except.ok.injEq] at ih
              simp [normFlags, hfield.1, ih]

theorem returned_ParseStruct (d : Pkg) (name sname : String) (fields : FieldList)
    (v : GoValue) (optFuncs : List OptFunc) (hv : v.IsNil = false) :
    returned (ParseStruct d (some (.ptr name (.struct sname fields), v)) optFuncs) =
      match normFlags (parseFields d fields 0 false [.deref] v (defOpts.apply optFuncs) [])
      with
      | .error p => .error p
      | .ok flags => .ok (some flags, none) := by
  rw [ParseStruct_of_struct d name sname fields v optFuncs hv, ← parseFields_eq_concatFields]
  cases parseFields d fields 0 false [.deref] v (defOpts.apply optFuncs) [] with
  | error p => rfl
  | ok r =>
    obtain ⟨flags, σ⟩ := r
    rfl

/-- C18: a field of a typed configuration struct that is of a kind without a value handle
(such as a func), or a map whose key kind is not among the allowed kinds (such as
`map[bool]string`), or any field whose iteration of the loop appends no descriptor (a
composite whose walk yields none), appends no descriptor, and `ParseStruct` returns for the
struct what it returns for the struct without that field, in the type and in the value:
the same nil error and the same descriptors in the same order, the handles taken off their
storage (the later fields move up by one). In particular `ParseStruct` on the struct with
the field succeeds whenever it succeeds without it. -/
theorem unsupported_field_omitted (d : Pkg) (name sname : String) (fields : FieldList)
    (vs : List GoValue) (j : Nat) (f : StructField) (typ : GoType)
    (optFuncs : List OptFunc)
    (hget : fields.get? j = some (f, typ)) (hty : fields.hold vs = true)
    (hdead :
      (∃ n kind, typ = .other n kind ∧
        addrValue d typ (decide (f.PkgPath ≠ "")) [] = none) ∨
      (∃ n key elem, typ = .map n key elem ∧ anyOf d.MapAllowedKinds key.Kind = false ∧
        addrValue d typ (decide (f.PkgPath ≠ "")) [] = none) ∨
      (∀ σ, ∃ σ2, parseField d f typ j false [.deref] σ (defOpts.apply optFuncs) =
        .ok ([], σ2))) :
    (∀ σ, ∃ σ2, parseField d f typ j false [.deref] σ (defOpts.apply optFuncs) =
      .ok ([], σ2)) ∧
    returned (ParseStruct d
        (some (.ptr name (.struct sname fields), .ptrTo (.struct vs))) optFuncs) =
      returned (ParseStruct d
        (some (.ptr name (.struct sname (fields.eraseIdx j)), .ptrTo (.struct (vs.eraseIdx j))))
        optFuncs) ∧
    (∀ flags2 err2 cfg2, ParseStruct d
        (some (.ptr name (.struct sname (fields.eraseIdx j)), .ptrTo (.struct (vs.eraseIdx j))))
        optFuncs = .ok ((flags2, err2), cfg2) →
      ∃ flags cfg1, ParseStruct d
          (some (.ptr name (.struct sname fields), .ptrTo (.struct vs))) optFuncs =
          .ok ((some flags, none), cfg1) ∧
        flags2.map (fun l => l.map Flag.unbound) = some (flags.map Flag.unbound)) := by
  have hd : ∀ σ, ∃ σ2, parseField d f typ j false [.deref] σ (defOpts.apply optFuncs) =
      .ok ([], σ2) := by
    rcases hdead with ⟨n, kind, rfl, ha⟩ | ⟨n, key, elem, rfl, hk, ha⟩ | h
    · exact fun σ => ⟨σ, parseField_dead_other d f n kind j false _ σ _ ha⟩
    · exact fun σ => ⟨σ, parseField_dead_map d f n key elem j false _ σ _ ha hk⟩
    · exact h
  have heq : returned (ParseStruct d
        (some (.ptr name (.struct sname fields), .ptrTo (.struct vs))) optFuncs) =
      returned (ParseStruct d
        (some (.ptr name (.struct sname (fields.eraseIdx j)), .ptrTo (.struct (vs.eraseIdx j))))
        optFuncs) := by
    rw [returned_ParseStruct d name sname fields (.ptrTo (.struct vs)) optFuncs rfl,
      returned_ParseStruct d name sname (fields.eraseIdx j) (.ptrTo (.struct (vs.eraseIdx j)))
        optFuncs rfl,
      parseFields_erase d false [.deref] (defOpts.apply optFuncs) f typ fields j 0
        (.ptrTo (.struct vs)) (.ptrTo (.struct (vs.eraseIdx j))) [] vs hget
        (fun σ0 => by simpa using hd σ0) rfl rfl rfl rfl rfl hty]
  refine ⟨hd, heq, ?_⟩
  intro flags2 err2 cfg2 h2
  rw [h2] at heq
  cases h1 : ParseStruct d
      (some (.ptr name (.struct sname fields), .ptrTo (.struct vs))) optFuncs with
  | error p =>
    rw [h1] at heq
    simp [returned] at heq
  | ok r =>
    obtain ⟨⟨fl, er⟩, cfg1⟩ := r
    rw [h1] at heq
    simp only [returned, Except.ok.injEq, Prod.mk.injEq] at heq
    cases fl with
    | none =>
      simp [ParseStruct, GoValue.IsNil, parseStruct] at h1
      split at h1 <;> simp at h1
    | some flags =>
      obtain ⟨_, _, he, _⟩ := parseFields_of_ParseStruct d name sname fields _ optFuncs
        flags er cfg1 h1
      subst he
      refine ⟨flags, cfg1, rfl, ?_⟩
      rw [← heq.1]
      rfl

/-- C18 on three fields of `diffTypesCfg` of the tests: with and without `FuncValue
func()`, `ParseStruct` returns the one descriptor `string-value`; the map with the `bool`
key adds none either. -/
theorem unsupported_field_omitted_witness :
    returned (ParseStruct testPkg
        (some (.ptr "" (.struct "" unsupportedFields),
          .ptrTo (.struct [.data "string", .zero, .nilMap]))) []) =
      returned (ParseStruct testPkg
        (some (.ptr "" (.struct "" (unsupportedFields.eraseIdx 1)),
          .ptrTo (.struct ([GoValue.data "string", .zero, .nilMap].eraseIdx 1)))) []) ∧
    namesOf (ParseStruct testPkg
        (some (.ptr "" (.struct "" unsupportedFields),
          .ptrTo (.struct [.data "string", .zero, .nilMap]))) []) = ["string-value"] ∧
    defValuesOf (ParseStruct testPkg
        (some (.ptr "" (.struct "" unsupportedFields),
          .ptrTo (.struct [.data "string", .zero, .nilMap]))) []) = ["string"] :=
  ⟨(unsupported_field_omitted testPkg "" "" unsupportedFields
      [.data "string", .zero, .nilMap] 1 { Name := "FuncValue" } (.other "func()" .Func) []
      rfl rfl (Or.inl ⟨"func()", .Func, rfl, rfl⟩)).2.1,
    rfl, rfl⟩

/-! ## Terminal fields and recursion -/

theorem parseVal_handle_alone (d : Pkg) :
    ∀ (typ : GoType) (ro : Bool) (path : List Step) (σ : GoValue) (optFuncs : List OptFunc)
      (nested : List Flag) (v : Value) (σ1 : GoValue),
      parseVal d typ ro path σ optFuncs = .ok (nested, some v, σ1) → nested = []
  | .other name kind, ro, path, σ, optFuncs, nested, v, σ1, h => by
    cases ha : addrValue d (.other name kind) ro path with
    | some w =>
      rw [parseVal_addr d _ ro path σ optFuncs w ha] at h
      injection h with h
      injection h with h1 h2
      exact h1.symm
    | none =>
      rw [parseVal_other_none d name kind path σ optFuncs ro ha] at h
      injection h with h
      injection h with h1 h2
      exact h1.symm
  | .map name key elem, ro, path, σ, optFuncs, nested, v, σ1, h => by
    cases ha : addrValue d (.map name key elem) ro path with
    | some w =>
      rw [parseVal_addr d _ ro path σ optFuncs w ha] at h
      injection h with h
      injection h with h1 h2
      exact h1.symm
    | none =>
      rcases parseVal_map_none d name key elem path σ optFuncs ro ha _ h with
        ⟨_, hres⟩ | ⟨_, _, hres⟩ <;>
      · injection hres with h1 h2
  | .ptr name elem, ro, path, σ, optFuncs, nested, v, σ1, h => by
    cases ha : addrValue d (.ptr name elem) ro path with
    | some w =>
      rw [parseVal_addr d _ ro path σ optFuncs w ha] at h
      injection h with h
      injection h with h1 h2
      exact h1.symm
    | none =>
      rcases parseVal_ptr_none d name elem path σ optFuncs ro ha _ h with
        ⟨_, ⟨_, hres⟩ | ⟨_, hrec⟩⟩
      · injection hres with h1 h2
      · exact parseVal_handle_alone d elem false _ _ optFuncs nested v σ1 hrec
  | .struct name fields, ro, path, σ, optFuncs, nested, v, σ1, h => by
    cases ha : addrValue d (.struct name fields) ro path with
    | some w =>
      rw [parseVal_addr d _ ro path σ optFuncs w ha] at h
      injection h with h
      injection h with h1 h2
      exact h1.symm
    | none =>
      obtain ⟨flags, σ2, _, hres⟩ :=
        parseVal_struct_none d name fields path σ optFuncs ro ha _ h
      injection hres with h1 h2
      injection h2 with h3 h4
      cases h3

/-- C24: for a field that the loop of `parseStruct` does not skip, `parseVal` returns
either a handle, and then no nested descriptors, and the loop appends the one descriptor of
the field with that handle; or no handle, and then the loop appends exactly the nested
descriptors that `parseVal` returned, each of them the descriptor of a field inside the
type of the field, and not the draft of the field itself. A handle found for the address of
the field is returned before anything is walked or allocated, whatever the kind of the
field; behind a pointer for which `parseGeneratedPtrs` finds nothing, a handle found for
the address of the target is returned before the target is walked. -/
theorem terminal_or_recursed (d : Pkg) (field : StructField) (typ : GoType) (i : Nat)
    (ro : Bool) (path : List Step) (σ : GoValue) (opt : opts) (flag : Flag)
    (own : List Flag) (σ1 : GoValue)
    (he : ¬ (field.PkgPath ≠ "" ∧ field.Anonymous = false))
    (hf : parseFlagTag d field opt = some flag)
    (h : parseField d field typ i ro path σ opt = .ok (own, σ1)) :
    (∃ nested val, parseVal d typ (decide (field.PkgPath ≠ "")) (path ++ [.field i]) σ
        (nestedOptFuncs opt field (draftFlag d field opt flag)) = .ok (nested, val, σ1) ∧
      ((∃ v, val = some v ∧ nested = [] ∧
          own = [{ draftFlag d field opt flag with
            Value := some (wrapValue opt field ro path v),
            DefValue := (wrapValue opt field ro path v).String d σ1 }]) ∨
        (val = none ∧ own = nested ∧
          ∀ g ∈ own, EmittedAt d (nestedOpts opt field (draftFlag d field opt flag))
            typ.chains g))) ∧
    (∀ v, addrValue d typ (decide (field.PkgPath ≠ "")) (path ++ [.field i]) = some v →
      σ1 = σ ∧
      own = [{ draftFlag d field opt flag with
        Value := some (wrapValue opt field ro path v),
        DefValue := (wrapValue opt field ro path v).String d σ }]) ∧
    (∀ name elem v, typ = .ptr name elem → field.PkgPath = "" →
      addrValue d (.ptr name elem) false (path ++ [.field i]) = none →
      d.parseGeneratedPtrs (.ptr name elem) = false →
      addrValue d elem false (path ++ [.field i] ++ [.deref]) = some v →
      σ1 = allocPtr σ (path ++ [.field i]) elem ∧
      own = [{ draftFlag d field opt flag with
        Value := some (wrapValue opt field ro path v),
        DefValue := (wrapValue opt field ro path v).String d σ1 }]) := by
  unfold parseField at h
  rw [if_neg he, hf] at h
  simp only at h
  cases hv : parseVal d typ (decide (field.PkgPath ≠ "")) (path ++ [.field i]) σ
      (nestedOptFuncs opt field (draftFlag d field opt flag)) with
  | error p => rw [hv] at h; cases h
  | ok r =>
    obtain ⟨nested, val, σ2⟩ := r
    rw [hv] at h
    have key : σ2 = σ1 ∧
        ((∃ v, val = some v ∧ nested = [] ∧
          own = [{ draftFlag d field opt flag with
            Value := some (wrapValue opt field ro path v),
            DefValue := (wrapValue opt field ro path v).String d σ1 }]) ∨
        (val = none ∧ own = nested)) := by
      cases val with
      | some v =>
        simp only at h
        injection h with h
        injection h with h1 h2
        subst h2
        exact ⟨rfl, Or.inl ⟨v, rfl, parseVal_handle_alone d typ _ _ _ _ nested v σ2 hv,
          h1.symm⟩⟩
      | none =>
        simp only at h
        injection h with h
        injection h with h1 h2
        exact ⟨h2, Or.inr ⟨rfl, h1.symm⟩⟩
    obtain ⟨hσ, hcase⟩ := key
    subst hσ
    refine ⟨⟨nested, val, rfl, ?_⟩, ?_, ?_⟩
    · rcases hcase with hc | ⟨hn, ho⟩
      · exact Or.inl hc
      · refine Or.inr ⟨hn, ho, ?_⟩
        intro g hg
        rw [ho] at hg
        exact parseVal_chain d typ _ _ _ _ nested val σ2 hv g hg
    · intro v ha
      rw [parseVal_addr d typ _ _ σ _ v ha] at hv
      injection hv with hv
      injection hv with h1 h2
      injection h2 with h3 h4
      subst h4
      rcases hcase with ⟨w, hw, _, ho⟩ | ⟨hn, _⟩
      · rw [← h3] at hw
        injection hw with hw
        subst hw
        exact ⟨rfl, ho⟩
      · rw [← h3] at hn
        cases hn
    · intro name elem v ht hex ha hg hel
      subst ht
      have hro : decide (field.PkgPath ≠ "") = false := by simp [hex]
      rw [hro, parseVal_ptr_eq d name elem _ σ _ ha, if_neg (by simp [hg]),
        parseVal_addr d elem false _ _ _ v hel] at hv
      injection hv with hv
      injection hv with h1 h2
      injection h2 with h3 h4
      subst h4
      rcases hcase with ⟨w, hw, _, ho⟩ | ⟨hn, _⟩
      · rw [← h3] at hw
        injection hw with hw
        subst hw
        exact ⟨rfl, ho⟩
      · rw [← h3] at hn
        cases hn

/-- C24 on the field `Addr *net.TCPAddr` of `simpleCfg` of the tests: the constructor for
the address of a `net.TCPAddr` is found behind the pointer, so the field gives the single
flag `addr` and the fields `IP`, `Port` and `Zone` are not walked. -/
theorem terminal_or_recursed_witness :
    namesOf (ParseStruct testPkg
      (some (.ptr "" (.struct "" addrCfgFields), .ptrTo (.struct [.nilPtr]))) []) =
      ["addr"] ∧
    ∃ own σ1, parseField testPkg { Name := "Addr" } (.ptr "" tcpAddrType) 0 false [.deref]
        (.ptrTo (.struct [.nilPtr])) defOpts = .ok (own, σ1) ∧
      σ1 = allocPtr (.ptrTo (.struct [.nilPtr])) ([.deref] ++ [.field 0]) tcpAddrType ∧
      own = [{ draftFlag testPkg { Name := "Addr" } defOpts { Name := "addr" } with
        Value := some (wrapValue defOpts { Name := "Addr" } false [.deref]
          (.bound .generated tcpAddrType [.deref, .field 0, .deref])),
        DefValue := (wrapValue defOpts { Name := "Addr" } false [.deref]
          (.bound .generated tcpAddrType [.deref, .field 0, .deref])).String testPkg σ1 }] :=
  ⟨rfl, _, _, rfl,
    (terminal_or_recursed testPkg { Name := "Addr" } (.ptr "" tcpAddrType) 0 false [.deref]
      (.ptrTo (.struct [.nilPtr])) defOpts { Name := "addr" } _ _ (by decide) rfl rfl).2.2
      "" tcpAddrType (.bound .generated tcpAddrType [.deref, .field 0, .deref])
      rfl rfl rfl rfl rfl⟩

/-! ## Embedded unexported pointers and maps -/

/-- C27: `ParseStruct` on a pointer to `struct{ *inner }`, where `inner` is an unexported
struct type, panics: with a nil embedded pointer in `reflect.Value.Set`, with a pointer that
is set in `reflect.Value.Interface`; the same happens for an embedded unexported map type
`struct{ labels }`, nil or made. -/
theorem embedded_unexported_pointer_panics :
    ParseStruct testPkg
      (some (.ptr "" (.struct "" embeddedPtrFields), .ptrTo (.struct [.nilPtr]))) [] =
      .error .setUnexported ∧
    ParseStruct testPkg
      (some (.ptr "" (.struct "" embeddedPtrFields),
        .ptrTo (.struct [.ptrTo (.struct [.zero])]))) [] =
      .error .interfaceUnexported ∧
    ParseStruct testPkg
      (some (.ptr "" (.struct "" embeddedMapFields), .ptrTo (.struct [.nilMap]))) [] =
      .error .setUnexported ∧
    ParseStruct testPkg
      (some (.ptr "" (.struct "" embeddedMapFields), .ptrTo (.struct [.mapOf []]))) [] =
      .error .interfaceUnexported := by
  exact ⟨rfl, rfl, rfl, rfl⟩

/-! ## Odd segments of an env tag -/

theorem foldl_append_flatten {α β : Type} (f : α → List β) :
    ∀ (l : List α) (acc : List β),
      l.foldl (fun a x => a ++ f x) acc = acc ++ (l.map f).flatten
  | [], acc => by simp
  | x :: l, acc => by
    simp only [List.foldl_cons, List.map_cons, List.flatten_cons]
    rw [foldl_append_flatten f l (acc ++ f x), List.append_assoc]

/-- C26: in an env tag whose first segment is a name (neither empty nor the skip literal),
the env names are what the segments contribute one after the other. A segment that is only
`~` contributes nothing; an empty segment contributes nothing when the name prefix is empty
and, when the name prefix is not empty and `flagToEnv` of it is not empty, the one name
envPrefix + flagToEnv(prefix), so that the same tag gives more names in a nested struct.
When the first segment is empty, the result is the single derived name, whatever follows. -/
theorem parseEnv_odd_segments (d : Pkg) (flagName : String) (field : StructField)
    (opt : opts) (first : String) (rest : List String)
    (hsplit : stringsSplit (field.Tag.Get defaultEnvTag) ',' = first :: rest) :
    (first ≠ "-" → first ≠ "" →
      parseEnv d flagName field opt = ((first :: rest).map (parseEnvName d opt)).flatten) ∧
    parseEnvName d opt "~" = [] ∧
    (opt.namePrefix = "" → parseEnvName d opt "" = []) ∧
    (opt.namePrefix ≠ "" →
      d.flagToEnv opt.namePrefix opt.flagDivider opt.envDivider ≠ "" →
      parseEnvName d opt "" =
        [opt.envPrefix ++ d.flagToEnv opt.namePrefix opt.flagDivider opt.envDivider]) ∧
    (first = "" →
      parseEnv d flagName field opt =
        [opt.envPrefix ++ d.flagToEnv flagName opt.flagDivider opt.envDivider]) := by
  refine ⟨?_, ?_, ?_, ?_, ?_⟩
  · intro h1 h2
    unfold parseEnv
    rw [hsplit]
    simp only [if_neg h1, if_neg h2]
    rw [foldl_append_flatten]
    simp
  · have h : hasPrefix "~" "~" = true := by decide
    have h2 : dropFirst "~" = "" := by decide
    simp [parseEnvName, h, h2]
  · intro hp
    have h : hasPrefix "" "~" = false := by decide
    simp [parseEnvName, h, hp]
  · intro hp hne
    have h : hasPrefix "" "~" = false := by decide
    simp [parseEnvName, h, hp, hne]
  · intro h1
    unfold parseEnv
    rw [hsplit]
    subst h1
    simp

/-- C26 on the tag `env:"A,"`: one name at the top level, two under the prefix `sub-`; and
on `env:",FOO"`: the derived name alone. -/
theorem parseEnv_odd_segments_witness :
    parseEnv testPkg "name" { Name := "Name", Tag := tagOf [("env", "A,")] } defOpts =
      ["A"] ∧
    parseEnv testPkg "sub-name" { Name := "Name", Tag := tagOf [("env", "A,")] }
      (Prefix "sub-" defOpts) = ["SUB_A", "SUB_"] ∧
    parseEnv testPkg "name" { Name := "Name", Tag := tagOf [("env", ",FOO")] } defOpts =
      ["NAME"] ∧
    parseEnv testPkg "name" { Name := "Name", Tag := tagOf [("env", ",FOO")] } defOpts =
      [defOpts.envPrefix ++ testPkg.flagToEnv "name" defOpts.flagDivider defOpts.envDivider] :=
  ⟨by decide, by decide, by decide,
    (parseEnv_odd_segments testPkg "name" { Name := "Name", Tag := tagOf [("env", ",FOO")] }
      defOpts "" ["FOO"] (by decide)).2.2.2.2 rfl⟩

/-! ## The generator for urfave/cli -/

theorem gcli.GenerateTo_eq (src : List Flag) (dst : List CliFlag) :
    gcli.GenerateTo src dst = dst ++ src.map (fun g => CliFlag.generic (gcli.genericOf g)) :=
  foldl_append_singletons (fun g => [CliFlag.generic (gcli.genericOf g)])
    (fun g => CliFlag.generic (gcli.genericOf g)) src dst (fun _ _ => rfl)

/-- C23: `gcli.GenerateTo` keeps the entries of the destination and appends one flag per
descriptor, in the order of the source; the appended flag number i is a `cli.GenericFlag`
with the name, the usage, the hidden and required markers, the value handle and the env
names of descriptor number i, and with the aliases `[short]` when the short name is not
empty and none otherwise. -/
theorem GenerateTo_appends (src : List Flag) (dst : List CliFlag) :
    (gcli.GenerateTo src dst).length = dst.length + src.length ∧
    (gcli.GenerateTo src dst).take dst.length = dst ∧
    ∀ i g, src.get? i = some g →
      ∃ f, (gcli.GenerateTo src dst).get? (dst.length + i) = some (.generic f) ∧
        f.Name = g.Name ∧ f.Usage = g.Usage ∧ f.Hidden = g.Hidden ∧
        f.Required = g.Required ∧ f.Value = g.Value ∧ f.EnvVars = g.EnvNames ∧
        f.Aliases = (if g.Short ≠ "" then [g.Short] else []) := by
  rw [gcli.GenerateTo_eq]
  refine ⟨by simp, by simp, ?_⟩
  intro i g hg
  refine ⟨gcli.genericOf g, ?_, rfl, rfl, rfl, rfl, rfl, rfl, ?_⟩
  · rw [List.get?_eq_getElem?] at hg ⊢
    rw [List.getElem?_append_right (Nat.le_add_right _ _)]
    simp [hg]
  · unfold gcli.genericOf
    by_cases hs : g.Short ≠ "" <;> simp [hs]

/-! ## The naming helpers as modelled -/

theorem isLower_iff (c : Char) : isLower c = true ↔ 97 ≤ c.toNat ∧ c.toNat ≤ 122 := by
  unfold isLower
  rw [decide_eq_true_iff]
  exact Iff.rfl

theorem isUpper_iff (c : Char) : isUpper c = true ↔ 65 ≤ c.toNat ∧ c.toNat ≤ 90 := by
  unfold isUpper
  rw [decide_eq_true_iff]
  exact Iff.rfl

theorem isLower_toUpper (c : Char) : isLower (toUpper c) = false := by
  unfold toUpper
  split
  · rename_i h
    rw [isLower_iff] at h
    obtain ⟨h1, h2⟩ := h
    generalize c.toNat = n at h1 h2
    interval_cases n <;> decide
  · rename_i h
    simpa using h

theorem isUpper_toLower (c : Char) : isUpper (toLower c) = false := by
  unfold toLower
  split
  · rename_i h
    rw [isUpper_iff] at h
    obtain ⟨h1, h2⟩ := h
    generalize c.toNat = n at h1 h2
    interval_cases n <;> decide
  · rename_i h
    simpa using h

theorem replaceAll_fuel (old new : List Char) :
    ∀ (n : Nat) (s : List Char) (f1 f2 : Nat), s.length ≤ n → n ≤ f1 → n ≤ f2 →
      replaceAll old new f1 s = replaceAll old new f2 s
  | 0, s, f1, f2, hs, _, _ => by
    have : s = [] := List.eq_nil_of_length_eq_zero (Nat.le_zero.mp hs)
    subst this
    cases f1 <;> cases f2 <;> rfl
  | n + 1, [], f1, f2, _, _, _ => by
    cases f1 <;> cases f2 <;> rfl
  | n + 1, c :: cs, f1 + 1, f2 + 1, hs, h1, h2 => by
    simp only [replaceAll]
    have hcs : cs.length ≤ n := by simpa using hs
    by_cases ho : old ≠ [] ∧ old.isPrefixOf (c :: cs) = true
    · rw [if_pos ho, if_pos ho]
      have hl : ((c :: cs).drop old.length).length ≤ n := by
        have : 0 < old.length := List.length_pos.mpr ho.1
        simp only [List.length_drop, List.length_cons]
        omega
      rw [replaceAll_fuel old new n _ f1 f2 hl (by omega) (by omega)]
    · rw [if_neg ho, if_neg ho]
      rw [replaceAll_fuel old new n cs f1 f2 hcs (by omega) (by omega)]

theorem replaceAll_occurrence (old new b : List Char) (ho : old ≠ []) :
    replaceAll old new (old ++ b).length (old ++ b) =
      new ++ replaceAll old new b.length b := by
  cases hob : old ++ b with
  | nil => simp at hob; exact absurd hob.1 ho
  | cons c cs =>
    have hp : old.isPrefixOf (c :: cs) = true := by
      rw [← hob, List.isPrefixOf_iff_prefix]
      exact List.prefix_append old b
    simp only [List.length_cons, replaceAll]
    rw [if_pos ⟨ho, hp⟩, ← hob, List.drop_left]
    have : b.length ≤ cs.length := by
      have h := congrArg List.length hob
      have : 0 < old.length := List.length_pos.mpr ho
      simp only [List.length_append, List.length_cons] at h
      omega
    rw [replaceAll_fuel old new b.length b cs.length b.length (Nat.le_refl _) this
      (Nat.le_refl _)]

theorem replaceAll_other (old new : List Char) (c : Char) (cs : List Char)
    (hp : ¬ old <+: c :: cs) :
    replaceAll old new (c :: cs).length (c :: cs) = c :: replaceAll old new cs.length cs := by
  simp only [List.length_cons, replaceAll]
  rw [if_neg]
  intro h
  exact hp (List.isPrefixOf_iff_prefix.mp h.2)

theorem replaceAll_absent (old new : List Char) :
    ∀ (s : List Char), ¬ old <:+: s → replaceAll old new s.length s = s
  | [], _ => rfl
  | c :: cs, h => by
    rw [replaceAll_other old new c cs (fun hp => h hp.isInfix),
      replaceAll_absent old new cs (fun hi => h (List.infix_cons hi))]

theorem replaceAll_single (c : Char) (new : List Char) :
    ∀ (s : List Char), replaceAll [c] new s.length s =
      (s.map (fun x => if x = c then new else [x])).flatten
  | [] => rfl
  | x :: xs => by
    by_cases hx : x = c
    · subst hx
      have := replaceAll_occurrence [x] new xs (by simp)
      simp only [List.singleton_append] at this
      rw [this, replaceAll_single x new xs]
      simp
    · rw [replaceAll_other [c] new x xs (by
          intro hp
          obtain ⟨t, ht⟩ := hp
          simp only [List.singleton_append, List.cons.injEq] at ht
          exact hx ht.1.symm),
        replaceAll_single c new xs]
      simp [hx]

/-- C22: the modelled `flagToEnv` on a divider that is not empty. The result has no
lower-case letter; a name that begins with the flag divider gives the upper-cased env
divider followed by the conversion of what follows; a name that does not begin with the
flag divider gives its upper-cased first character followed by the conversion of the rest;
hence a name in which the flag divider does not occur is only upper-cased, and for a divider
of one character every such character is replaced by the env divider. `sub-name` with `-`
and `_` gives `SUB_NAME`, and the empty name gives the empty env name. -/
theorem flagToEnv_replaces (s fd ed : String) (hfd : fd ≠ "") :
    flagToEnv "sub-name" "-" "_" = "SUB_NAME" ∧
    flagToEnv "" fd ed = "" ∧
    (∀ c ∈ (flagToEnv s fd ed).data, isLower c = false) ∧
    (flagToEnv (fd ++ s) fd ed).data = ed.data.map toUpper ++ (flagToEnv s fd ed).data ∧
    (∀ c cs, s.data = c :: cs → ¬ fd.data <+: s.data →
      (flagToEnv s fd ed).data = toUpper c :: (flagToEnv (String.mk cs) fd ed).data) ∧
    (¬ fd.data <:+: s.data → flagToEnv s fd ed = String.mk (s.data.map toUpper)) ∧
    (∀ c, fd.data = [c] →
      flagToEnv s fd ed =
        String.mk ((s.data.map (fun x => if x = c then ed.data else [x])).flatten.map
          toUpper)) := by
  have hne : fd.data ≠ [] := by
    intro h
    apply hfd
    cases fd
    simp only at h
    subst h
    rfl
  refine ⟨by decide, rfl, ?_, ?_, ?_, ?_, ?_⟩
  · intro c hc
    simp only [flagToEnv, List.mem_map] at hc
    obtain ⟨x, _, rfl⟩ := hc
    exact isLower_toUpper x
  · simp only [flagToEnv, String.data_append]
    rw [replaceAll_occurrence fd.data ed.data s.data hne]
    simp
  · intro c cs hs hp
    simp only [flagToEnv]
    rw [hs] at hp ⊢
    rw [replaceAll_other fd.data ed.data c cs hp]
    simp
  · intro hi
    simp only [flagToEnv]
    rw [replaceAll_absent fd.data ed.data s.data hi]
  · intro c hc
    simp only [flagToEnv]
    rw [hc, replaceAll_single c ed.data s.data]

/-- C22 on the flag name `sub-sub2-name4` of `nestedCfg` of the tests. -/
theorem flagToEnv_replaces_witness :
    flagToEnv "sub-sub2-name4" "-" "_" = "SUB_SUB2_NAME4" ∧
    flagToEnv "sub-sub2-name4" "-" "_" =
      String.mk (("sub-sub2-name4".data.map
        (fun x => if x = '-' then "_".data else [x])).flatten.map toUpper) :=
  ⟨by decide,
    (flagToEnv_replaces "sub-sub2-name4" "-" "_" (by decide)).2.2.2.2.2.2 '-' rfl⟩

theorem trimLeft_suffix (cutset : List Char) : ∀ (l : List Char), trimLeft cutset l <:+ l
  | [] => List.suffix_refl _
  | c :: cs => by
    unfold trimLeft
    split
    · exact (trimLeft_suffix cutset cs).trans (List.suffix_cons c cs)
    · exact List.suffix_refl _

theorem trimLeft_head (cutset : List Char) : ∀ (l : List Char) (x : Char) (rest : List Char),
    trimLeft cutset l = x :: rest → x ∉ cutset
  | [], x, rest, h => by simp [trimLeft] at h
  | c :: cs, x, rest, h => by
    unfold trimLeft at h
    split at h
    · exact trimLeft_head cutset cs x rest h
    · rename_i hc
      injection h with h1 h2
      rw [← h1]
      exact hc

theorem mem_intercalate (sep : List Char) : ∀ (xs : List (List Char)) (c : Char),
    c ∈ sep.intercalate xs → c ∈ sep ∨ ∃ t ∈ xs, c ∈ t
  | [], c, h => by simp [List.intercalate] at h
  | [t], c, h => by
    simp [List.intercalate] at h
    exact Or.inr ⟨t, by simp, h⟩
  | t :: u :: xs, c, h => by
    have e : sep.intercalate (t :: u :: xs) = t ++ sep ++ sep.intercalate (u :: xs) := by
      simp [List.intercalate, List.intersperse]
    rw [e, List.mem_append, List.mem_append] at h
    rcases h with (h | h) | h
    · exact Or.inr ⟨t, by simp, h⟩
    · exact Or.inl h
    · rcases mem_intercalate sep (u :: xs) c h with h | ⟨v, hv, hc⟩
      · exact Or.inl h
      · exact Or.inr ⟨v, List.mem_cons_of_mem _ hv, hc⟩

theorem camelTokens_flatten : ∀ (cs : List Char) (p : Char) (cur : List Char),
    (camelTokens p cur cs).flatten = cur.reverse ++ cs
  | [], p, cur => by simp [camelTokens]
  | c :: cs, p, cur => by
    unfold camelTokens
    split
    · simp [camelTokens_flatten cs c [c]]
    · simp [camelTokens_flatten cs c (c :: cur)]

theorem camelSplit_flatten (l : List Char) : (camelSplit l).flatten = l := by
  cases l with
  | nil => rfl
  | cons c cs => simp [camelSplit, camelTokens_flatten]

/-- C21: the modelled `camelToFlag`. With the divider `-`: `Name2` gives `name2`,
`StringSliceValue` gives `string-slice-value`, `MapInt8Bool` gives `map-int8-bool` and
`HTTPPort` gives `http-port`; the empty identifier gives the empty name. The tokens it
splits an identifier into make up the identifier. For a divider that is not empty and has
no upper-case letter, the result has no upper-case letter and neither starts nor ends with
the divider. -/
theorem camelToFlag_splits (s div : String) (hdiv : div ≠ "")
    (hlow : ∀ c ∈ div.data, isUpper c = false) :
    camelToFlag "Name2" "-" = "name2" ∧
    camelToFlag "StringSliceValue" "-" = "string-slice-value" ∧
    camelToFlag "MapInt8Bool" "-" = "map-int8-bool" ∧
    camelToFlag "HTTPPort" "-" = "http-port" ∧
    camelToFlag "" div = "" ∧
    (camelSplit s.data).flatten = s.data ∧
    (∀ c ∈ (camelToFlag s div).data, isUpper c = false) ∧
    ¬ div.data <+: (camelToFlag s div).data ∧
    ¬ div.data <:+ (camelToFlag s div).data := by
  have hne : div.data ≠ [] := by
    intro h
    apply hdiv
    cases div
    simp only at h
    subst h
    rfl
  refine ⟨by decide, by decide, by decide, by decide, ?_, camelSplit_flatten _, ?_, ?_, ?_⟩
  · simp [camelToFlag, camelSplit, List.intercalate, trimLeft]
  · intro c hc
    simp only [camelToFlag, List.mem_reverse] at hc
    have h1 := (trimLeft_suffix div.data _).subset hc
    rw [List.mem_reverse] at h1
    have h2 := (trimLeft_suffix div.data _).subset h1
    rcases mem_intercalate _ _ c h2 with h | ⟨t, ht, hct⟩
    · exact hlow c h
    · rw [List.mem_map] at ht
      obtain ⟨u, _, rfl⟩ := ht
      rw [List.mem_map] at hct
      obtain ⟨x, _, rfl⟩ := hct
      exact isUpper_toLower x
  · intro hp
    simp only [camelToFlag] at hp
    have hs := trimLeft_suffix div.data
      (trimLeft div.data (div.data.intercalate
        ((camelSplit s.data).map (List.map toLower)))).reverse
    rw [← List.reverse_prefix, List.reverse_reverse] at hs
    have hp2 := hp.trans hs
    cases hd : div.data with
    | nil => exact hne hd
    | cons x rest =>
      obtain ⟨t, ht⟩ := hp2
      have := trimLeft_head div.data _ x (rest ++ t) (by rw [← ht, hd]; rfl)
      apply this
      rw [hd]
      exact List.mem_cons_self _ _
  · intro hp
    simp only [camelToFlag] at hp
    rw [← List.reverse_prefix, List.reverse_reverse] at hp
    cases hd : div.data.reverse with
    | nil => exact hne (List.reverse_eq_nil_iff.mp hd)
    | cons x rest =>
      rw [hd] at hp
      obtain ⟨t, ht⟩ := hp
      have := trimLeft_head div.data _ x (rest ++ t) (by rw [← ht]; rfl)
      apply this
      rw [← List.mem_reverse, hd]
      exact List.mem_cons_self _ _

/-- C21 on `MapInt16Int8` of `diffTypesCfg` of the tests, with the default divider. -/
theorem camelToFlag_splits_witness :
    camelToFlag "MapInt16Int8" "-" = "map-int16-int8" ∧
    (∀ c ∈ (camelToFlag "MapInt16Int8" "-").data, isUpper c = false) ∧
    ¬ "-".data <+: (camelToFlag "MapInt16Int8" "-").data ∧
    ¬ "-".data <:+ (camelToFlag "MapInt16Int8" "-").data :=
  ⟨by decide,
    (camelToFlag_splits "MapInt16Int8" "-" (by decide) (by decide)).2.2.2.2.2.2⟩

/-! ## Depth of the recursion -/

mutual
theorem parseValN_enough (d : Pkg) :
    ∀ (typ : GoType) (n : Nat) (ro : Bool) (path : List Step) (σ : GoValue)
      (optFuncs : List OptFunc), typ.frames ≤ n →
      parseValN d n typ ro path σ optFuncs = some (parseVal d typ ro path σ optFuncs)
  | .other name kind, n, ro, path, σ, optFuncs, h => by
    cases n with
    | zero => simp [GoType.frames] at h
    | succ m =>
      rw [parseValN, parseVal]
      cases addrValue d (.other name kind) ro path <;> rfl
  | .map name key elem, n, ro, path, σ, optFuncs, h => by
    cases n with
    | zero => simp [GoType.frames] at h
    | succ m =>
      rw [parseValN, parseVal]
      cases addrValue d (.map name key elem) ro path with
      | some v => rfl
      | none =>
        simp only
        split
        · rfl
        · split
          · rfl
          · split
            · rfl
            · split <;> rfl
  | .ptr name elem, n, ro, path, σ, optFuncs, h => by
    cases n with
    | zero => simp [GoType.frames] at h
    | succ m =>
      simp only [GoType.frames, Nat.add_le_add_iff_right] at h
      rw [parseValN, parseVal]
      cases addrValue d (.ptr name elem) ro path with
      | some v => rfl
      | none =>
        simp only
        split
        · rfl
        · split
          · rfl
          · split
            · rfl
            · exact parseValN_enough d elem m ro _ _ optFuncs h
  | .struct name fields, n, ro, path, σ, optFuncs, h => by
    cases n with
    | zero => simp [GoType.frames] at h
    | succ m =>
      cases m with
      | zero => simp [GoType.frames] at h
      | succ k =>
        simp only [GoType.frames, Nat.add_le_add_iff_right] at h
        rw [parseValN, parseVal]
        cases addrValue d (.struct name fields) ro path with
        | some v => rfl
        | none =>
          simp only
          rw [parseFieldsN_enough d fields k 0 ro path σ _ [] h]
          cases parseFields d fields 0 ro path σ (defOpts.apply optFuncs) [] with
          | error p => rfl
          | ok r =>
            obtain ⟨flags, σ1⟩ := r
            rfl
theorem parseFieldsN_enough (d : Pkg) :
    ∀ (fields : FieldList) (n i : Nat) (ro : Bool) (path : List Step) (σ : GoValue)
      (opt : opts) (flags : List Flag), fields.frames ≤ n →
      parseFieldsN d n fields i ro path σ opt flags =
        some (parseFields d fields i ro path σ opt flags)
  | .nil, n, i, ro, path, σ, opt, flags, h => by
    rw [parseFieldsN, parseFields]
  | .cons field typ rest, n, i, ro, path, σ, opt, flags, h => by
    simp only [FieldList.frames, Nat.max_le] at h
    rw [parseFieldsN, parseFields]
    by_cases he : field.PkgPath ≠ "" ∧ field.Anonymous = false
    · rw [if_pos he, if_pos he]
      exact parseFieldsN_enough d rest n (i + 1) ro path σ opt flags h.2
    · rw [if_neg he, if_neg he]
      cases parseFlagTag d field opt with
      | none => exact parseFieldsN_enough d rest n (i + 1) ro path σ opt flags h.2
      | some flag =>
        simp only
        rw [parseValN_enough d typ n _ _ σ _ h.1]
        cases parseVal d typ (decide (field.PkgPath ≠ "")) (path ++ [.field i]) σ
            (nestedOptFuncs opt field (draftFlag d field opt flag)) with
        | error p => rfl
        | ok r =>
          obtain ⟨nested, val, σ1⟩ := r
          cases val with
          | some v =>
            simp only
            exact parseFieldsN_enough d rest n (i + 1) ro path σ1 opt _ h.2
          | none =>
            simp only
            split
            · exact parseFieldsN_enough d rest n (i + 1) ro path σ1 opt _ h.2
            · exact parseFieldsN_enough d rest n (i + 1) ro path σ1 opt _ h.2
end

mutual
theorem GoType.frames_le : ∀ (typ : GoType), typ.frames ≤ 2 * typ.depth + 1
  | .other _ _ => by simp [GoType.frames]
  | .map _ _ _ => by simp [GoType.frames]
  | .ptr _ elem => by
    have := GoType.frames_le elem
    simp only [GoType.frames, GoType.depth]
    omega
  | .struct _ fields => by
    have := FieldList.frames_bound fields
    simp only [GoType.frames, GoType.depth]
    omega
theorem FieldList.frames_bound : ∀ (fields : FieldList), fields.frames ≤ 2 * fields.depth + 1
  | .nil => by simp [FieldList.frames]
  | .cons _ typ rest => by
    have h1 := GoType.frames_le typ
    have h2 := FieldList.frames_bound rest
    simp only [FieldList.frames, FieldList.depth]
    omega
end

/-- C25: the walk on a type, which is a finite tree, always returns, and with as many calls
of `parseVal` and `parseStruct` on the stack as twice the nesting depth of the type plus
one, the walk bounded in depth returns what `parseVal` returns; the same holds for the loop
of `parseStruct`. Every recursive call is made on a part of the type: the element of a
pointer, the fields of a struct, the type of a field. -/
theorem walk_depth_bounded (d : Pkg) (typ : GoType) (n : Nat) (ro : Bool)
    (path : List Step) (σ : GoValue) (optFuncs : List OptFunc)
    (h : 2 * typ.depth + 1 ≤ n) :
    parseValN d n typ ro path σ optFuncs = some (parseVal d typ ro path σ optFuncs) ∧
    (∀ fields m i opt flags, 2 * fields.depth + 1 ≤ m →
      parseFieldsN d m fields i ro path σ opt flags =
        some (parseFields d fields i ro path σ opt flags)) ∧
    (∀ name elem, sizeOf elem < sizeOf (GoType.ptr name elem)) ∧
    (∀ name fields, sizeOf fields < sizeOf (GoType.struct name fields)) ∧
    (∀ field t rest, sizeOf t < sizeOf (FieldList.cons field t rest) ∧
      sizeOf rest < sizeOf (FieldList.cons field t rest)) := by
  refine ⟨?_, ?_, ?_, ?_, ?_⟩
  · exact parseValN_enough d typ n ro path σ optFuncs (Nat.le_trans (GoType.frames_le typ) h)
  · intro fields m i opt flags hm
    exact parseFieldsN_enough d fields m i ro path σ opt flags
      (Nat.le_trans (FieldList.frames_bound fields) hm)
  · intro name elem
    simp
  · intro name fields
    simp
  · intro field t rest
    exact ⟨by simp; omega, by simp⟩

/-- C25 on `nestedCfg` of the tests, whose struct type has the nesting depth 4 (`Sub`, the
pointer `SUB2` and its struct, below the root struct): nine calls are enough; the walk
needs eight, and with seven the bounded walk stops short. -/
theorem walk_depth_bounded_witness :
    (GoType.struct "" nestedCfgFields).depth = 4 ∧
    parseValN testPkg 9 (.struct "" nestedCfgFields) false [.deref] nestedCfgValue [] =
      some (parseVal testPkg (.struct "" nestedCfgFields) false [.deref] nestedCfgValue []) ∧
    parseValN testPkg 7 (.struct "" nestedCfgFields) false [.deref] nestedCfgValue [] =
      none :=
  ⟨by decide,
    (walk_depth_bounded testPkg (.struct "" nestedCfgFields) 9 false [.deref] nestedCfgValue
      [] (by decide)).1,
    rfl⟩

end Sflags
